import Mathlib

/-
Verification of the insurance-intake backend services.

This file gives a shallow embedding of the two service modules
`backend/services/chat_service.py` and
`backend/services/pdf_ingestion_service.py`, together with the pieces of
the Python standard library they depend on (`json.loads`, `json.dumps`,
`str.strip`, f-string rendering, `datetime` time-of-day rendering), and
proves the behavioural claims about them.

Modelling conventions:
  * Python strings are Lean `String`s; the string algorithms work on the
    underlying `List Char` (one element per code point, as in Python).
  * Python exceptions are `Except`; functions that cannot raise are total.
  * JSON numbers are kept as their source lexemes (a `String`), which is
    faithful up to the numeric-value identification Python performs; no
    claim in scope distinguishes numerically equal lexemes.
  * Recursive functions take an explicit fuel argument so that they are
    structurally recursive and compute by kernel reduction.  Callers pass
    `2 * length + 2` fuel, which exceeds the maximal possible recursion
    depth for the given input, so the artificial out-of-fuel branch is
    unreachable on every input.
  * `datetime.fromtimestamp(...).strftime("%H:%M:%S")` uses the local
    timezone in Python; the embedding fixes the timezone to UTC.  No claim
    depends on the rendered clock time.
-/

namespace IntakeSpec

/-! ## Python string whitespace and stripping -/

/-- The whitespace characters removed by Python `str.strip()`
(CPython: Unicode whitespace). -/
def isPws (c : Char) : Bool :=
  c = ' ' || c = '\t' || c = '\n' || c = '\r' || c = '\x0b' || c = '\x0c' ||
  c = '\x1c' || c = '\x1d' || c = '\x1e' || c = '\x1f' || c = '\x85' || c = '\xa0' ||
  c = '\u1680' || c = '\u2000' || c = '\u2001' || c = '\u2002' || c = '\u2003' ||
  c = '\u2004' || c = '\u2005' || c = '\u2006' || c = '\u2007' || c = '\u2008' ||
  c = '\u2009' || c = '\u200a' || c = '\u2028' || c = '\u2029' || c = '\u202f' ||
  c = '\u205f' || c = '\u3000'

/-- The JSON whitespace characters skipped by `json.loads`
(CPython `WHITESPACE` regex: space, tab, newline, carriage return). -/
def isJws (c : Char) : Bool :=
  c = ' ' || c = '\t' || c = '\n' || c = '\r'

/-- Removing a maximal run of `p`-characters from the right end of a list. -/
def dropRightWhile (p : Char → Bool) (cs : List Char) : List Char :=
  (List.dropWhile p cs.reverse).reverse

/-- Python `str.strip(chars)`: remove a maximal run of `p`-characters from
both ends. -/
def pyStripWith (p : Char → Bool) (cs : List Char) : List Char :=
  dropRightWhile p (List.dropWhile p cs)

/-- Python `str.strip()` on a string. -/
def py_strip (s : String) : String := ⟨pyStripWith isPws s.data⟩

/-! ## Python objects produced by `json.loads`

`PyObj` is the image of JSON under CPython decoding: JSON `null` becomes
the Python `None` object, so a parsed `null` is indistinguishable from
the "no value" `None` that `_safe_parse_json` returns on failure — which
is exactly the overloading claims C2/C10 are about. -/

inductive PyObj : Type where
  | pyNone : PyObj
  | pyBool : Bool → PyObj
  | pyNum : String → PyObj
  | pyStr : String → PyObj
  | pyList : List PyObj → PyObj
  | pyDict : List (String × PyObj) → PyObj
deriving Repr

/-- Errors produced by the `json.loads` model.  CPython attaches line and
column information to the message; the embedding keeps only the phrase. -/
inductive JsonErr : Type where
  | expectingValue : JsonErr
  | extraData : JsonErr
  | unterminatedString : JsonErr
  | invalidControl : JsonErr
  | invalidEscape : JsonErr
  | invalidUEscape : JsonErr
  | expectingComma : JsonErr
  | expectingColon : JsonErr
  | expectingPropertyName : JsonErr
  | depthExceeded : JsonErr
deriving Repr, DecidableEq

/-- The message carried by the decode error (`str(exc)` in the service). -/
def JsonErr.msg : JsonErr → String
  | .expectingValue => "Expecting value"
  | .extraData => "Extra data"
  | .unterminatedString => "Unterminated string starting at"
  | .invalidControl => "Invalid control character"
  | .invalidEscape => "Invalid \\escape"
  | .invalidUEscape => "Invalid \\uXXXX escape"
  | .expectingComma => "Expecting \x27,\x27 delimiter"
  | .expectingColon => "Expecting \x27:\x27 delimiter"
  | .expectingPropertyName => "Expecting property name enclosed in double quotes"
  | .depthExceeded => "maximum recursion depth exceeded"

/-! ## The `json.loads` model -/

/-- Value of a hexadecimal digit, as accepted in `\uXXXX` escapes. -/
def hexVal (c : Char) : Option Nat :=
  if '0' ≤ c ∧ c ≤ '9' then some (c.toNat - 48)
  else if 'a' ≤ c ∧ c ≤ 'f' then some (c.toNat - 87)
  else if 'A' ≤ c ∧ c ≤ 'F' then some (c.toNat - 55)
  else none

/-- The single-character JSON string escapes (CPython `BACKSLASH` table). -/
def escChar (c : Char) : Option Char :=
  if c = '"' then some '"'
  else if c = '\\' then some '\\'
  else if c = '/' then some '/'
  else if c = 'b' then some '\x08'
  else if c = 'f' then some '\x0c'
  else if c = 'n' then some '\n'
  else if c = 'r' then some '\r'
  else if c = 't' then some '\t'
  else none

/-- Read the four hex digits of a `\uXXXX` escape, returning the code
unit and the rest of the input. -/
def readHex4 : List Char → Option (Nat × List Char)
  | h1 :: h2 :: h3 :: h4 :: rest =>
    (hexVal h1).bind fun a =>
      (hexVal h2).bind fun b =>
        (hexVal h3).bind fun d =>
          (hexVal h4).map fun g => (4096 * a + 256 * b + 16 * d + g, rest)
  | _ => none

/-- Scan the body of a JSON string (the opening quote has already been
consumed), as CPython `py_scanstring` with `strict=True`: raw control
characters are rejected, escapes are decoded, scanning stops at the first
unescaped quote.  Surrogate-pair recombination of `\uXXXX` escapes is not
modelled; `Char.ofNat` is applied to the code unit. -/
def scanString : Nat → List Char → Except JsonErr (List Char × List Char)
  | 0, _ => .error .depthExceeded
  | _ + 1, [] => .error .unterminatedString
  | f + 1, c :: cs =>
    if c = '"' then .ok ([], cs)
    else if c = '\\' then
      match cs with
      | [] => .error .unterminatedString
      | e :: cs2 =>
        if e = 'u' then
          match readHex4 cs2 with
          | some (code, cs3) =>
            match scanString f cs3 with
            | .ok (s, r) => .ok (Char.ofNat code :: s, r)
            | .error err => .error err
          | none => .error .invalidUEscape
        else
          match escChar e with
          | some ch =>
            match scanString f cs2 with
            | .ok (s, r) => .ok (ch :: s, r)
            | .error err => .error err
          | none => .error .invalidEscape
    else if c.toNat < 32 then .error .invalidControl
    else
      match scanString f cs with
      | .ok (s, r) => .ok (c :: s, r)
      | .error err => .error err

/-- Strip a literal character sequence from the front of the input,
returning the rest (`str.startswith` plus slicing). -/
def isLitPre : List Char → List Char → Option (List Char)
  | [], cs => some cs
  | _ :: _, [] => none
  | l :: ls, c :: cs => if c = l then isLitPre ls cs else none

/-- The integer part of the JSON number grammar: `-?(0|[1-9][0-9]*)`
has already had its optional sign removed; this matches `0|[1-9][0-9]*`. -/
def matchIntPart : List Char → Option (List Char × List Char)
  | [] => none
  | c :: cs =>
    if c = '0' then some (['0'], cs)
    else if c.isDigit then
      some (c :: List.takeWhile Char.isDigit cs, List.dropWhile Char.isDigit cs)
    else none

/-- The optional fraction part `(\.[0-9]+)?`; returns `[]` when absent. -/
def matchFrac : List Char → List Char × List Char
  | [] => ([], [])
  | c :: cs =>
    if c = '.' then
      let ds := List.takeWhile Char.isDigit cs
      if ds = [] then ([], c :: cs)
      else ('.' :: ds, List.dropWhile Char.isDigit cs)
    else ([], c :: cs)

/-- The optional exponent part `([eE][-+]?[0-9]+)?`; returns `[]` when absent. -/
def matchExpPart : List Char → List Char × List Char
  | [] => ([], [])
  | c :: cs =>
    if c = 'e' ∨ c = 'E' then
      match cs with
      | [] => ([], c :: cs)
      | s :: cs2 =>
        if s = '+' ∨ s = '-' then
          let ds := List.takeWhile Char.isDigit cs2
          if ds = [] then ([], c :: cs)
          else (c :: s :: ds, List.dropWhile Char.isDigit cs2)
        else
          let ds := List.takeWhile Char.isDigit cs
          if ds = [] then ([], c :: cs)
          else (c :: ds, List.dropWhile Char.isDigit cs)
    else ([], c :: cs)

/-- CPython `NUMBER_RE`: `(-?(?:0|[1-9]\d*))(\.\d+)?([eE][-+]?\d+)?`,
matched at the start of the input; returns the lexeme and the rest. -/
def matchNumber (cs : List Char) : Option (List Char × List Char) :=
  let sr : List Char × List Char :=
    match cs with
    | c :: rest => if c = '-' then (['-'], rest) else ([], c :: rest)
    | [] => ([], [])
  match matchIntPart sr.2 with
  | none => none
  | some (ip, cs2) =>
    let fr := matchFrac cs2
    let ex := matchExpPart fr.2
    some (sr.1 ++ ip ++ fr.1 ++ ex.1, ex.2)

/-- `json.loads` whitespace skipping (`_w(s, idx)`). -/
def skipJws (cs : List Char) : List Char := List.dropWhile isJws cs

/-- Insert one `key: value` pair as Python `dict` construction does:
a duplicate key keeps its original position and takes the new value. -/
def dictInsert (acc : List (String × PyObj)) (kv : String × PyObj) :
    List (String × PyObj) :=
  if acc.any (fun p => p.1 = kv.1) then
    acc.map (fun p => if p.1 = kv.1 then (p.1, kv.2) else p)
  else acc ++ [kv]

/-- Build the dict from the scanned member list (CPython `dict(pairs)`). -/
def pyDictOf (ms : List (String × PyObj)) : List (String × PyObj) :=
  ms.foldl dictInsert []

mutual

/-- One JSON value, as CPython `_scan_once`: dispatch on the first
character; literals `true`/`false`/`null`/`NaN`/`Infinity`/`-Infinity`,
strings, numbers, arrays and objects.  Leading whitespace is not skipped
here (the decoder does that), and no trailing whitespace is consumed. -/
def parseValue : Nat → List Char → Except JsonErr (PyObj × List Char)
  | 0, _ => .error .depthExceeded
  | _ + 1, [] => .error .expectingValue
  | f + 1, c :: cs =>
    if c = '"' then
      match scanString f cs with
      | .ok (s, r) => .ok (.pyStr ⟨s⟩, r)
      | .error e => .error e
    else if c = '\x7b' then
      let r := skipJws cs
      if r.head? = some '\x7d' then .ok (.pyDict [], r.tail)
      else
        match parseMembers f r with
        | .ok (ms, r2) => .ok (.pyDict (pyDictOf ms), r2)
        | .error e => .error e
    else if c = '[' then
      let r := skipJws cs
      if r.head? = some ']' then .ok (.pyList [], r.tail)
      else
        match parseElems f r with
        | .ok (vs, r2) => .ok (.pyList vs, r2)
        | .error e => .error e
    else if c = 't' then
      match isLitPre ['r', 'u', 'e'] cs with
      | some r => .ok (.pyBool true, r)
      | none => .error .expectingValue
    else if c = 'f' then
      match isLitPre ['a', 'l', 's', 'e'] cs with
      | some r => .ok (.pyBool false, r)
      | none => .error .expectingValue
    else if c = 'n' then
      match isLitPre ['u', 'l', 'l'] cs with
      | some r => .ok (.pyNone, r)
      | none => .error .expectingValue
    else if c = 'N' then
      match isLitPre ['a', 'N'] cs with
      | some r => .ok (.pyNum "NaN", r)
      | none => .error .expectingValue
    else if c = 'I' then
      match isLitPre ['n', 'f', 'i', 'n', 'i', 't', 'y'] cs with
      | some r => .ok (.pyNum "Infinity", r)
      | none => .error .expectingValue
    else
      match matchNumber (c :: cs) with
      | some (lex, r) => .ok (.pyNum ⟨lex⟩, r)
      | none =>
        if c = '-' then
          match isLitPre ['I', 'n', 'f', 'i', 'n', 'i', 't', 'y'] cs with
          | some r => .ok (.pyNum "-Infinity", r)
          | none => .error .expectingValue
        else .error .expectingValue

/-- The elements of a non-empty JSON array, after `[` and leading
whitespace have been consumed (CPython `JSONArray` loop). -/
def parseElems : Nat → List Char → Except JsonErr (List PyObj × List Char)
  | 0, _ => .error .depthExceeded
  | f + 1, cs =>
    match parseValue f cs with
    | .error e => .error e
    | .ok (v, r) =>
      match skipJws r with
      | [] => .error .expectingComma
      | c :: r2 =>
        if c = ']' then .ok ([v], r2)
        else if c = ',' then
          match parseElems f (skipJws r2) with
          | .ok (vs, r3) => .ok (v :: vs, r3)
          | .error e => .error e
        else .error .expectingComma

/-- The members of a non-empty JSON object, after `{` and leading
whitespace have been consumed (CPython `JSONObject` loop). -/
def parseMembers : Nat → List Char → Except JsonErr (List (String × PyObj) × List Char)
  | 0, _ => .error .depthExceeded
  | f + 1, cs =>
    match cs with
    | [] => .error .expectingPropertyName
    | c :: cs1 =>
      if c = '"' then
        match scanString f cs1 with
        | .error e => .error e
        | .ok (key, r1) =>
          match skipJws r1 with
          | [] => .error .expectingColon
          | c2 :: r2 =>
            if c2 = ':' then
              match parseValue f (skipJws r2) with
              | .error e => .error e
              | .ok (v, r3) =>
                match skipJws r3 with
                | [] => .error .expectingComma
                | c3 :: r4 =>
                  if c3 = ',' then
                    match parseMembers f (skipJws r4) with
                    | .ok (ms, r5) => .ok ((⟨key⟩, v) :: ms, r5)
                    | .error e => .error e
                  else if c3 = '\x7d' then .ok ([(⟨key⟩, v)], r4)
                  else .error .expectingComma
            else .error .expectingColon
      else .error .expectingPropertyName

end

/-- The decoder around the scanner (`JSONDecoder.decode`): skip leading
whitespace, scan one value, require only whitespace after it. -/
def loadsWith (f : Nat) (cs : List Char) : Except JsonErr PyObj :=
  match parseValue f (skipJws cs) with
  | .error e => .error e
  | .ok (v, r) => if skipJws r = [] then .ok v else .error .extraData

/-- `json.loads` on a list of characters. -/
def json_loads_list (cs : List Char) : Except JsonErr PyObj :=
  loadsWith (2 * cs.length + 2) cs

/-- `json.loads` on a string. -/
def json_loads (s : String) : Except JsonErr PyObj := json_loads_list s.data

/-! ## `PDFIngestionService._safe_parse_json` -/

/-- The cleaning performed by `_safe_parse_json` before parsing:
strip surrounding whitespace; if the text starts with a triple backtick,
strip all leading/trailing backticks and then a leading `json` tag. -/
def clean_response (cs : List Char) : List Char :=
  let cleaned := pyStripWith isPws cs
  if (isLitPre ['`', '`', '`'] cleaned).isSome then
    let c2 := pyStripWith (fun c => c = '`') cleaned
    if (isLitPre ['j', 's', 'o', 'n'] c2).isSome then c2.drop 4 else c2
  else cleaned

/-- `PDFIngestionService._safe_parse_json` on a list of characters:
returns `(parsed_json, error_message)`.  A failed parse yields the Python
`None` object and the decoder message; it never raises. -/
def safe_parse_json_list (cs : List Char) : PyObj × Option String :=
  match loadsWith (2 * cs.length + 2) (clean_response cs) with
  | .ok v => (v, none)
  | .error e => (.pyNone, some e.msg)

/-- `PDFIngestionService._safe_parse_json` on a string. -/
def safe_parse_json (s : String) : PyObj × Option String :=
  safe_parse_json_list s.data

/-! ## Python value rendering: truthiness, `str()`, `json.dumps` -/

/-- Whether a numeric lexeme denotes zero (so that the value is falsy):
every mantissa digit is `0`.  `NaN` and `Infinity` are non-zero. -/
def isZeroLexeme (s : String) : Bool :=
  let cs := match s.data with
    | '-' :: r => r
    | r => r
  let mantissa := cs.takeWhile (fun c => ¬ (c = 'e' ∨ c = 'E'))
  ¬ mantissa.isEmpty && mantissa.all (fun c => c = '0' ∨ c = '.')

/-- Python truthiness of a decoded JSON value. -/
def py_truthy : PyObj → Bool
  | .pyNone => false
  | .pyBool b => b
  | .pyNum lex => ¬ isZeroLexeme lex
  | .pyStr s => s ≠ ""
  | .pyList l => ¬ l.isEmpty
  | .pyDict d => ¬ d.isEmpty

/-- Python truthiness of an optional environment string (`os.getenv` result). -/
def py_truthy_opt : Option String → Bool
  | none => false
  | some s => s ≠ ""

mutual

/-- Size of a decoded JSON value (an upper bound on its nesting depth,
used as fuel for the rendering functions). -/
def pySize : PyObj → Nat
  | .pyNone => 1
  | .pyBool _ => 1
  | .pyNum _ => 1
  | .pyStr _ => 1
  | .pyList items => pySizeList items + 1
  | .pyDict entries => pySizeEntries entries + 1

/-- Size of a list of values. -/
def pySizeList : List PyObj → Nat
  | [] => 1
  | x :: xs => pySize x + pySizeList xs

/-- Size of a list of entries. -/
def pySizeEntries : List (String × PyObj) → Nat
  | [] => 1
  | kv :: es => pySize kv.2 + pySizeEntries es

end

/-- Hexadecimal digit characters. -/
def hexDigit (n : Nat) : Char :=
  if n < 10 then Char.ofNat (48 + n) else Char.ofNat (87 + n)

/-- Four-digit lowercase hex rendering, as in `\uXXXX` escapes emitted by
`json.dumps(..., ensure_ascii=True)`. -/
def hex4 (n : Nat) : String :=
  ⟨[hexDigit (n / 4096 % 16), hexDigit (n / 256 % 16), hexDigit (n / 16 % 16), hexDigit (n % 16)]⟩

/-- Escape one character inside a dumped JSON string. -/
def dumpsEscChar (ensureAscii : Bool) (c : Char) : String :=
  if c = '"' then "\\\""
  else if c = '\\' then "\\\\"
  else if c = '\n' then "\\n"
  else if c = '\t' then "\\t"
  else if c = '\r' then "\\r"
  else if c = '\x08' then "\\b"
  else if c = '\x0c' then "\\f"
  else if c.toNat < 32 then "\\u" ++ hex4 c.toNat
  else if ensureAscii ∧ c.toNat > 126 then
    if c.toNat ≤ 65535 then "\\u" ++ hex4 c.toNat
    else
      "\\u" ++ hex4 (55296 + (c.toNat - 65536) / 1024) ++
      "\\u" ++ hex4 (56320 + (c.toNat - 65536) % 1024)
  else String.singleton c

/-- The quoted, escaped rendering of a string by `json.dumps`. -/
def dumpsStr (ensureAscii : Bool) (s : String) : String :=
  "\"" ++ String.join (s.data.map (dumpsEscChar ensureAscii)) ++ "\""

/-- `json.dumps(obj, indent=2)` at nesting level `lvl`.  The fuel argument
makes the recursion structural; callers pass `sizeOf obj`, which strictly
exceeds the nesting depth, so the out-of-fuel branch is unreachable.
Numbers are emitted as their stored lexeme. -/
def dumpsVal (ensureAscii : Bool) : Nat → Nat → PyObj → String
  | 0, _, _ => ""
  | _ + 1, _, .pyNone => "null"
  | _ + 1, _, .pyBool true => "true"
  | _ + 1, _, .pyBool false => "false"
  | _ + 1, _, .pyNum lex => lex
  | _ + 1, _, .pyStr s => dumpsStr ensureAscii s
  | f + 1, lvl, .pyList items =>
    if items.isEmpty then "[]"
    else
      let pad := String.mk (List.replicate (2 * (lvl + 1)) ' ')
      "[\n" ++
        String.intercalate ",\n" (items.map (fun v => pad ++ dumpsVal ensureAscii f (lvl + 1) v)) ++
        "\n" ++ String.mk (List.replicate (2 * lvl) ' ') ++ "]"
  | f + 1, lvl, .pyDict entries =>
    if entries.isEmpty then "\x7b\x7d"
    else
      let pad := String.mk (List.replicate (2 * (lvl + 1)) ' ')
      "\x7b\n" ++
        String.intercalate ",\n"
          (entries.map (fun kv =>
            pad ++ dumpsStr ensureAscii kv.1 ++ ": " ++ dumpsVal ensureAscii f (lvl + 1) kv.2)) ++
        "\n" ++ String.mk (List.replicate (2 * lvl) ' ') ++ "\x7d"

/-- `json.dumps(obj, indent=2)` (with the `ensure_ascii` flag). -/
def py_dumps_indent2 (ensureAscii : Bool) (obj : PyObj) : String :=
  dumpsVal ensureAscii (pySize obj) 0 obj

/-- Python `repr` of a decoded JSON value (used by `str()` on containers).
String escaping inside `repr` is simplified to plain quoting; no claim
evaluates it. -/
def py_repr : Nat → PyObj → String
  | 0, _ => ""
  | _ + 1, .pyNone => "None"
  | _ + 1, .pyBool true => "True"
  | _ + 1, .pyBool false => "False"
  | _ + 1, .pyNum lex => lex
  | _ + 1, .pyStr s => "\x27" ++ s ++ "\x27"
  | f + 1, .pyList items =>
    "[" ++ String.intercalate ", " (items.map (py_repr f)) ++ "]"
  | f + 1, .pyDict entries =>
    "\x7b" ++
      String.intercalate ", "
        (entries.map (fun kv => "\x27" ++ kv.1 ++ "\x27: " ++ py_repr f kv.2)) ++
      "\x7d"

/-- Python `str()` as used in f-string interpolation. -/
def py_to_str : PyObj → String
  | .pyNone => "None"
  | .pyBool true => "True"
  | .pyBool false => "False"
  | .pyNum lex => lex
  | .pyStr s => s
  | .pyList items => py_repr (pySize (.pyList items)) (.pyList items)
  | .pyDict entries => py_repr (pySize (.pyDict entries)) (.pyDict entries)

/-! ## Python dict access -/

/-- `dict.get(key)` (`None` when absent is rendered by the caller). -/
def dict_get (entries : List (String × PyObj)) (k : String) : Option PyObj :=
  (entries.find? (fun p => p.1 = k)).map Prod.snd

/-- `dict.get(key, default)`. -/
def dict_getD (entries : List (String × PyObj)) (k : String) (d : PyObj) : PyObj :=
  (dict_get entries k).getD d

/-- `key in dict`. -/
def dict_contains (entries : List (String × PyObj)) (k : String) : Bool :=
  (dict_get entries k).isSome

/-! ## `datetime.fromtimestamp(ms / 1000).strftime("%H:%M:%S")`

The service renders an epoch-milliseconds timestamp as a clock time.
Python uses the local timezone; the embedding fixes it to UTC.  A
non-numeric timestamp raises (`timestamp / 1000` is a `TypeError`), which
the chat entry point catches. -/

/-- Numeric value of a digit run. -/
def digitsToNat (ds : List Char) : Nat :=
  ds.foldl (fun a c => 10 * a + (c.toNat - 48)) 0

/-- The rational value of a finite numeric lexeme
(`none` for `NaN`/`Infinity`/`-Infinity` or a malformed lexeme). -/
def lexemeToRat (s : String) : Option Rat :=
  let p : Bool × List Char := match s.data with
    | '-' :: r => (true, r)
    | r => (false, r)
  let intD := p.2.takeWhile Char.isDigit
  let cs2 := p.2.dropWhile Char.isDigit
  if intD.isEmpty then none
  else
    let fp : List Char × List Char := match cs2 with
      | '.' :: r => (r.takeWhile Char.isDigit, r.dropWhile Char.isDigit)
      | _ => ([], cs2)
    let ep : Option (Int × List Char) := match fp.2 with
      | [] => some (0, [])
      | c :: r =>
        if c = 'e' ∨ c = 'E' then
          let sp : Bool × List Char := match r with
            | '-' :: r2 => (true, r2)
            | '+' :: r2 => (false, r2)
            | r2 => (false, r2)
          let eD := sp.2.takeWhile Char.isDigit
          if eD.isEmpty then none
          else some (if sp.1 then -(digitsToNat eD : Int) else (digitsToNat eD : Int),
                     sp.2.dropWhile Char.isDigit)
        else none
    match ep with
    | none => none
    | some (e, rest) =>
      if ¬ rest.isEmpty then none
      else
        let m : Rat := (digitsToNat (intD ++ fp.1) : Rat) / ((10 : Rat) ^ fp.1.length)
        let m := if p.1 then -m else m
        some (m * (10 : Rat) ^ (e : Int))

/-- Zero-padded two-digit rendering. -/
def pad2 (n : Nat) : String :=
  if n < 10 then "0" ++ toString n else toString n

/-- `%H:%M:%S` of an epoch expressed in milliseconds (UTC). -/
def py_time_hms (ms : Rat) : String :=
  let secs : Int := ⌊ms / 1000⌋
  let sod : Nat := (secs % 86400).toNat
  pad2 (sod / 3600) ++ ":" ++ pad2 (sod / 60 % 60) ++ ":" ++ pad2 (sod % 60)

/-- `datetime.fromtimestamp(timestamp / 1000).strftime("%H:%M:%S")` on a
decoded JSON value (only numbers and bools divide by 1000; everything
else raises a `TypeError`, and a non-finite float raises a `ValueError`). -/
def py_timestamp_str : PyObj → Except String String
  | .pyBool b => .ok (py_time_hms (if b then 1 else 0))
  | .pyNum lex =>
    match lexemeToRat lex with
    | some q => .ok (py_time_hms q)
    | none => .error "ValueError: year is out of range"
  | _ => .error "TypeError: unsupported operand type for /"

/-! ## `ChatService._format_event_log_summary` -/

/-- Python `str.splitlines()` restricted to `\n` separators (the only
separator `json.dumps` output contains). -/
def py_splitlines (s : String) : List String :=
  if s = "" then []
  else
    let parts := s.split (fun c => c = '\n')
    if s.data.getLast? = some '\n' then parts.dropLast else parts

/-- The transition description of one event-log entry: the code tests the
*truthiness* of `event.get("fromNodeId")`, so an absent, `None`, empty or
otherwise falsy `fromNodeId` renders as `Started: {toNodeId}`. -/
def event_desc (entries : List (String × PyObj)) : String :=
  let from_node := dict_getD entries "fromNodeId" .pyNone
  let to_node := dict_getD entries "toNodeId" .pyNone
  if py_truthy from_node then py_to_str from_node ++ " → " ++ py_to_str to_node
  else "Started: " ++ py_to_str to_node

/-- The timeline lines contributed by one well-formed (dict) event-log
entry: the headline, then optional `reason:`, `action:` and `actionData`
lines.  Raises (as the Python does) when a truthy timestamp is not a
number. -/
def event_entry_lines (entries : List (String × PyObj)) : Except String (List String) :=
  let timestamp := dict_getD entries "timestamp" (.pyNum "0")
  match (if py_truthy timestamp then py_timestamp_str timestamp else .ok "N/A") with
  | .error e => .error e
  | .ok time_str =>
    let reason := dict_getD entries "reason" (.pyStr "")
    let action := dict_getD entries "action" .pyNone
    let action_data := dict_getD entries "actionData" .pyNone
    .ok (["  [" ++ time_str ++ "] " ++ event_desc entries] ++
      (if py_truthy reason then ["    reason: " ++ py_to_str reason] else []) ++
      (if py_truthy action then ["    action: " ++ py_to_str action] else []) ++
      (if py_truthy action_data then
        "    actionData:" ::
          (py_splitlines (py_dumps_indent2 true action_data)).map (fun l => "      " ++ l)
      else []))

/-- The timeline body: dict entries contribute their lines in order,
non-dict entries are skipped (the `isinstance` guard with `continue`). -/
def event_log_body : List PyObj → Except String (List String)
  | [] => .ok []
  | .pyDict entries :: rest =>
    match event_entry_lines entries with
    | .error e => .error e
    | .ok ls =>
      match event_log_body rest with
      | .error e => .error e
      | .ok more => .ok (ls ++ more)
  | _ :: rest => event_log_body rest

/-- `ChatService._format_event_log_summary`. -/
def format_event_log_summary (event_log : List PyObj) : Except String String :=
  if event_log.isEmpty then .ok "No agent activity events recorded yet."
  else
    match event_log_body event_log with
    | .error e => .error e
    | .ok body =>
      .ok (String.intercalate "\n"
        (("Total Events Recorded: " ++ toString event_log.length) ::
         "\nChronological Activity Timeline (latest last):" :: body))

/-! ## `ChatService._format_claims_data_summary` -/

/-- The statistics block (only emitted when `statistics` is a dict). -/
def statistics_lines (st : List (String × PyObj)) : List String :=
  ["Statistics:",
   "  - Processed Today: " ++ py_to_str (dict_getD st "processedToday" (.pyNum "0")),
   "  - Processed This Week: " ++ py_to_str (dict_getD st "processedWeek" (.pyNum "0")),
   "  - Processed This Month: " ++ py_to_str (dict_getD st "processedMonth" (.pyNum "0")),
   "  - Accepted Claims: " ++ py_to_str (dict_getD st "accepted" (.pyNum "0")),
   "  - Pending Claims: " ++ py_to_str (dict_getD st "pending" (.pyNum "0")),
   "  - Denied Claims: " ++ py_to_str (dict_getD st "denied" (.pyNum "0")),
   "  - Total Claims: " ++ py_to_str (dict_getD st "total" (.pyNum "0"))]

/-- The summary line for one city record. -/
def city_line_of_dict (cd : List (String × PyObj)) : String :=
  "  - " ++ py_to_str (dict_getD cd "city" (.pyStr "Unknown")) ++
  ": Total=" ++ py_to_str (dict_getD cd "total" (.pyNum "0")) ++
  ", Accepted=" ++ py_to_str (dict_getD cd "accepted" (.pyNum "0")) ++
  ", Pending=" ++ py_to_str (dict_getD cd "pending" (.pyNum "0")) ++
  ", Denied=" ++ py_to_str (dict_getD cd "denied" (.pyNum "0"))

/-- `city.get(...)` on a non-dict raises an `AttributeError` (the exact
CPython message names the offending type; the embedding keeps a fixed
phrase). -/
def city_line : PyObj → Except String String
  | .pyDict cd => .ok (city_line_of_dict cd)
  | _ => .error "AttributeError: object has no attribute \x27get\x27"

/-- The summary line for one recent claim record. -/
def claim_line_of_dict (cd : List (String × PyObj)) : String :=
  "  - " ++ py_to_str (dict_getD cd "claimNumber" (.pyStr "Unknown")) ++
  ": " ++ py_to_str (dict_getD cd "patientName" (.pyStr "Unknown")) ++
  " (" ++ py_to_str (dict_getD cd "status" (.pyStr "Unknown")) ++
  ") - " ++ py_to_str (dict_getD cd "city" (.pyStr "Unknown")) ++
  " - $" ++ py_to_str (dict_getD cd "amount" (.pyNum "0"))

/-- `claim.get(...)` on a non-dict raises. -/
def claim_line : PyObj → Except String String
  | .pyDict cd => .ok (claim_line_of_dict cd)
  | _ => .error "AttributeError: object has no attribute \x27get\x27"

/-- Effectful map over the truncated city / claim lists. -/
def traverseE (f : PyObj → Except String String) : List PyObj → Except String (List String)
  | [] => .ok []
  | x :: xs =>
    match f x with
    | .error e => .error e
    | .ok y =>
      match traverseE f xs with
      | .error e => .error e
      | .ok ys => .ok (y :: ys)

/-- The statistics section of the summary: emitted when `"statistics"`
is present and maps to a dict. -/
def stats_part (entries : List (String × PyObj)) : List String :=
  if dict_contains entries "statistics" then
    match dict_get entries "statistics" with
    | some (.pyDict st) => statistics_lines st
    | _ => []
  else []

/-- The city-distribution section of the summary. -/
def city_part (entries : List (String × PyObj)) : Except String (List String) :=
  if dict_contains entries "cityData" then
    match dict_get entries "cityData" with
    | some (.pyList city_data) =>
      if city_data.isEmpty then .ok []
      else
        match traverseE city_line (city_data.take 10) with
        | .error e => .error e
        | .ok ls => .ok ("\nCity-wise Distribution:" :: ls)
    | _ => .ok []
  else .ok []

/-- The recent-claims section of the summary. -/
def recent_part (entries : List (String × PyObj)) : Except String (List String) :=
  if dict_contains entries "recentClaims" then
    match dict_get entries "recentClaims" with
    | some (.pyList recent) =>
      if recent.isEmpty then .ok []
      else
        match traverseE claim_line (recent.take 5) with
        | .error e => .error e
        | .ok ls => .ok ("\nRecent Claims (sample):" :: ls)
    | _ => .ok []
  else .ok []

/-- `ChatService._format_claims_data_summary` on a dict argument. -/
def format_claims_entries (entries : List (String × PyObj)) : Except String String :=
  match city_part entries with
  | .error e => .error e
  | .ok cityPart =>
    match recent_part entries with
    | .error e => .error e
    | .ok recentPart =>
      .ok (String.intercalate "\n" (stats_part entries ++ cityPart ++ recentPart))

/-- `ChatService._format_claims_data_summary`. -/
def format_claims_data_summary : PyObj → Except String String
  | .pyDict entries => format_claims_entries entries
  | _ => .ok "No claims statistics available."

/-! ## `ChatService` prompts and `chat` -/

/-- The fixed dashboard system prompt preamble. -/
def dashboard_base_prompt : String :=
  "You are an intelligent assistant for SunLife Insurance Claims Processing Dashboard. \nYou help users understand and analyze insurance claims data, statistics, and processing information.\n\nYou can help with:\n1. Explaining claims statistics (processed, accepted, pending, denied)\n2. Analyzing geographical distribution of claims\n3. Understanding claim details and patterns\n4. Answering questions about claims processing\n5. Providing insights about claim trends\n6. Helping with data interpretation and analysis\n\nInstructions:\n1. Be helpful and accurate in your responses\n2. Use the provided claims data when available\n3. Provide specific numbers and statistics when relevant\n4. Keep responses concise but informative\n5. If asked about something not in the data, say so clearly\n6. Format responses with markdown for better readability\n7. Use emojis sparingly to enhance readability (✅ accepted, ⏳ pending, ❌ denied)\n8. When presenting data in tables or lists, ALWAYS use proper markdown table format:\n   - Use markdown tables (| column | column |) for tabular data\n   - Use markdown lists (- or 1.) for sequential data\n   - Use bold (**text**) for emphasis on numbers or key points\n   - Ensure tables are properly formatted with headers and alignment\n\nPlease help the user understand and analyze their insurance claims data."

/-- `ChatService._create_dashboard_prompt`: non-dict claims data and
non-list event logs are treated as absent; empty ones are falsy and
likewise skipped. -/
def create_dashboard_prompt (claims_data : Option PyObj)
    (event_log : Option (List PyObj)) : Except String String :=
  let cd : Option PyObj := match claims_data with
    | some (.pyDict entries) => if entries.isEmpty then none else some (.pyDict entries)
    | _ => none
  let el : Option (List PyObj) := match event_log with
    | some l => if l.isEmpty then none else some l
    | none => none
  let claimsPart : Except String (List String) :=
    match cd with
    | some d =>
      match format_claims_data_summary d with
      | .error e => .error e
      | .ok s => .ok ["\nCurrent Claims Data Summary:\n" ++ s]
    | none => .ok []
  match claimsPart with
  | .error e => .error e
  | .ok claimsLines =>
    let eventPart : Except String (List String) :=
      match el with
      | some l =>
        match format_event_log_summary l with
        | .error e => .error e
        | .ok s =>
          .ok ["\nClaims Process Agent Activity Log:\n" ++ s,
               "\nUse the activity log to answer questions about the claims process agent stages, actions taken, extracted information, branching decisions, and outcomes."]
      | none => .ok []
    match eventPart with
    | .error e => .error e
    | .ok eventLines =>
      let tailLines :=
        if cd.isSome ∨ el.isSome then ["\nUse this data to provide accurate and relevant responses."]
        else []
      .ok (String.intercalate "\n" (dashboard_base_prompt :: (claimsLines ++ eventLines ++ tailLines)))

/-- `ChatService._create_document_prompt` (the document id is unused). -/
def create_document_prompt (_document_id : Option Int) : String :=
  "You are an intelligent document assistant for SunLife Insurance. \nYou help users understand and analyze insurance claim documents, forms, and related paperwork.\n\nYou can help with:\n1. Extracting information from documents\n2. Understanding document content\n3. Answering questions about document details\n4. Identifying key information in forms\n5. Explaining document structure and purpose\n\nInstructions:\n1. Be helpful and accurate in your responses\n2. Use the provided document content when available\n3. Provide specific quotes or references when possible\n4. Keep responses concise but informative\n5. If asked about something not in the document, say so clearly\n6. Format responses with markdown for better readability\n\nPlease help the user understand and analyze their insurance documents."

/-- `ChatService._create_general_prompt`. -/
def create_general_prompt : String :=
  "You are an intelligent assistant for SunLife Insurance Claims Processing Portal. \nYou help users with questions about insurance claims, processing, and general inquiries.\n\nInstructions:\n1. Be helpful and accurate in your responses\n2. Keep responses concise but informative\n3. Format responses with markdown for better readability\n4. If you don\x27t know something, say so clearly\n\nPlease help the user with their questions."

/-- One chat-completion message of the chat service. -/
structure ChatMsg : Type where
  role : String
  content : String
deriving Repr, DecidableEq

/-- The message list assembled by `ChatService.chat` (lines 58–68):
system message, then — when a history is supplied — the last 20 history
entries (all of them when there are at most 20), then the user message. -/
def build_chat_messages (system_prompt : String) (chat_history : List ChatMsg)
    (user_message : String) : List ChatMsg :=
  let messages := [ChatMsg.mk "system" system_prompt]
  let messages :=
    if chat_history.isEmpty then messages
    else messages ++
      (if chat_history.length > 20 then chat_history.drop (chat_history.length - 20)
       else chat_history)
  messages ++ [ChatMsg.mk "user" user_message]

/-- The `{success, response, error}` dictionary returned by `chat`. -/
structure ChatResult : Type where
  success : Bool
  response : Option String
  error : Option String
deriving Repr, DecidableEq

/-- The credential fields of `ChatService.__init__` that decide
`configured` (`bool(endpoint and key)`, using Python truthiness). -/
structure ChatService : Type where
  openai_endpoint : Option String
  openai_key : Option String
deriving Repr, DecidableEq

/-- `self.configured`. -/
def ChatService.configured (svc : ChatService) : Bool :=
  py_truthy_opt svc.openai_endpoint && py_truthy_opt svc.openai_key

/-- The configuration failure message returned by `chat`. -/
def chat_not_configured_msg : String :=
  "Azure OpenAI is not configured. Please set AZURE_OPENAI_ENDPOINT and AZURE_OPENAI_KEY in your .env file."

/-- The system-prompt selection at the head of `ChatService.chat`. -/
def chat_system_prompt (context_type : String) (document_id : Option Int)
    (claims_data : Option PyObj) (event_log : Option (List PyObj)) :
    Except String String :=
  if context_type = "dashboard" then create_dashboard_prompt claims_data event_log
  else if context_type = "document" then .ok (create_document_prompt document_id)
  else .ok create_general_prompt

/-- `ChatService.chat`.  The outbound HTTP call is an oracle: `azure` is
the outcome `_call_azure_openai` would produce; the second component of
the result counts how many times it was invoked. -/
def chat (svc : ChatService) (azure : Except String String) (user_message : String)
    (chat_history : List ChatMsg) (context_type : String) (document_id : Option Int)
    (claims_data : Option PyObj) (event_log : Option (List PyObj)) :
    ChatResult × Nat :=
  match chat_system_prompt context_type document_id claims_data event_log with
  | .error e =>
    ({ success := false, response := none,
       error := some ("Error processing chat request: " ++ e) }, 0)
  | .ok system_prompt =>
    let _messages := build_chat_messages system_prompt chat_history user_message
    if ¬ svc.configured then
      ({ success := false, response := none, error := some chat_not_configured_msg }, 0)
    else
      match azure with
      | .error e =>
        ({ success := false, response := none,
           error := some ("Azure OpenAI API error: " ++ e) }, 1)
      | .ok r => ({ success := true, response := some r, error := none }, 1)

/-! ## `PDFIngestionService` -/

/-- Python slicing / `len` on strings, via code points. -/
def py_take (s : String) (n : Nat) : String := ⟨s.data.take n⟩

/-- `len` of a Python string. -/
def py_len (s : String) : Nat := s.data.length

/-- The metadata dictionary produced by `_extract_pdf_text`. -/
structure ExtractMeta : Type where
  page_count : Nat
  truncated : Bool
  character_count : Nat
  max_chars : Nat
deriving Repr, DecidableEq

/-- `PDFIngestionService._extract_pdf_text`.  The input is the list of
per-page texts produced by `page.extract_text()` (a page whose extraction
raised contributes the empty string, as the `except` branch does): each
page text is stripped, empty pages are dropped, the rest are joined by a
blank line, and the result is truncated to `max_chars`. -/
def extract_pdf_text (pages : List String) (max_chars : Nat) :
    String × ExtractMeta :=
  let text_chunks := pages.map py_strip
  let text := String.intercalate "\n\n" (text_chunks.filter (fun c => c ≠ ""))
  let truncated_text := py_take text max_chars
  (truncated_text,
   { page_count := pages.length,
     truncated := py_len truncated_text < py_len text,
     character_count := py_len truncated_text,
     max_chars := max_chars })

/-- One content part of a multimodal prompt message. -/
inductive ContentPart : Type where
  | textPart : String → ContentPart
  | imagePart : (image_base64 : String) → (mime_type : String) → (page_index : Nat) → ContentPart
deriving Repr, DecidableEq

/-- One message of the PDF-extraction prompt. -/
structure PdfMsg : Type where
  role : String
  content : List ContentPart
deriving Repr, DecidableEq

/-- The environment-derived configuration of `PDFIngestionService.__init__`. -/
structure PdfService : Type where
  openai_endpoint : Option String
  openai_key : Option String
  openai_deployment : Option String
  include_text : Bool
  use_mistral_ocr : Bool
  mistral_endpoint : String
  mistral_key : Option String
  max_chars : Nat
  reference_examples : List PyObj
deriving Repr

/-- `self.configured` of the PDF service (`bool(endpoint and key and deployment)`). -/
def PdfService.pdfConfigured (svc : PdfService) : Bool :=
  py_truthy_opt svc.openai_endpoint && py_truthy_opt svc.openai_key &&
  py_truthy_opt svc.openai_deployment

/-- The fixed extraction instructions of `_build_prompt`. -/
def pdf_instructions : String :=
  "You are a Sun Life insurance PDF ingestion agent. Your task is to extract structured data from dental and medical claim PDFs. Return a single JSON object that mirrors the fields present in the PDF. Use the following guidelines:\n1. Key top-level sections typically include ClaimantInformation, ClaimDetails, ProviderInformation, Invoice, PrescriptionRequest, and AdditionalNotes.\n2. Within each section, include all data points that appear in the document. Use nested objects to reflect structure (e.g., addresses, items, expenses).\n3. Preserve numeric values as numbers when possible, otherwise keep strings.\n4. Use null for fields that are explicitly absent but expected.\n5. NEVER invent data that is not in the document. If unsure, omit the field or set it to null.\n6. Preserve bilingual (French/English) text when present.\n7. Output valid JSON only. Do not include commentary, markdown, or code fences.\n"

/-- The reference-examples snippet: each loadable example is dumped with
`json.dumps(example, indent=2, ensure_ascii=False)`; in the embedding
every `PyObj` is serializable, so none is skipped. -/
def examples_snippet (reference_examples : List PyObj) : String :=
  if reference_examples.isEmpty then ""
  else
    "Here are examples of the desired JSON structure derived from similar documents:\n" ++
    String.intercalate "\n\n" (reference_examples.map (py_dumps_indent2 false))

/-- The user prompt of `_build_prompt` when text inclusion is enabled. -/
def pdf_user_prompt_with_text (file_name : String) (metadata : ExtractMeta)
    (document_text : String) : String :=
  "Document name: " ++ file_name ++ "\n" ++
  "Page count: " ++ toString metadata.page_count ++ "\n" ++
  "Characters processed: " ++ toString metadata.character_count ++ " " ++
  "(truncated=" ++ (if metadata.truncated then "True" else "False") ++ ")\n\n" ++
  "Document content begins below:\n" ++ document_text

/-- The user prompt of `_build_prompt` when text inclusion is disabled. -/
def pdf_user_prompt_images_only (file_name : String) (metadata : ExtractMeta) : String :=
  "Document name: " ++ file_name ++ "\n" ++
  "Page count: " ++ toString metadata.page_count ++ "\n" ++
  "Text extraction was deliberately skipped. Use only the supplied page images to read the document and extract every data field. Return the structured JSON exactly as specified in the instructions."

/-- `PDFIngestionService._build_prompt`: a system message holding the
instructions (plus the examples snippet when present) and a user message
holding the document prompt followed by one image part per rendered page,
in page order. -/
def build_prompt (svc : PdfService) (document_text : String) (file_name : String)
    (metadata : ExtractMeta) (page_images : List String) : List PdfMsg :=
  let snippet := examples_snippet svc.reference_examples
  let system_content :=
    [ContentPart.textPart pdf_instructions] ++
    (if snippet ≠ "" then [ContentPart.textPart snippet] else [])
  let user_prompt :=
    if svc.include_text then pdf_user_prompt_with_text file_name metadata document_text
    else pdf_user_prompt_images_only file_name metadata
  let user_content :=
    ContentPart.textPart user_prompt ::
    page_images.enum.map (fun p => ContentPart.imagePart p.2 "image/jpeg" p.1)
  [{ role := "system", content := system_content },
   { role := "user", content := user_content }]

/-- Image-rendering metadata (`_render_pdf_images` second component). -/
structure ImageInfo : Type where
  rendered_page_count : Nat
  max_pages : Nat
  image_resolution : Option (Nat × Nat × String)
deriving Repr, DecidableEq

/-- The full metadata dictionary carried through `process_pdf`. -/
structure PdfMeta : Type where
  extract : ExtractMeta
  text_source : String
  ocr_warning : Option String
  image_info : ImageInfo
deriving Repr, DecidableEq

/-- The extraction-result dictionary of `process_pdf` (`parse_error` is
only present when parsing failed). -/
structure PdfResult : Type where
  file_name : String
  metadata : PdfMeta
  raw_response : String
  parsed_json : PyObj
  parse_error : Option String
deriving Repr

/-- The external effects `process_pdf` can trigger, supplied as oracles:
the per-page texts `pypdf` extracts, the rendering produced by
`pypdfium2`, the outcome of the Mistral OCR call and the outcome of the
Azure OpenAI call. -/
structure PdfOracles : Type where
  mistral_result : Option String
  render_result : List String × ImageInfo
  azure_result : Except String String
deriving Repr

/-- Outbound network activity recorded while running `process_pdf`. -/
structure CallLog : Type where
  mistral_calls : Nat
  azure_calls : Nat
  azure_messages : List (List PdfMsg)
deriving Repr, DecidableEq

/-- Whether an extraction run returned a result (no exception). -/
def pdfOk (x : Except String PdfResult) : Bool :=
  match x with
  | .ok _ => true
  | .error _ => false

/-- The configuration failure message raised by `process_pdf`. -/
def pdf_not_configured_msg : String :=
  "Azure OpenAI credentials not configured. Please set AZURE_OPENAI_ENDPOINT, AZURE_OPENAI_KEY, and AZURE_OPENAI_DEPLOYMENT in your environment."

/-- The extraction failure message raised by `process_pdf`. -/
def pdf_no_text_msg : String := "Unable to extract readable text from PDF."

/-- `PDFIngestionService.process_pdf`.  `pages` is the list of per-page
texts `pypdf` yields for the document.  A raised `ValueError` or a
propagated Azure error becomes `Except.error`; the call log records the
outbound requests that were made. -/
def process_pdf (svc : PdfService) (oracles : PdfOracles) (pages : List String)
    (file_name : String) : Except String PdfResult × CallLog :=
  if ¬ svc.pdfConfigured then
    (.error pdf_not_configured_msg, { mistral_calls := 0, azure_calls := 0, azure_messages := [] })
  else
    let ex := extract_pdf_text pages svc.max_chars
    let useMistral := svc.include_text && svc.use_mistral_ocr &&
      (svc.mistral_endpoint ≠ "" : Bool) && py_truthy_opt svc.mistral_key
    let step1 : String × String × Option String × Nat :=
      if useMistral then
        match oracles.mistral_result with
        | some t => (t, "mistral_document_ai", none, 1)
        | none => (ex.1, "pypdf", some "Mistral OCR failed; falling back to PyPDF text.", 1)
      else (ex.1, "pypdf", none, 0)
    let text := step1.1
    let metadata : PdfMeta :=
      { extract := ex.2, text_source := step1.2.1, ocr_warning := step1.2.2.1,
        image_info := oracles.render_result.2 }
    if svc.include_text ∧ py_strip text = "" then
      (.error pdf_no_text_msg,
       { mistral_calls := step1.2.2.2, azure_calls := 0, azure_messages := [] })
    else
      let prompt_text := if svc.include_text then text else ""
      let messages := build_prompt svc prompt_text file_name ex.2 oracles.render_result.1
      match oracles.azure_result with
      | .error e =>
        (.error e,
         { mistral_calls := step1.2.2.2, azure_calls := 1, azure_messages := [messages] })
      | .ok raw_response =>
        let pe := safe_parse_json raw_response
        (.ok { file_name := file_name, metadata := metadata, raw_response := raw_response,
               parsed_json := pe.1, parse_error := pe.2 },
         { mistral_calls := step1.2.2.2, azure_calls := 1, azure_messages := [messages] })

/-! # Theorems -/

/-! ## C10: `_safe_parse_json("null")` -/

/-- C10: the valid-JSON input `"null"` makes `_safe_parse_json` return a
`None` parsed component together with a `None` error component, so a
`None` parsed result does not always come with a parse-error message. -/
theorem c10_null_parses_to_none_without_error :
    safe_parse_json "null" = (PyObj.pyNone, none) ∧
    ¬ (∀ s : String, (safe_parse_json s).1 = PyObj.pyNone →
        (safe_parse_json s).2 ≠ none) := by
  refine ⟨rfl, fun h => ?_⟩
  exact h "null" rfl rfl

/-! ## C2: invalid JSON yields `(None, error)` without raising -/

/-- C2: when the cleaned (fence-stripped) text is not valid JSON, the
decoder reports an error and `_safe_parse_json` returns the Python `None`
object together with that non-empty error message.  The embedding is a
total function, so no exception escapes. -/
theorem c2_invalid_json_yields_error (s : String) (e : JsonErr)
    (h : loadsWith (2 * s.data.length + 2) (clean_response s.data) = .error e) :
    safe_parse_json s = (PyObj.pyNone, some e.msg) ∧ e.msg ≠ "" := by
  constructor
  · unfold safe_parse_json safe_parse_json_list
    rw [h]
  · cases e <;> decide

/-- Witness for C2 at the concrete non-JSON input `"hello"`. -/
theorem c2_invalid_json_yields_error_witness :
    safe_parse_json "hello" = (PyObj.pyNone, some "Expecting value") ∧
    "Expecting value" ≠ "" :=
  c2_invalid_json_yields_error "hello" .expectingValue rfl

/-! ## C3: chat history truncation -/

/-- C3: the message list built by `ChatService.chat` keeps, after the
system message, exactly the last 20 history entries in original order
(all of them when the history has at most 20), followed by the new user
message. -/
theorem c3_history_truncation (system_prompt user_message : String)
    (chat_history : List ChatMsg) :
    (20 < chat_history.length →
      build_chat_messages system_prompt chat_history user_message =
        ChatMsg.mk "system" system_prompt ::
          (chat_history.drop (chat_history.length - 20) ++
            [ChatMsg.mk "user" user_message]) ∧
      (chat_history.drop (chat_history.length - 20)).length = 20 ∧
      chat_history.take (chat_history.length - 20) ++
        chat_history.drop (chat_history.length - 20) = chat_history) ∧
    (chat_history.length ≤ 20 →
      build_chat_messages system_prompt chat_history user_message =
        ChatMsg.mk "system" system_prompt ::
          (chat_history ++ [ChatMsg.mk "user" user_message])) := by
  constructor
  · intro hlen
    have hne : chat_history.isEmpty = false := by
      cases chat_history with
      | nil => simp at hlen
      | cons a l => rfl
    refine ⟨?_, ?_, List.take_append_drop _ _⟩
    · unfold build_chat_messages
      rw [hne]
      simp only [Bool.false_eq_true, if_false, if_pos hlen]
      simp
    · rw [List.length_drop]
      omega
  · intro hlen
    unfold build_chat_messages
    cases chat_history with
    | nil => rfl
    | cons a l =>
      have : ¬ (20 < (a :: l).length) := by omega
      simp only [List.isEmpty_cons, Bool.false_eq_true, if_false, if_neg this]
      simp

/-- Witness for C3 at a concrete 21-entry history. -/
theorem c3_history_truncation_witness :
    build_chat_messages "sys"
        ((List.range 21).map (fun i => ChatMsg.mk "user" (toString i))) "go" =
      ChatMsg.mk "system" "sys" ::
        (((List.range 21).map (fun i => ChatMsg.mk "user" (toString i))).drop 1 ++
          [ChatMsg.mk "user" "go"]) ∧
    (((List.range 21).map (fun i => ChatMsg.mk "user" (toString i))).drop 1).length = 20 := by
  have h := (c3_history_truncation "sys" "go"
    ((List.range 21).map (fun i => ChatMsg.mk "user" (toString i)))).1 (by decide)
  refine ⟨?_, ?_⟩
  · have h1 := h.1
    simp only [List.length_map, List.length_range] at h1
    exact h1
  · have h2 := h.2.1
    simp only [List.length_map, List.length_range] at h2
    exact h2

/-! ## C8: `_extract_pdf_text` -/

/-- C8: `_extract_pdf_text` joins the non-empty stripped page texts with a
blank line, truncates to the configured cap, and reports metadata whose
`truncated` flag is set exactly when truncation shortened the text, whose
`character_count` is the length of the returned text, plus the page count
and the cap. -/
theorem c8_extract_text_and_metadata (pages : List String) (max_chars : Nat) :
    (extract_pdf_text pages max_chars).1 =
      py_take (String.intercalate "\n\n" ((pages.map py_strip).filter (fun c => c ≠ ""))) max_chars ∧
    ((extract_pdf_text pages max_chars).2.truncated = true ↔
      max_chars < py_len (String.intercalate "\n\n" ((pages.map py_strip).filter (fun c => c ≠ "")))) ∧
    (extract_pdf_text pages max_chars).2.character_count =
      py_len (extract_pdf_text pages max_chars).1 ∧
    (extract_pdf_text pages max_chars).2.page_count = pages.length ∧
    (extract_pdf_text pages max_chars).2.max_chars = max_chars := by
  refine ⟨rfl, ?_, rfl, rfl, rfl⟩
  unfold extract_pdf_text
  simp only [decide_eq_true_eq]
  unfold py_take py_len
  simp only [List.length_take]
  omega

/-! ## C5: event-line rendering -/

/-- Counterexample to C5 as stated: this entry is *not* missing
`fromNodeId` (it maps it to the empty string), yet the rendered line is
`Started: B` rather than the claimed `{fromNodeId} → {toNodeId}` (which
would be `" → B"`), because the code tests truthiness of the value. -/
theorem c5_nonmissing_fromNodeId_renders_started :
    dict_get [("fromNodeId", PyObj.pyStr ""), ("toNodeId", PyObj.pyStr "B")]
        "fromNodeId" = some (PyObj.pyStr "") ∧
    event_entry_lines [("fromNodeId", PyObj.pyStr ""), ("toNodeId", PyObj.pyStr "B")] =
      .ok ["  [N/A] Started: B"] ∧
    event_desc [("fromNodeId", PyObj.pyStr ""), ("toNodeId", PyObj.pyStr "B")] ≠
      " → B" := by
  refine ⟨rfl, rfl, ?_⟩
  decide

/-- C5 (amended): the rendered timeline line is
`[time] Started: {toNodeId}` when the entry is missing `fromNodeId` — or,
more generally, whenever its `fromNodeId` value is falsy — and
`[time] {fromNodeId} → {toNodeId}` when the value is truthy. -/
theorem c5_event_line_rendering (entries : List (String × PyObj)) (ts : String)
    (hts : (if py_truthy (dict_getD entries "timestamp" (.pyNum "0"))
            then py_timestamp_str (dict_getD entries "timestamp" (.pyNum "0"))
            else .ok "N/A") = .ok ts) :
    (∃ rest, event_entry_lines entries =
       .ok (("  [" ++ ts ++ "] " ++ event_desc entries) :: rest)) ∧
    (dict_get entries "fromNodeId" = none →
      event_desc entries = "Started: " ++ py_to_str (dict_getD entries "toNodeId" .pyNone)) ∧
    (py_truthy (dict_getD entries "fromNodeId" .pyNone) = false →
      event_desc entries = "Started: " ++ py_to_str (dict_getD entries "toNodeId" .pyNone)) ∧
    (py_truthy (dict_getD entries "fromNodeId" .pyNone) = true →
      event_desc entries =
        py_to_str (dict_getD entries "fromNodeId" .pyNone) ++ " → " ++
        py_to_str (dict_getD entries "toNodeId" .pyNone)) := by
  refine ⟨?_, ?_, ?_, ?_⟩
  · unfold event_entry_lines
    simp only [hts]
    exact ⟨_, rfl⟩
  · intro h
    have h2 : dict_getD entries "fromNodeId" .pyNone = .pyNone := by
      unfold dict_getD; rw [h]; rfl
    simp [event_desc, h2, py_truthy]
  · intro h
    simp [event_desc, h]
  · intro h
    simp [event_desc, h]

/-- Witness for C5 at an entry with no `fromNodeId` and no timestamp. -/
theorem c5_event_line_rendering_witness :
    (∃ rest, event_entry_lines [("toNodeId", PyObj.pyStr "B")] =
       .ok (("  [" ++ "N/A" ++ "] " ++ event_desc [("toNodeId", PyObj.pyStr "B")]) :: rest)) ∧
    (dict_get [("toNodeId", PyObj.pyStr "B")] "fromNodeId" = none →
      event_desc [("toNodeId", PyObj.pyStr "B")] =
        "Started: " ++ py_to_str (dict_getD [("toNodeId", PyObj.pyStr "B")] "toNodeId" .pyNone)) ∧
    (py_truthy (dict_getD [("toNodeId", PyObj.pyStr "B")] "fromNodeId" .pyNone) = false →
      event_desc [("toNodeId", PyObj.pyStr "B")] =
        "Started: " ++ py_to_str (dict_getD [("toNodeId", PyObj.pyStr "B")] "toNodeId" .pyNone)) ∧
    (py_truthy (dict_getD [("toNodeId", PyObj.pyStr "B")] "fromNodeId" .pyNone) = true →
      event_desc [("toNodeId", PyObj.pyStr "B")] =
        py_to_str (dict_getD [("toNodeId", PyObj.pyStr "B")] "fromNodeId" .pyNone) ++ " → " ++
        py_to_str (dict_getD [("toNodeId", PyObj.pyStr "B")] "toNodeId" .pyNone)) :=
  c5_event_line_rendering [("toNodeId", PyObj.pyStr "B")] "N/A" rfl

/-! ## C6: non-dict event entries are skipped -/

/-- A non-dict entry contributes nothing to the timeline body. -/
theorem event_log_body_skips_nondict (e : PyObj)
    (hnd : ∀ entries, e ≠ PyObj.pyDict entries) :
    ∀ pre post, event_log_body (pre ++ e :: post) = event_log_body (pre ++ post) := by
  intro pre
  induction pre with
  | nil =>
    intro post
    cases e with
    | pyDict entries => exact absurd rfl (hnd entries)
    | pyNone => rfl
    | pyBool b => rfl
    | pyNum n => rfl
    | pyStr s => rfl
    | pyList l => rfl
  | cons a pre ih =>
    intro post
    cases a with
    | pyDict entries =>
      simp only [List.cons_append, event_log_body, List.append_eq]
      rw [ih post]
    | pyNone => simpa only [List.cons_append, event_log_body, List.append_eq] using ih post
    | pyBool b => simpa only [List.cons_append, event_log_body, List.append_eq] using ih post
    | pyNum n => simpa only [List.cons_append, event_log_body, List.append_eq] using ih post
    | pyStr s => simpa only [List.cons_append, event_log_body, List.append_eq] using ih post
    | pyList l => simpa only [List.cons_append, event_log_body, List.append_eq] using ih post

/-- C6: an event log containing a non-dict entry renders the same
timeline as the log without that entry; the remaining dict entries are
rendered normally and the summary is produced without an error (the
`Total Events Recorded` header still counts every raw entry). -/
theorem c6_nondict_entry_omitted (pre post : List PyObj) (e : PyObj)
    (hnd : ∀ entries, e ≠ PyObj.pyDict entries) :
    event_log_body (pre ++ e :: post) = event_log_body (pre ++ post) ∧
    (∀ body, event_log_body (pre ++ post) = .ok body →
      format_event_log_summary (pre ++ e :: post) =
        .ok (String.intercalate "\n"
          (("Total Events Recorded: " ++ toString (pre ++ e :: post).length) ::
           "\nChronological Activity Timeline (latest last):" :: body))) := by
  refine ⟨event_log_body_skips_nondict e hnd pre post, ?_⟩
  intro body hbody
  have hne : (pre ++ e :: post).isEmpty = false := by
    cases pre <;> rfl
  unfold format_event_log_summary
  rw [hne, event_log_body_skips_nondict e hnd pre post, hbody]
  rfl

/-- Witness for C6 at a two-entry log whose first entry is a bare string. -/
theorem c6_nondict_entry_omitted_witness :
    event_log_body ([] ++ PyObj.pyStr "bad" :: [PyObj.pyDict [("toNodeId", PyObj.pyStr "B")]]) =
      event_log_body ([] ++ [PyObj.pyDict [("toNodeId", PyObj.pyStr "B")]]) ∧
    format_event_log_summary
        ([] ++ PyObj.pyStr "bad" :: [PyObj.pyDict [("toNodeId", PyObj.pyStr "B")]]) =
      .ok (String.intercalate "\n"
        (("Total Events Recorded: " ++
            toString ([] ++ PyObj.pyStr "bad" :: [PyObj.pyDict [("toNodeId", PyObj.pyStr "B")]]).length) ::
         "\nChronological Activity Timeline (latest last):" :: ["  [N/A] Started: B"])) := by
  have h := c6_nondict_entry_omitted [] [PyObj.pyDict [("toNodeId", PyObj.pyStr "B")]]
    (PyObj.pyStr "bad") (fun entries heq => PyObj.noConfusion heq)
  exact ⟨h.1, h.2 ["  [N/A] Started: B"] rfl⟩

/-! ## C7: city / recent-claim truncation -/

/-- Traversing a list of dict records with a per-record renderer. -/
theorem traverseE_map_dict (f : PyObj → Except String String)
    (g : List (String × PyObj) → String)
    (hfg : ∀ d, f (PyObj.pyDict d) = .ok (g d)) :
    ∀ cds : List (List (String × PyObj)),
      traverseE f (cds.map PyObj.pyDict) = .ok (cds.map g) := by
  intro cds
  induction cds with
  | nil => rfl
  | cons c cds ih =>
    simp only [List.map_cons, traverseE, hfg, ih]

/-- C7: the rendered summary contains exactly the lines of the first 10
cities and the first 5 recent claims, in original order. -/
theorem c7_city_and_claim_truncation (entries : List (String × PyObj))
    (cities recent : List PyObj) (cds rds : List (List (String × PyObj)))
    (hc : dict_get entries "cityData" = some (.pyList cities))
    (hr : dict_get entries "recentClaims" = some (.pyList recent))
    (hcd : cities.take 10 = cds.map PyObj.pyDict)
    (hrd : recent.take 5 = rds.map PyObj.pyDict) :
    format_claims_data_summary (.pyDict entries) =
      .ok (String.intercalate "\n"
        (stats_part entries ++
         (if cities.isEmpty then []
          else "\nCity-wise Distribution:" :: cds.map city_line_of_dict) ++
         (if recent.isEmpty then []
          else "\nRecent Claims (sample):" :: rds.map claim_line_of_dict))) ∧
    cds.length ≤ 10 ∧ rds.length ≤ 5 := by
  have hlc : cds.length ≤ 10 := by
    have := congrArg List.length hcd
    simp only [List.length_take, List.length_map] at this
    omega
  have hlr : rds.length ≤ 5 := by
    have := congrArg List.length hrd
    simp only [List.length_take, List.length_map] at this
    omega
  refine ⟨?_, hlc, hlr⟩
  have hcc : dict_contains entries "cityData" = true := by
    unfold dict_contains; rw [hc]; rfl
  have hrc : dict_contains entries "recentClaims" = true := by
    unfold dict_contains; rw [hr]; rfl
  have hcity : city_part entries =
      .ok (if cities.isEmpty then []
           else "\nCity-wise Distribution:" :: cds.map city_line_of_dict) := by
    by_cases hce : cities.isEmpty
    · have h0 : cities = [] := by simpa using hce
      subst h0
      simp [city_part, hcc, hc]
    · simp only [city_part, hcc, hc, if_true]
      rw [hcd, traverseE_map_dict city_line city_line_of_dict (fun d => rfl)]
      simp [hce]
  have hrecent : recent_part entries =
      .ok (if recent.isEmpty then []
           else "\nRecent Claims (sample):" :: rds.map claim_line_of_dict) := by
    by_cases hre : recent.isEmpty
    · have h0 : recent = [] := by simpa using hre
      subst h0
      simp [recent_part, hrc, hr]
    · simp only [recent_part, hrc, hr, if_true]
      rw [hrd, traverseE_map_dict claim_line claim_line_of_dict (fun d => rfl)]
      simp [hre]
  simp only [format_claims_data_summary]
  unfold format_claims_entries
  rw [hcity, hrecent]

/-- Witness for C7 at a summary holding two cities and one recent claim. -/
theorem c7_city_and_claim_truncation_witness :
    format_claims_data_summary
        (.pyDict [("cityData", .pyList [.pyDict [("city", PyObj.pyStr "Toronto")],
                                        .pyDict [("city", PyObj.pyStr "Ottawa")]]),
                  ("recentClaims", .pyList [.pyDict [("status", PyObj.pyStr "Accepted")]])]) =
      .ok (String.intercalate "\n"
        (stats_part [("cityData", .pyList [.pyDict [("city", PyObj.pyStr "Toronto")],
                                           .pyDict [("city", PyObj.pyStr "Ottawa")]]),
                     ("recentClaims", .pyList [.pyDict [("status", PyObj.pyStr "Accepted")]])] ++
         (if ([PyObj.pyDict [("city", PyObj.pyStr "Toronto")],
               PyObj.pyDict [("city", PyObj.pyStr "Ottawa")]] : List PyObj).isEmpty then []
          else "\nCity-wise Distribution:" ::
            ([[("city", PyObj.pyStr "Toronto")], [("city", PyObj.pyStr "Ottawa")]].map city_line_of_dict)) ++
         (if ([PyObj.pyDict [("status", PyObj.pyStr "Accepted")]] : List PyObj).isEmpty then []
          else "\nRecent Claims (sample):" ::
            ([[("status", PyObj.pyStr "Accepted")]].map claim_line_of_dict)))) ∧
    ([[("city", PyObj.pyStr "Toronto")], [("city", PyObj.pyStr "Ottawa")]] :
      List (List (String × PyObj))).length ≤ 10 ∧
    ([[("status", PyObj.pyStr "Accepted")]] : List (List (String × PyObj))).length ≤ 5 :=
  c7_city_and_claim_truncation _ _ _ _ _ rfl rfl rfl rfl

/-! ## C4: unconfigured credentials -/

/-- Counterexample to C4 as stated: with unconfigured credentials *and* a
malformed `claims_data`, the chat call fails without any network call,
but the failure describes the prompt-building error (raised before the
configuration check on line 71), not the missing configuration. -/
theorem c4_chat_error_can_precede_config_check :
    ChatService.configured ⟨none, none⟩ = false ∧
    (chat ⟨none, none⟩ (.ok "resp") "hi" [] "dashboard" none
        (some (.pyDict [("cityData", .pyList [.pyStr "x"])])) none).1.success = false ∧
    (chat ⟨none, none⟩ (.ok "resp") "hi" [] "dashboard" none
        (some (.pyDict [("cityData", .pyList [.pyStr "x"])])) none).2 = 0 ∧
    (chat ⟨none, none⟩ (.ok "resp") "hi" [] "dashboard" none
        (some (.pyDict [("cityData", .pyList [.pyStr "x"])])) none).1.error =
      some ("Error processing chat request: AttributeError: object has no attribute \x27get\x27") ∧
    "Error processing chat request: AttributeError: object has no attribute \x27get\x27" ≠
      chat_not_configured_msg := by
  refine ⟨rfl, rfl, rfl, rfl, ?_⟩
  decide

/-- C4 (amended): with the endpoint or key absent (or empty), neither the
chat call nor the extraction call performs any network request, both
fail, the extraction failure always describes the missing configuration,
and the chat failure does so whenever prompt construction succeeds. -/
theorem c4_unconfigured_no_network
    (endpoint key dep : Option String) (incl mist : Bool) (mep : String)
    (mkey : Option String) (mc : Nat) (re : List PyObj)
    (azure : Except String String) (o : PdfOracles)
    (um : String) (hist : List ChatMsg) (ct : String) (did : Option Int)
    (cd : Option PyObj) (el : Option (List PyObj)) (pages : List String) (fn : String)
    (h : py_truthy_opt endpoint = false ∨ py_truthy_opt key = false) :
    ((chat ⟨endpoint, key⟩ azure um hist ct did cd el).1.success = false ∧
     (chat ⟨endpoint, key⟩ azure um hist ct did cd el).2 = 0 ∧
     (∀ sp, chat_system_prompt ct did cd el = .ok sp →
        (chat ⟨endpoint, key⟩ azure um hist ct did cd el).1.error =
          some chat_not_configured_msg)) ∧
    process_pdf ⟨endpoint, key, dep, incl, mist, mep, mkey, mc, re⟩ o pages fn =
      (.error pdf_not_configured_msg,
       { mistral_calls := 0, azure_calls := 0, azure_messages := [] }) := by
  have hconf : ChatService.configured ⟨endpoint, key⟩ = false := by
    unfold ChatService.configured
    rcases h with h | h <;> simp [h]
  have hpconf :
      PdfService.pdfConfigured ⟨endpoint, key, dep, incl, mist, mep, mkey, mc, re⟩ = false := by
    unfold PdfService.pdfConfigured
    rcases h with h | h <;> simp [h]
  constructor
  · unfold chat
    cases hsp : chat_system_prompt ct did cd el with
    | error e =>
      exact ⟨rfl, rfl, fun sp hsp2 => Except.noConfusion hsp2⟩
    | ok sp =>
      simp only [hconf]
      exact ⟨rfl, rfl, fun sp2 _ => rfl⟩
  · unfold process_pdf
    rw [hpconf]
    rfl

/-- Witness for C4 at entirely absent credentials. -/
theorem c4_unconfigured_no_network_witness :
    ((chat ⟨none, none⟩ (.ok "resp") "hello" [] "general" none none none).1.success = false ∧
     (chat ⟨none, none⟩ (.ok "resp") "hello" [] "general" none none none).2 = 0 ∧
     (∀ sp, chat_system_prompt "general" none none none = .ok sp →
        (chat ⟨none, none⟩ (.ok "resp") "hello" [] "general" none none none).1.error =
          some chat_not_configured_msg)) ∧
    process_pdf ⟨none, none, some "gpt", true, false, "m", none, 20000, []⟩
        ⟨none, ([], ⟨0, 3, none⟩), .ok "null"⟩ ["page text"] "scan.pdf" =
      (.error pdf_not_configured_msg,
       { mistral_calls := 0, azure_calls := 0, azure_messages := [] }) :=
  c4_unconfigured_no_network none none (some "gpt") true false "m" none 20000 []
    (.ok "resp") ⟨none, ([], ⟨0, 3, none⟩), .ok "null"⟩ "hello" [] "general" none none none
    ["page text"] "scan.pdf" (Or.inl rfl)

/-! ## C9: empty-text PDFs -/

/-- Counterexample to C9 as stated: when the Mistral OCR fallback is
enabled and returns text for a PDF from which no page yields any text,
`process_pdf` with text inclusion enabled does *not* fail — it proceeds
to the model call and succeeds. -/
theorem c9_ocr_rescues_empty_text :
    py_strip "" = "" ∧
    (⟨some "e", some "k", some "d", true, true, "m", some "mk", 20000, []⟩ :
      PdfService).include_text = true ∧
    (process_pdf ⟨some "e", some "k", some "d", true, true, "m", some "mk", 20000, []⟩
        ⟨some "OCRTEXT", ([], ⟨0, 3, none⟩), .ok "null"⟩ [""] "scan.pdf").2.azure_calls = 1 ∧
    pdfOk (process_pdf ⟨some "e", some "k", some "d", true, true, "m", some "mk", 20000, []⟩
        ⟨some "OCRTEXT", ([], ⟨0, 3, none⟩), .ok "null"⟩ [""] "scan.pdf").1 = true :=
  ⟨rfl, rfl, rfl, rfl⟩

/-- C9 (amended): for a configured service and a PDF whose pages all
yield no text, (a) with text inclusion enabled and the OCR fallback
disabled, unconfigured or yielding no text, `process_pdf` fails with the
extraction error and makes no model call; (b) with text inclusion
disabled it proceeds: given a successful model response it returns a
result, calling the model once with the image-only prompt built from the
rendered page images. -/
theorem c9_no_text_behavior (svc : PdfService) (o : PdfOracles) (pages : List String)
    (fn : String) (hconf : svc.pdfConfigured = true)
    (hall : (pages.map py_strip).filter (fun c => c ≠ "") = []) :
    (svc.include_text = true →
     (svc.use_mistral_ocr = false ∨ svc.mistral_endpoint = "" ∨
      py_truthy_opt svc.mistral_key = false ∨ o.mistral_result = none) →
     (process_pdf svc o pages fn).1 = .error pdf_no_text_msg ∧
     (process_pdf svc o pages fn).2.azure_calls = 0) ∧
    (svc.include_text = false →
     ∀ raw, o.azure_result = .ok raw →
     pdfOk (process_pdf svc o pages fn).1 = true ∧
     (process_pdf svc o pages fn).2.azure_calls = 1 ∧
     (process_pdf svc o pages fn).2.azure_messages =
       [build_prompt svc "" fn (extract_pdf_text pages svc.max_chars).2
          o.render_result.1]) := by
  have htext : (extract_pdf_text pages svc.max_chars).1 = "" := by
    unfold extract_pdf_text
    simp only [hall]
    show py_take ("\n\n".intercalate []) svc.max_chars = ""
    rw [show ("\n\n".intercalate ([] : List String)) = "" from rfl]
    unfold py_take
    rw [show ("".data : List Char) = [] from rfl, List.take_nil]
  constructor
  · intro hinc hocr
    by_cases humb : (svc.include_text && svc.use_mistral_ocr &&
        (decide ¬ svc.mistral_endpoint = "") && py_truthy_opt svc.mistral_key) = true
    · have hmr : o.mistral_result = none := by
        rcases hocr with h | h | h | h
        · rw [h] at humb; simp at humb
        · rw [h] at humb; simp at humb
        · rw [h] at humb; simp at humb
        · exact h
      unfold process_pdf
      rw [hconf]
      rw [if_neg (by simp : ¬ ¬ (true = true))]
      simp only []
      rw [humb]
      simp only [if_true]
      rw [hmr]
      rw [htext, hinc]
      simp only [if_true, true_and]
      rw [if_pos (show py_strip "" = "" from rfl)]
      exact ⟨rfl, rfl⟩
    · have humb2 : (svc.include_text && svc.use_mistral_ocr &&
          (decide ¬ svc.mistral_endpoint = "") && py_truthy_opt svc.mistral_key) = false := by
        simpa using humb
      unfold process_pdf
      rw [hconf]
      rw [if_neg (by simp : ¬ ¬ (true = true))]
      simp only []
      rw [humb2]
      simp only [Bool.false_eq_true, if_false]
      rw [htext, hinc]
      simp only [if_true, true_and]
      rw [if_pos (show py_strip "" = "" from rfl)]
      exact ⟨rfl, rfl⟩
  · intro hinc raw hazure
    have humb : (svc.include_text && svc.use_mistral_ocr &&
        (decide ¬ svc.mistral_endpoint = "") && py_truthy_opt svc.mistral_key) = false := by
      rw [hinc]
      rfl
    unfold process_pdf
    rw [hconf]
    rw [if_neg (by simp : ¬ ¬ (true = true))]
    simp only []
    rw [humb]
    simp only [Bool.false_eq_true, if_false]
    rw [hinc]
    simp only [Bool.false_eq_true, false_and, if_false]
    rw [hazure]
    exact ⟨rfl, rfl, rfl⟩

/-- Witness for C9: a configured service, a single page with no text;
with text inclusion enabled and OCR disabled the run fails with the
extraction error and zero model calls; with text inclusion disabled it
succeeds with one model call carrying the image-only prompt. -/
theorem c9_no_text_behavior_witness :
    ((process_pdf ⟨some "e", some "k", some "d", true, false, "m", none, 20000, []⟩
        ⟨none, ([], ⟨0, 3, none⟩), .ok "null"⟩ [""] "a.pdf").1 = .error pdf_no_text_msg ∧
     (process_pdf ⟨some "e", some "k", some "d", true, false, "m", none, 20000, []⟩
        ⟨none, ([], ⟨0, 3, none⟩), .ok "null"⟩ [""] "a.pdf").2.azure_calls = 0) ∧
    (pdfOk (process_pdf ⟨some "e", some "k", some "d", false, false, "m", none, 20000, []⟩
        ⟨none, (["img1"], ⟨1, 3, none⟩), .ok "null"⟩ [""] "a.pdf").1 = true ∧
     (process_pdf ⟨some "e", some "k", some "d", false, false, "m", none, 20000, []⟩
        ⟨none, (["img1"], ⟨1, 3, none⟩), .ok "null"⟩ [""] "a.pdf").2.azure_calls = 1 ∧
     (process_pdf ⟨some "e", some "k", some "d", false, false, "m", none, 20000, []⟩
        ⟨none, (["img1"], ⟨1, 3, none⟩), .ok "null"⟩ [""] "a.pdf").2.azure_messages =
       [build_prompt ⟨some "e", some "k", some "d", false, false, "m", none, 20000, []⟩
          "" "a.pdf" (extract_pdf_text [""] 20000).2 ["img1"]]) := by
  constructor
  · exact (c9_no_text_behavior ⟨some "e", some "k", some "d", true, false, "m", none, 20000, []⟩
      ⟨none, ([], ⟨0, 3, none⟩), .ok "null"⟩ [""] "a.pdf" rfl rfl).1 rfl (Or.inl rfl)
  · exact (c9_no_text_behavior ⟨some "e", some "k", some "d", false, false, "m", none, 20000, []⟩
      ⟨none, (["img1"], ⟨1, 3, none⟩), .ok "null"⟩ [""] "a.pdf" rfl rfl).2 rfl "null" rfl

/-! ## C1: the fenced round trip

The remaining development proves that fencing a valid-JSON model
response does not change what `_safe_parse_json` extracts.  The proof
needs a family of lemmas about the `json.loads` scanner: appending
whitespace to the input does not disturb a successful parse (in either
direction), a successful parse starts at a value-starter character and
ends at a non-whitespace character, and success is monotone in fuel. -/

theorem dropWhile_append_of_ne_nil {p : Char → Bool} {a : List Char}
    (h : List.dropWhile p a ≠ []) (x : List Char) :
    List.dropWhile p (a ++ x) = List.dropWhile p a ++ x := by
  induction a with
  | nil => exact absurd rfl h
  | cons c a ih =>
    by_cases hc : p c
    · simp only [List.cons_append, List.dropWhile_cons, hc, if_true] at h ⊢
      exact ih h
    · simp only [List.cons_append, List.dropWhile_cons, hc] at h ⊢
      simp [hc]

theorem dropWhile_append_all {p : Char → Bool} {a : List Char}
    (h : ∀ c ∈ a, p c = true) (x : List Char) :
    List.dropWhile p (a ++ x) = List.dropWhile p x := by
  induction a with
  | nil => rfl
  | cons c a ih =>
    have hc : p c = true := h c (List.mem_cons_self c a)
    simp only [List.cons_append, List.dropWhile_cons, hc, if_true]
    exact ih (fun d hd => h d (List.mem_cons_of_mem c hd))

theorem takeWhile_append_none {p : Char → Bool} (a : List Char) {x : List Char}
    (h : ∀ c ∈ x, p c = false) :
    List.takeWhile p (a ++ x) = List.takeWhile p a := by
  induction a with
  | nil =>
    cases x with
    | nil => rfl
    | cons c x =>
      simp only [List.nil_append, List.takeWhile_cons, h c (List.mem_cons_self c x)]
      rfl
  | cons c a ih =>
    by_cases hc : p c <;> simp [List.takeWhile_cons, hc, ih]

theorem dropWhile_append_none {p : Char → Bool} (a : List Char) {x : List Char}
    (h : ∀ c ∈ x, p c = false) :
    List.dropWhile p (a ++ x) = List.dropWhile p a ++ x := by
  induction a with
  | nil =>
    cases x with
    | nil => rfl
    | cons c x =>
      simp only [List.nil_append, List.dropWhile_cons, h c (List.mem_cons_self c x)]
      rfl
  | cons c a ih =>
    by_cases hc : p c <;> simp [List.dropWhile_cons, hc, ih]

theorem dropRightWhile_append_end {p : Char → Bool} (a : List Char) {ch : Char}
    {b : List Char} (hb : ∀ c ∈ b, p c = true) (hch : p ch = false) :
    dropRightWhile p (a ++ ch :: b) = a ++ [ch] := by
  unfold dropRightWhile
  rw [show (a ++ ch :: b).reverse = b.reverse ++ ch :: a.reverse by simp]
  rw [dropWhile_append_all (fun c hc => hb c (List.mem_reverse.mp hc))]
  simp [List.dropWhile_cons, hch]

theorem dropWhile_cons_of_neg {p : Char → Bool} {c : Char} (h : p c = false)
    (l : List Char) : List.dropWhile p (c :: l) = c :: l := by
  simp [List.dropWhile_cons, h]

theorem jws_pws {c : Char} (h : isJws c = true) : isPws c = true := by
  simp only [isJws, Bool.or_eq_true, decide_eq_true_eq] at h
  rcases h with ((h | h) | h) | h <;> subst h <;> decide

/-- All facts about a `str.strip` whitespace character the scanner lemmas
need: it is none of the JSON-significant characters. -/
theorem pws_char_facts (c : Char) (h : isPws c = true) :
    c ≠ '"' ∧ c ≠ '\\' ∧ c ≠ '\x7b' ∧ c ≠ '\x7d' ∧ c ≠ '[' ∧ c ≠ ']' ∧ c ≠ ',' ∧
    c ≠ ':' ∧ c ≠ 't' ∧ c ≠ 'f' ∧ c ≠ 'n' ∧ c ≠ 'N' ∧ c ≠ 'I' ∧ c ≠ '-' ∧ c ≠ '+' ∧
    c ≠ '.' ∧ c ≠ '0' ∧ c ≠ 'e' ∧ c ≠ 'E' ∧ c ≠ '`' ∧ c ≠ 'u' ∧
    c.isDigit = false ∧ escChar c = none ∧ hexVal c = none := by
  simp only [isPws, Bool.or_eq_true, decide_eq_true_eq] at h
  rcases h with ((((((((((((((((((((((((((((h|h)|h)|h)|h)|h)|h)|h)|h)|h)|h)|h)|h)|h)|h)|h)|h)|h)|h)|h)|h)|h)|h)|h)|h)|h)|h)|h)|h) <;>
    subst h <;> decide

theorem digit_not_pws {c : Char} (h : c.isDigit = true) : isPws c = false := by
  cases hp : isPws c with
  | false => rfl
  | true =>
    have := (pws_char_facts c hp).2.2.2.2.2.2.2.2.2.2.2.2.2.2.2.2.2.2.2.2.2.1
    rw [h] at this
    cases this

theorem pws_not_digit {c : Char} (h : isPws c = true) : c.isDigit = false :=
  (pws_char_facts c h).2.2.2.2.2.2.2.2.2.2.2.2.2.2.2.2.2.2.2.2.2.1

/-! ### Literal-prefix lemmas -/

theorem isLitPre_append {lit : List Char} :
    ∀ {a r : List Char}, isLitPre lit a = some r → ∀ x,
      isLitPre lit (a ++ x) = some (r ++ x) := by
  induction lit with
  | nil =>
    intro a r h x
    simp only [isLitPre] at h ⊢
    rw [← Option.some.inj h]
  | cons l ls ih =>
    intro a r h x
    cases a with
    | nil => cases h
    | cons c a =>
      simp only [isLitPre] at h ⊢
      by_cases hc : c = l
      · rw [if_pos hc] at h ⊢
        exact ih h x
      · rw [if_neg hc] at h
        cases h

theorem isLitPre_unappend {lit : List Char} (hlit : ∀ c ∈ lit, isPws c = false) :
    ∀ {a x rr : List Char}, (∀ c ∈ x, isPws c = true) →
      isLitPre lit (a ++ x) = some rr →
      ∃ r0, rr = r0 ++ x ∧ isLitPre lit a = some r0 := by
  induction lit with
  | nil =>
    intro a x rr _ h
    simp only [isLitPre] at h
    exact ⟨a, (Option.some.inj h).symm, rfl⟩
  | cons l ls ih =>
    intro a x rr hx h
    cases a with
    | nil =>
      cases x with
      | nil => cases h
      | cons w x2 =>
        have hw := hx w (List.mem_cons_self w x2)
        have hl := hlit l (List.mem_cons_self l ls)
        have hne : w ≠ l := by
          intro e
          subst e
          rw [hw] at hl
          cases hl
        simp only [List.nil_append, isLitPre, if_neg hne] at h
        cases h
    | cons c a =>
      simp only [List.cons_append, isLitPre] at h ⊢
      by_cases hc : c = l
      · rw [if_pos hc] at h ⊢
        exact ih (fun d hd => hlit d (List.mem_cons_of_mem l hd)) hx h
      · rw [if_neg hc] at h
        cases h

theorem isLitPre_none_of_head_ne {l : Char} {ls : List Char} {c : Char}
    (h : c ≠ l) (cs : List Char) : isLitPre (l :: ls) (c :: cs) = none := by
  simp [isLitPre, h]

/-! ### Number-matcher lemmas -/

theorem matchIntPart_append {x : List Char} (hx : ∀ c ∈ x, isPws c = true) :
    ∀ a, matchIntPart (a ++ x) =
      (matchIntPart a).map (fun q => (q.1, q.2 ++ x)) := by
  have hxd : ∀ c ∈ x, c.isDigit = false := fun c hc => pws_not_digit (hx c hc)
  intro a
  cases a with
  | nil =>
    cases x with
    | nil => rfl
    | cons w x2 =>
      obtain ⟨-, -, -, -, -, -, -, -, -, -, -, -, -, -, -, -, h0, -, -, -, -, hd, -, -⟩ :=
        pws_char_facts w (hx w (List.mem_cons_self w x2))
      simp only [List.nil_append, matchIntPart, if_neg h0, hd, Bool.false_eq_true, if_false]
      rfl
  | cons c a =>
    by_cases h0 : c = '0'
    · subst h0
      simp [matchIntPart]
    · by_cases hd : c.isDigit
      · simp only [List.cons_append, matchIntPart, if_neg h0, hd, if_true,
          takeWhile_append_none a hxd, dropWhile_append_none a hxd]
        rfl
      · simp only [List.cons_append, matchIntPart, if_neg h0]
        rw [if_neg hd, if_neg hd]
        rfl

theorem matchFrac_append {x : List Char} (hx : ∀ c ∈ x, isPws c = true) :
    ∀ a, matchFrac (a ++ x) = ((matchFrac a).1, (matchFrac a).2 ++ x) := by
  have hxd : ∀ c ∈ x, c.isDigit = false := fun c hc => pws_not_digit (hx c hc)
  intro a
  cases a with
  | nil =>
    cases x with
    | nil => rfl
    | cons w x2 =>
      obtain ⟨-, -, -, -, -, -, -, -, -, -, -, -, -, -, -, hdot, -, -, -, -, -, -, -, -⟩ :=
        pws_char_facts w (hx w (List.mem_cons_self w x2))
      simp only [List.nil_append, matchFrac, if_neg hdot]
  | cons c a =>
    by_cases hc : c = '.'
    · subst hc
      simp only [List.cons_append, matchFrac, if_pos rfl,
        takeWhile_append_none a hxd, dropWhile_append_none a hxd]
      by_cases hds : List.takeWhile Char.isDigit a = []
      · simp [hds]
      · simp [hds]
    · simp only [List.cons_append, matchFrac, if_neg hc]

theorem matchExpPart_append {x : List Char} (hx : ∀ c ∈ x, isPws c = true) :
    ∀ a, matchExpPart (a ++ x) = ((matchExpPart a).1, (matchExpPart a).2 ++ x) := by
  have hxd : ∀ c ∈ x, c.isDigit = false := fun c hc => pws_not_digit (hx c hc)
  intro a
  cases a with
  | nil =>
    cases x with
    | nil => rfl
    | cons w x2 =>
      obtain ⟨-, -, -, -, -, -, -, -, -, -, -, -, -, -, -, -, -, he2, hE2, -, -, -, -, -⟩ :=
        pws_char_facts w (hx w (List.mem_cons_self w x2))
      have hne : ¬ (w = 'e' ∨ w = 'E') := by
        rintro (e | e)
        · exact he2 e
        · exact hE2 e
      simp only [List.nil_append, matchExpPart, if_neg hne]
  | cons c a =>
    by_cases he : c = 'e' ∨ c = 'E'
    · cases a with
      | nil =>
        cases x with
        | nil => simp [matchExpPart]
        | cons w x2 =>
          obtain ⟨-, -, -, -, -, -, -, -, -, -, -, -, -, hminus, hplus, -, -, -, -, -, -, hd, -, -⟩ :=
            pws_char_facts w (hx w (List.mem_cons_self w x2))
          have hws : ¬ (w = '+' ∨ w = '-') := by
            rintro (e | e)
            · exact hplus e
            · exact hminus e
          simp only [List.nil_append, List.cons_append, matchExpPart, if_pos he,
            if_neg hws, List.takeWhile_cons, hd, Bool.false_eq_true, if_false, if_pos rfl]
          simp
      | cons s a2 =>
        by_cases hs : s = '+' ∨ s = '-'
        · simp only [List.cons_append, matchExpPart, if_pos he, if_pos hs,
            takeWhile_append_none a2 hxd, dropWhile_append_none a2 hxd]
          by_cases hds : List.takeWhile Char.isDigit a2 = []
          · simp [hds]
          · simp [hds]
        · have h1 : List.takeWhile Char.isDigit ((s :: a2) ++ x) =
              List.takeWhile Char.isDigit (s :: a2) := takeWhile_append_none _ hxd
          have h2 : List.dropWhile Char.isDigit ((s :: a2) ++ x) =
              List.dropWhile Char.isDigit (s :: a2) ++ x := dropWhile_append_none _ hxd
          simp only [List.cons_append] at h1 h2 ⊢
          simp only [matchExpPart, if_pos he, if_neg hs]
          rw [h1, h2]
          by_cases hds : List.takeWhile Char.isDigit (s :: a2) = []
          · simp [hds]
          · simp [hds]
    · simp only [List.cons_append, matchExpPart, if_neg he]

theorem matchNumber_append {x : List Char} (hx : ∀ c ∈ x, isPws c = true) :
    ∀ a, matchNumber (a ++ x) =
      (matchNumber a).map (fun q => (q.1, q.2 ++ x)) := by
  intro a
  cases a with
  | nil =>
    cases x with
    | nil => rfl
    | cons w x2 =>
      obtain ⟨-, -, -, -, -, -, -, -, -, -, -, -, -, hminus, -, -, h0, -, -, -, -, hd, -, -⟩ :=
        pws_char_facts w (hx w (List.mem_cons_self w x2))
      simp only [List.nil_append, matchNumber, if_neg hminus]
      rw [show matchIntPart (w :: x2) = none by
        simp only [matchIntPart, if_neg h0, hd, Bool.false_eq_true, if_false]]
      rfl
  | cons c a =>
    by_cases hc : c = '-'
    · subst hc
      simp only [List.cons_append, matchNumber, eq_self_iff_true, if_true]
      rw [matchIntPart_append hx a]
      cases hip : matchIntPart a with
      | none => rfl
      | some q =>
        simp only [Option.map]
        rw [matchFrac_append hx q.2, matchExpPart_append hx (matchFrac q.2).2]
    · simp only [List.cons_append, matchNumber, if_neg hc]
      rw [show (c :: (a ++ x)) = (c :: a) ++ x from rfl, matchIntPart_append hx (c :: a)]
      cases hip : matchIntPart (c :: a) with
      | none => rfl
      | some q =>
        simp only [Option.map]
        rw [matchFrac_append hx q.2, matchExpPart_append hx (matchFrac q.2).2]

/-! ### Shape lemmas for the number matcher -/

theorem takeWhile_all_digits {a : List Char} :
    ∀ c ∈ List.takeWhile Char.isDigit a, c.isDigit = true := by
  intro c hc
  exact List.mem_takeWhile_imp hc

theorem ends_with_digit_of_all {l : List Char} (hne : l ≠ [])
    (hall : ∀ c ∈ l, c.isDigit = true) :
    ∃ l0 d, l = l0 ++ [d] ∧ d.isDigit = true := by
  refine ⟨l.dropLast, l.getLast hne, ?_, hall _ (List.getLast_mem hne)⟩
  exact (List.dropLast_append_getLast hne).symm

theorem matchIntPart_shape {b ip cs2 : List Char}
    (h : matchIntPart b = some (ip, cs2)) :
    b = ip ++ cs2 ∧ ∃ l d, ip = l ++ [d] ∧ d.isDigit = true := by
  cases b with
  | nil => cases h
  | cons c b2 =>
    simp only [matchIntPart] at h
    by_cases h0 : c = '0'
    · rw [if_pos h0] at h
      obtain ⟨h1, h2⟩ := Prod.mk.injEq .. ▸ Option.some.inj h
      subst h0
      refine ⟨by rw [← h1, ← h2]; rfl, [], '0', by rw [← h1]; rfl, by decide⟩
    · rw [if_neg h0] at h
      by_cases hd : c.isDigit
      · rw [if_pos hd] at h
        obtain ⟨h1, h2⟩ := Prod.mk.injEq .. ▸ Option.some.inj h
        constructor
        · rw [← h1, ← h2]
          simp [List.takeWhile_append_dropWhile]
        · by_cases hne : List.takeWhile Char.isDigit b2 = []
          · exact ⟨[], c, by rw [← h1, hne]; rfl, hd⟩
          · obtain ⟨l0, d, hl, hdd⟩ := ends_with_digit_of_all hne takeWhile_all_digits
            exact ⟨c :: l0, d, by rw [← h1, hl]; rfl, hdd⟩
      · rw [if_neg hd] at h
        cases h

theorem matchFrac_shape (cs2 : List Char) :
    cs2 = (matchFrac cs2).1 ++ (matchFrac cs2).2 ∧
    ((matchFrac cs2).1 = [] ∨
      ∃ l d, (matchFrac cs2).1 = l ++ [d] ∧ d.isDigit = true) := by
  cases cs2 with
  | nil => exact ⟨rfl, Or.inl rfl⟩
  | cons c b =>
    simp only [matchFrac]
    by_cases hc : c = '.'
    · rw [if_pos hc]
      by_cases hds : List.takeWhile Char.isDigit b = []
      · rw [if_pos hds]
        exact ⟨rfl, Or.inl rfl⟩
      · rw [if_neg hds]
        obtain ⟨l0, d, hl, hdd⟩ := ends_with_digit_of_all hds takeWhile_all_digits
        refine ⟨?_, Or.inr ⟨'.' :: l0, d, by rw [hl]; rfl, hdd⟩⟩
        subst hc
        simp [hl.symm ▸ List.takeWhile_append_dropWhile (p := Char.isDigit) (l := b)]
    · rw [if_neg hc]
      exact ⟨rfl, Or.inl rfl⟩

theorem matchExpPart_shape (cs3 : List Char) :
    cs3 = (matchExpPart cs3).1 ++ (matchExpPart cs3).2 ∧
    ((matchExpPart cs3).1 = [] ∨
      ∃ l d, (matchExpPart cs3).1 = l ++ [d] ∧ d.isDigit = true) := by
  cases cs3 with
  | nil => exact ⟨rfl, Or.inl rfl⟩
  | cons c b =>
    simp only [matchExpPart]
    by_cases he : c = 'e' ∨ c = 'E'
    · rw [if_pos he]
      cases b with
      | nil => exact ⟨rfl, Or.inl rfl⟩
      | cons s b2 =>
        dsimp only
        by_cases hs : s = '+' ∨ s = '-'
        · rw [if_pos hs]
          by_cases hds : List.takeWhile Char.isDigit b2 = []
          · rw [if_pos hds]
            exact ⟨rfl, Or.inl rfl⟩
          · rw [if_neg hds]
            obtain ⟨l0, d, hl, hdd⟩ := ends_with_digit_of_all hds takeWhile_all_digits
            refine ⟨?_, Or.inr ⟨c :: s :: l0, d, by rw [hl]; rfl, hdd⟩⟩
            simp [hl.symm ▸ List.takeWhile_append_dropWhile (p := Char.isDigit) (l := b2)]
        · rw [if_neg hs]
          by_cases hds : List.takeWhile Char.isDigit (s :: b2) = []
          · rw [if_pos hds]
            exact ⟨rfl, Or.inl rfl⟩
          · rw [if_neg hds]
            obtain ⟨l0, d, hl, hdd⟩ := ends_with_digit_of_all hds takeWhile_all_digits
            refine ⟨?_, Or.inr ⟨c :: l0, d, by rw [hl]; rfl, hdd⟩⟩
            simp [hl.symm ▸ List.takeWhile_append_dropWhile (p := Char.isDigit) (l := s :: b2)]
    · rw [if_neg he]
      exact ⟨rfl, Or.inl rfl⟩

theorem matchNumber_shape {cs lex r : List Char}
    (h : matchNumber cs = some (lex, r)) :
    cs = lex ++ r ∧ ∃ l d, lex = l ++ [d] ∧ d.isDigit = true := by
  unfold matchNumber at h
  have main : ∀ sgn b, cs = sgn ++ b →
      (match matchIntPart b with
       | none => none
       | some (ip, cs2) =>
         some (sgn ++ ip ++ (matchFrac cs2).1 ++ (matchExpPart (matchFrac cs2).2).1,
               (matchExpPart (matchFrac cs2).2).2)) = some (lex, r) →
      cs = lex ++ r ∧ ∃ l d, lex = l ++ [d] ∧ d.isDigit = true := by
    intro sgn b hcs hm
    cases hip : matchIntPart b with
    | none => rw [hip] at hm; cases hm
    | some q =>
      rcases q with ⟨q1, q2⟩
      rw [hip] at hm
      dsimp only at hm
      obtain ⟨hip1, hip2⟩ := matchIntPart_shape hip
      rcases hfq : matchFrac q2 with ⟨fr1, fr2⟩
      have hfr := matchFrac_shape q2
      rw [hfq] at hfr hm
      dsimp only at hfr hm
      rcases heq : matchExpPart fr2 with ⟨ex1, ex2⟩
      have hex := matchExpPart_shape fr2
      rw [heq] at hex hm
      dsimp only at hex hm
      obtain ⟨hl, hr⟩ := Prod.mk.injEq .. ▸ Option.some.inj hm
      constructor
      · rw [hcs, hip1, hfr.1, hex.1, ← hl, ← hr]
        simp [List.append_assoc]
      · obtain ⟨l0, d0, hipl, hipd⟩ := hip2
        rcases hex.2 with hexe | ⟨le, de, hle, hde⟩
        · rcases hfr.2 with hfre | ⟨lf, df, hlf, hdf⟩
          · refine ⟨sgn ++ l0, d0, ?_, hipd⟩
            rw [← hl, hfre, hexe, hipl]
            simp
          · refine ⟨sgn ++ q1 ++ lf, df, ?_, hdf⟩
            rw [← hl, hlf, hexe]
            simp
        · refine ⟨sgn ++ q1 ++ fr1 ++ le, de, ?_, hde⟩
          rw [← hl, hle]
          simp
  cases cs with
  | nil => exact main [] [] rfl h
  | cons c cs2 =>
    dsimp only at h
    by_cases hc : c = '-'
    · rw [if_pos hc] at h
      subst hc
      exact main ['-'] cs2 rfl h
    · rw [if_neg hc] at h
      exact main [] (c :: cs2) rfl h

theorem matchNumber_head {c : Char} {cs : List Char} {p : List Char × List Char}
    (h : matchNumber (c :: cs) = some p) : c = '-' ∨ c.isDigit = true := by
  unfold matchNumber at h
  dsimp only at h
  by_cases hc : c = '-'
  · exact Or.inl hc
  · rw [if_neg hc] at h
    refine Or.inr ?_
    cases hip : matchIntPart (c :: cs) with
    | none => rw [hip] at h; cases h
    | some q =>
      simp only [matchIntPart] at hip
      by_cases h0 : c = '0'
      · subst h0; decide
      · rw [if_neg h0] at hip
        by_cases hd : c.isDigit
        · exact hd
        · rw [if_neg hd] at hip; cases hip

/-! ### String-scanner lemmas -/

theorem readHex4_some {a : List Char} {n : Nat} {r : List Char}
    (h : readHex4 a = some (n, r)) :
    ∃ h1 h2 h3 h4 n1 n2 n3 n4, a = h1 :: h2 :: h3 :: h4 :: r ∧
      hexVal h1 = some n1 ∧ hexVal h2 = some n2 ∧ hexVal h3 = some n3 ∧
      hexVal h4 = some n4 ∧ n = 4096 * n1 + 256 * n2 + 16 * n3 + n4 := by
  rcases a with _ | ⟨h1, _ | ⟨h2, _ | ⟨h3, _ | ⟨h4, rest⟩⟩⟩⟩
  · simp [readHex4] at h
  · simp [readHex4] at h
  · simp [readHex4] at h
  · simp [readHex4] at h
  · simp only [readHex4] at h
    cases hv1 : hexVal h1 with
    | none => rw [hv1] at h; simp at h
    | some n1 =>
      rw [hv1] at h
      cases hv2 : hexVal h2 with
      | none => rw [hv2] at h; simp at h
      | some n2 =>
        rw [hv2] at h
        cases hv3 : hexVal h3 with
        | none => rw [hv3] at h; simp at h
        | some n3 =>
          rw [hv3] at h
          cases hv4 : hexVal h4 with
          | none => rw [hv4] at h; simp at h
          | some n4 =>
            rw [hv4] at h
            simp only [Option.some_bind, Option.map_some] at h
            obtain ⟨h1e, h2e⟩ := Prod.mk.injEq .. ▸ Option.some.inj h
            exact ⟨h1, h2, h3, h4, n1, n2, n3, n4, by rw [h2e], hv1, hv2, hv3, hv4,
              h1e.symm⟩

theorem readHex4_append {a : List Char} {n : Nat} {r : List Char}
    (h : readHex4 a = some (n, r)) (x : List Char) :
    readHex4 (a ++ x) = some (n, r ++ x) := by
  obtain ⟨h1, h2, h3, h4, n1, n2, n3, n4, ha, hv1, hv2, hv3, hv4, hn⟩ := readHex4_some h
  subst ha
  simp [readHex4, hv1, hv2, hv3, hv4, hn]

theorem readHex4_ws_none {x : List Char} (hx : ∀ c ∈ x, isPws c = true)
    {b : List Char} (hb : b.length < 4) :
    readHex4 (b ++ x) = none := by
  rcases b with _ | ⟨b1, _ | ⟨b2, _ | ⟨b3, _ | ⟨b4, rest⟩⟩⟩⟩
  · cases x with
    | nil => rfl
    | cons w1 x1 =>
      obtain ⟨-, -, -, -, -, -, -, -, -, -, -, -, -, -, -, -, -, -, -, -, -, -, -, hh⟩ :=
        pws_char_facts w1 (hx w1 (List.mem_cons_self w1 x1))
      rcases x1 with _ | ⟨w2, _ | ⟨w3, _ | ⟨w4, x4⟩⟩⟩ <;>
        simp [readHex4, hh]
  · cases x with
    | nil => rfl
    | cons w1 x1 =>
      obtain ⟨-, -, -, -, -, -, -, -, -, -, -, -, -, -, -, -, -, -, -, -, -, -, -, hh⟩ :=
        pws_char_facts w1 (hx w1 (List.mem_cons_self w1 x1))
      rcases x1 with _ | ⟨w2, _ | ⟨w3, x3⟩⟩
      · rfl
      · rfl
      · cases hb1 : hexVal b1 with
        | none => simp [readHex4, hb1]
        | some m => simp [readHex4, hb1, hh]
  · cases x with
    | nil => rfl
    | cons w1 x1 =>
      obtain ⟨-, -, -, -, -, -, -, -, -, -, -, -, -, -, -, -, -, -, -, -, -, -, -, hh⟩ :=
        pws_char_facts w1 (hx w1 (List.mem_cons_self w1 x1))
      rcases x1 with _ | ⟨w2, x2⟩
      · rfl
      · cases hb1 : hexVal b1 with
        | none => simp [readHex4, hb1]
        | some m1 =>
          cases hb2 : hexVal b2 with
          | none => simp [readHex4, hb1, hb2]
          | some m2 => simp [readHex4, hb1, hb2, hh]
  · cases x with
    | nil => rfl
    | cons w1 x1 =>
      obtain ⟨-, -, -, -, -, -, -, -, -, -, -, -, -, -, -, -, -, -, -, -, -, -, -, hh⟩ :=
        pws_char_facts w1 (hx w1 (List.mem_cons_self w1 x1))
      cases hb1 : hexVal b1 with
      | none => simp [readHex4, hb1]
      | some m1 =>
        cases hb2 : hexVal b2 with
        | none => simp [readHex4, hb1, hb2]
        | some m2 =>
          cases hb3 : hexVal b3 with
          | none => simp [readHex4, hb1, hb2, hb3]
          | some m3 => simp [readHex4, hb1, hb2, hb3, hh]
  · simp only [List.length_cons] at hb
    omega

theorem scanString_append :
    ∀ (f : Nat) {a s r : List Char}, scanString f a = .ok (s, r) →
      ∀ x, scanString f (a ++ x) = .ok (s, r ++ x) := by
  intro f
  induction f with
  | zero =>
    intro a s r h x
    exact Except.noConfusion h
  | succ f ih =>
    intro a s r h x
    cases a with
    | nil => exact Except.noConfusion h
    | cons c a =>
      simp only [scanString, List.append_eq, List.cons_append] at h ⊢
      by_cases hq : c = '"'
      · rw [if_pos hq] at h ⊢
        obtain ⟨hs, hr⟩ := Prod.mk.injEq .. ▸ Except.ok.inj h
        rw [← hs, ← hr]
      · rw [if_neg hq] at h ⊢
        by_cases hb : c = '\\'
        · rw [if_pos hb] at h ⊢
          cases a with
          | nil => exact Except.noConfusion h
          | cons e a2 =>
            try simp only [List.append_eq, List.cons_append]
            dsimp only at h ⊢
            by_cases hu : e = 'u'
            · rw [if_pos hu] at h ⊢
              cases hrh : readHex4 a2 with
              | none => rw [hrh] at h; exact Except.noConfusion h
              | some p =>
                rcases p with ⟨code, cs3⟩
                rw [hrh] at h
                rw [readHex4_append hrh x]
                dsimp only at h ⊢
                cases hsc : scanString f cs3 with
                | error e2 => rw [hsc] at h; exact Except.noConfusion h
                | ok q =>
                  rcases q with ⟨q1, q2⟩
                  rw [hsc] at h
                  rw [ih hsc x]
                  obtain ⟨hs, hr⟩ := Prod.mk.injEq .. ▸ Except.ok.inj h
                  rw [← hs, ← hr]
            · rw [if_neg hu] at h ⊢
              cases hec : escChar e with
              | none => rw [hec] at h; exact Except.noConfusion h
              | some ch =>
                rw [hec] at h
                dsimp only at h ⊢
                cases hsc : scanString f a2 with
                | error e2 => rw [hsc] at h; exact Except.noConfusion h
                | ok q =>
                  rcases q with ⟨q1, q2⟩
                  rw [hsc] at h
                  rw [ih hsc x]
                  obtain ⟨hs, hr⟩ := Prod.mk.injEq .. ▸ Except.ok.inj h
                  rw [← hs, ← hr]
        · rw [if_neg hb] at h ⊢
          by_cases hc32 : c.toNat < 32
          · rw [if_pos hc32] at h
            exact Except.noConfusion h
          · rw [if_neg hc32] at h ⊢
            cases hsc : scanString f a with
            | error e2 => rw [hsc] at h; exact Except.noConfusion h
            | ok q =>
              rcases q with ⟨q1, q2⟩
              rw [hsc] at h
              rw [ih hsc x]
              obtain ⟨hs, hr⟩ := Prod.mk.injEq .. ▸ Except.ok.inj h
              rw [← hs, ← hr]

theorem scanString_ws_no_ok :
    ∀ (f : Nat) {w : List Char}, (∀ c ∈ w, isPws c = true) →
      ∀ {p : List Char × List Char}, scanString f w ≠ .ok p := by
  intro f
  induction f with
  | zero =>
    intro w _ p h
    exact Except.noConfusion h
  | succ f ih =>
    intro w hw p h
    cases w with
    | nil => exact Except.noConfusion h
    | cons c w2 =>
      obtain ⟨hq, hb, -⟩ := pws_char_facts c (hw c (List.mem_cons_self c w2))
      simp only [scanString] at h
      rw [if_neg hq, if_neg hb] at h
      by_cases h32 : c.toNat < 32
      · rw [if_pos h32] at h
        exact Except.noConfusion h
      · rw [if_neg h32] at h
        cases hsc : scanString f w2 with
        | error e2 =>
          rw [hsc] at h
          exact Except.noConfusion h
        | ok q =>
          exact absurd hsc (ih (fun d hd => hw d (List.mem_cons_of_mem c hd)))

theorem scanString_shape :
    ∀ (f : Nat) {cs s r : List Char}, scanString f cs = .ok (s, r) →
      ∃ body, cs = body ++ '"' :: r := by
  intro f
  induction f with
  | zero =>
    intro cs s r h
    exact Except.noConfusion h
  | succ f ih =>
    intro cs s r h
    cases cs with
    | nil => exact Except.noConfusion h
    | cons c a =>
      simp only [scanString] at h
      by_cases hq : c = '"'
      · rw [if_pos hq] at h
        obtain ⟨-, hr⟩ := Prod.mk.injEq .. ▸ Except.ok.inj h
        subst hq
        exact ⟨[], by rw [hr]; rfl⟩
      · rw [if_neg hq] at h
        by_cases hb : c = '\\'
        · rw [if_pos hb] at h
          cases a with
          | nil => exact Except.noConfusion h
          | cons e a2 =>
            dsimp only at h
            by_cases hu : e = 'u'
            · rw [if_pos hu] at h
              cases hrh : readHex4 a2 with
              | none =>
                rw [hrh] at h
                exact Except.noConfusion h
              | some p =>
                rcases p with ⟨code, cs3⟩
                rw [hrh] at h
                dsimp only at h
                obtain ⟨k1, k2, k3, k4, n1, n2, n3, n4, ha, -, -, -, -, -⟩ :=
                  readHex4_some hrh
                cases hsc : scanString f cs3 with
                | error e2 =>
                  rw [hsc] at h
                  exact Except.noConfusion h
                | ok q =>
                  rcases q with ⟨q1, q2⟩
                  rw [hsc] at h
                  obtain ⟨-, hr⟩ := Prod.mk.injEq .. ▸ Except.ok.inj h
                  obtain ⟨body, hbody⟩ := ih (show scanString f cs3 = .ok (q1, r) by
                    rw [hsc, hr])
                  subst hb hu
                  exact ⟨'\\' :: 'u' :: k1 :: k2 :: k3 :: k4 :: body, by
                    rw [ha, hbody]
                    simp only [List.cons_append]⟩
            · rw [if_neg hu] at h
              cases hec : escChar e with
              | none =>
                rw [hec] at h
                exact Except.noConfusion h
              | some ch =>
                rw [hec] at h
                dsimp only at h
                cases hsc : scanString f a2 with
                | error e2 =>
                  rw [hsc] at h
                  exact Except.noConfusion h
                | ok q =>
                  rcases q with ⟨q1, q2⟩
                  rw [hsc] at h
                  obtain ⟨-, hr⟩ := Prod.mk.injEq .. ▸ Except.ok.inj h
                  obtain ⟨body, hbody⟩ := ih (show scanString f a2 = .ok (q1, r) by
                    rw [hsc, hr])
                  subst hb
                  exact ⟨'\\' :: e :: body, by rw [hbody]; simp only [List.cons_append]⟩
        · rw [if_neg hb] at h
          by_cases h32 : c.toNat < 32
          · rw [if_pos h32] at h
            exact Except.noConfusion h
          · rw [if_neg h32] at h
            cases hsc : scanString f a with
            | error e2 =>
              rw [hsc] at h
              exact Except.noConfusion h
            | ok q =>
              rcases q with ⟨q1, q2⟩
              rw [hsc] at h
              obtain ⟨-, hr⟩ := Prod.mk.injEq .. ▸ Except.ok.inj h
              obtain ⟨body, hbody⟩ := ih (show scanString f a = .ok (q1, r) by
                rw [hsc, hr])
              exact ⟨c :: body, by rw [hbody]; simp only [List.cons_append]⟩

theorem scanString_unappend :
    ∀ (f : Nat) {a x s rr : List Char}, (∀ c ∈ x, isPws c = true) →
      scanString f (a ++ x) = .ok (s, rr) →
      ∃ r0, rr = r0 ++ x ∧ scanString f a = .ok (s, r0) := by
  intro f
  induction f with
  | zero =>
    intro a x s rr _ h
    exact Except.noConfusion h
  | succ f ih =>
    intro a x s rr hx h
    cases a with
    | nil =>
      simp only [List.nil_append] at h
      exact absurd h (scanString_ws_no_ok (f + 1) hx)
    | cons c a1 =>
      simp only [scanString, List.append_eq, List.cons_append] at h
      by_cases hq : c = '"'
      · rw [if_pos hq] at h
        obtain ⟨hs, hr⟩ := Prod.mk.injEq .. ▸ Except.ok.inj h
        refine ⟨a1, hr.symm, ?_⟩
        simp only [scanString]
        rw [if_pos hq, ← hs]
      · rw [if_neg hq] at h
        by_cases hb : c = '\\'
        · rw [if_pos hb] at h
          cases a1 with
          | nil =>
            simp only [List.nil_append] at h
            cases x with
            | nil => exact Except.noConfusion h
            | cons w x2 =>
              obtain ⟨-, -, -, -, -, -, -, -, -, -, -, -, -, -, -, -, -, -, -, -,
                  hwu, -, hesc, -⟩ := pws_char_facts w (hx w (List.mem_cons_self w x2))
              dsimp only at h
              rw [if_neg hwu, hesc] at h
              dsimp only at h
              exact Except.noConfusion h
          | cons e a2 =>
            simp only [List.append_eq, List.cons_append] at h
            try dsimp only at h
            by_cases hu : e = 'u'
            · rw [if_pos hu] at h
              rcases a2 with _ | ⟨m1, _ | ⟨m2, _ | ⟨m3, _ | ⟨m4, rest⟩⟩⟩⟩
              · rw [readHex4_ws_none hx (show ([] : List Char).length < 4 by simp)] at h
                dsimp only at h
                exact Except.noConfusion h
              · rw [readHex4_ws_none hx (show [m1].length < 4 by simp)] at h
                dsimp only at h
                exact Except.noConfusion h
              · rw [readHex4_ws_none hx (show [m1, m2].length < 4 by simp)] at h
                dsimp only at h
                exact Except.noConfusion h
              · rw [readHex4_ws_none hx (show [m1, m2, m3].length < 4 by simp)] at h
                dsimp only at h
                exact Except.noConfusion h
              · simp only [List.cons_append] at h
                cases hrh : readHex4 (m1 :: m2 :: m3 :: m4 :: (rest ++ x)) with
                | none =>
                  rw [hrh] at h
                  dsimp only at h
                  exact Except.noConfusion h
                | some p =>
                  rcases p with ⟨code, cs3x⟩
                  rw [hrh] at h
                  dsimp only at h
                  obtain ⟨k1, k2, k3, k4, n1, n2, n3, n4, ha, hv1, hv2, hv3, hv4, hn⟩ :=
                    readHex4_some hrh
                  simp only [List.cons.injEq] at ha
                  obtain ⟨e1, e2, e3, e4, e5⟩ := ha
                  subst e1
                  subst e2
                  subst e3
                  subst e4
                  have hra : readHex4 (m1 :: m2 :: m3 :: m4 :: rest) = some (code, rest) := by
                    simp [readHex4, hv1, hv2, hv3, hv4, hn]
                  rw [← e5] at h
                  cases hsc : scanString f (rest ++ x) with
                  | error e2 =>
                    rw [hsc] at h
                    dsimp only at h
                    exact Except.noConfusion h
                  | ok q =>
                    rcases q with ⟨q1, q2⟩
                    rw [hsc] at h
                    dsimp only at h
                    obtain ⟨hs, hr⟩ := Prod.mk.injEq .. ▸ Except.ok.inj h
                    obtain ⟨r0, hq2, hsc0⟩ := ih hx hsc
                    refine ⟨r0, by rw [← hr]; exact hq2, ?_⟩
                    simp only [scanString]
                    rw [if_neg hq, if_pos hb]
                    try dsimp only
                    rw [if_pos hu, hra]
                    dsimp only
                    rw [hsc0]
                    dsimp only
                    rw [hs]
            · rw [if_neg hu] at h
              cases hec : escChar e with
              | none =>
                rw [hec] at h
                dsimp only at h
                exact Except.noConfusion h
              | some ch =>
                rw [hec] at h
                dsimp only at h
                cases hsc : scanString f (a2 ++ x) with
                | error e2 =>
                  rw [hsc] at h
                  dsimp only at h
                  exact Except.noConfusion h
                | ok q =>
                  rcases q with ⟨q1, q2⟩
                  rw [hsc] at h
                  dsimp only at h
                  obtain ⟨hs, hr⟩ := Prod.mk.injEq .. ▸ Except.ok.inj h
                  obtain ⟨r0, hq2, hsc0⟩ := ih hx hsc
                  refine ⟨r0, by rw [← hr]; exact hq2, ?_⟩
                  simp only [scanString]
                  rw [if_neg hq, if_pos hb]
                  try dsimp only
                  rw [if_neg hu, hec]
                  dsimp only
                  rw [hsc0]
                  dsimp only
                  rw [hs]
        · rw [if_neg hb] at h
          by_cases h32 : c.toNat < 32
          · rw [if_pos h32] at h
            exact Except.noConfusion h
          · rw [if_neg h32] at h
            cases hsc : scanString f (a1 ++ x) with
            | error e2 =>
              rw [hsc] at h
              dsimp only at h
              exact Except.noConfusion h
            | ok q =>
              rcases q with ⟨q1, q2⟩
              rw [hsc] at h
              dsimp only at h
              obtain ⟨hs, hr⟩ := Prod.mk.injEq .. ▸ Except.ok.inj h
              obtain ⟨r0, hq2, hsc0⟩ := ih hx hsc
              refine ⟨r0, by rw [← hr]; exact hq2, ?_⟩
              simp only [scanString]
              rw [if_neg hq, if_neg hb, if_neg h32]
              rw [hsc0]
              dsimp only
              rw [hs]

/-! ### Scanner-level lemmas: empty and whitespace-only inputs, head characters -/

theorem isLitPre_some_shape {lit : List Char} :
    ∀ {a r : List Char}, isLitPre lit a = some r → a = lit ++ r := by
  induction lit with
  | nil =>
    intro a r h
    simp only [isLitPre] at h
    rw [Option.some.inj h]
    rfl
  | cons l ls ih =>
    intro a r h
    cases a with
    | nil => cases h
    | cons c a =>
      simp only [isLitPre] at h
      by_cases hc : c = l
      · rw [if_pos hc] at h
        rw [List.cons_append, ← ih h, hc]
      · rw [if_neg hc] at h
        cases h

theorem parseValue_nil (f : Nat) {p : PyObj × List Char} :
    parseValue f [] ≠ .ok p := by
  cases f with
  | zero => exact fun h => Except.noConfusion h
  | succ f => exact fun h => Except.noConfusion h

theorem parseElems_nil (f : Nat) {p : List PyObj × List Char} :
    parseElems f [] ≠ .ok p := by
  cases f with
  | zero => exact fun h => Except.noConfusion h
  | succ f =>
    intro h
    simp only [parseElems] at h
    cases hpv : parseValue f [] with
    | error e =>
      rw [hpv] at h
      exact Except.noConfusion h
    | ok q => exact parseValue_nil f hpv

theorem parseMembers_nil (f : Nat) {p : List (String × PyObj) × List Char} :
    parseMembers f [] ≠ .ok p := by
  cases f with
  | zero => exact fun h => Except.noConfusion h
  | succ f => exact fun h => Except.noConfusion h

theorem parseValue_ws_error (f : Nat) {w : List Char}
    (hw : ∀ c ∈ w, isPws c = true) {p : PyObj × List Char} :
    parseValue f w ≠ .ok p := by
  cases f with
  | zero => exact fun h => Except.noConfusion h
  | succ f =>
    cases w with
    | nil => exact fun h => Except.noConfusion h
    | cons c w2 =>
      intro h
      obtain ⟨hq, -, hbr, -, hbk, -, -, -, ht, hf, hn, hN, hI, hm, -, -, h0, -, -, -, -,
          hd, -, -⟩ := pws_char_facts c (hw c (List.mem_cons_self c w2))
      simp only [parseValue] at h
      rw [if_neg hq, if_neg hbr, if_neg hbk, if_neg ht, if_neg hf, if_neg hn,
        if_neg hN, if_neg hI] at h
      have hnum : matchNumber (c :: w2) = none := by
        simp only [matchNumber, if_neg hm]
        rw [show matchIntPart (c :: w2) = none from by
          simp only [matchIntPart, if_neg h0, hd, Bool.false_eq_true, if_false]]
      rw [hnum] at h
      dsimp only at h
      rw [if_neg hm] at h
      exact Except.noConfusion h

theorem parseMembers_ws_error (f : Nat) {w : List Char}
    (hw : ∀ c ∈ w, isPws c = true) {p : List (String × PyObj) × List Char} :
    parseMembers f w ≠ .ok p := by
  cases f with
  | zero => exact fun h => Except.noConfusion h
  | succ f =>
    cases w with
    | nil => exact fun h => Except.noConfusion h
    | cons c w2 =>
      intro h
      obtain ⟨hq, -⟩ := pws_char_facts c (hw c (List.mem_cons_self c w2))
      simp only [parseMembers] at h
      rw [if_neg hq] at h
      exact Except.noConfusion h

theorem parseElems_ws_error (f : Nat) {w : List Char}
    (hw : ∀ c ∈ w, isPws c = true) {p : List PyObj × List Char} :
    parseElems f w ≠ .ok p := by
  cases f with
  | zero => exact fun h => Except.noConfusion h
  | succ f =>
    intro h
    simp only [parseElems] at h
    cases hpv : parseValue f w with
    | error e =>
      rw [hpv] at h
      exact Except.noConfusion h
    | ok q => exact parseValue_ws_error f hw hpv

theorem parseValue_head_starter {f : Nat} {c : Char} {cs : List Char}
    {p : PyObj × List Char} (h : parseValue f (c :: cs) = .ok p) :
    c = '"' ∨ c = '\x7b' ∨ c = '[' ∨ c = 't' ∨ c = 'f' ∨ c = 'n' ∨ c = 'N' ∨
    c = 'I' ∨ c = '-' ∨ c.isDigit = true := by
  cases f with
  | zero => exact absurd h (fun h => Except.noConfusion h)
  | succ f =>
    simp only [parseValue] at h
    by_cases hq : c = '"'
    · exact Or.inl hq
    · rw [if_neg hq] at h
      by_cases hbr : c = '\x7b'
      · exact Or.inr (Or.inl hbr)
      · rw [if_neg hbr] at h
        by_cases hbk : c = '['
        · exact Or.inr (Or.inr (Or.inl hbk))
        · rw [if_neg hbk] at h
          by_cases ht : c = 't'
          · exact Or.inr (Or.inr (Or.inr (Or.inl ht)))
          · rw [if_neg ht] at h
            by_cases hf : c = 'f'
            · exact Or.inr (Or.inr (Or.inr (Or.inr (Or.inl hf))))
            · rw [if_neg hf] at h
              by_cases hn : c = 'n'
              · exact Or.inr (Or.inr (Or.inr (Or.inr (Or.inr (Or.inl hn)))))
              · rw [if_neg hn] at h
                by_cases hN : c = 'N'
                · exact Or.inr (Or.inr (Or.inr (Or.inr (Or.inr (Or.inr (Or.inl hN))))))
                · rw [if_neg hN] at h
                  by_cases hI : c = 'I'
                  · exact Or.inr (Or.inr (Or.inr (Or.inr (Or.inr (Or.inr (Or.inr
                      (Or.inl hI)))))))
                  · rw [if_neg hI] at h
                    cases hmn : matchNumber (c :: cs) with
                    | some q =>
                      rcases matchNumber_head hmn with hm | hd
                      · exact Or.inr (Or.inr (Or.inr (Or.inr (Or.inr (Or.inr (Or.inr
                          (Or.inr (Or.inl hm))))))))
                      · exact Or.inr (Or.inr (Or.inr (Or.inr (Or.inr (Or.inr (Or.inr
                          (Or.inr (Or.inr hd))))))))
                    | none =>
                      exact Or.inr (Or.inr (Or.inr (Or.inr (Or.inr (Or.inr (Or.inr
                        (Or.inr (Or.inl (by
                          rw [hmn] at h
                          dsimp only at h
                          by_cases hm : c = '-'
                          · exact hm
                          · rw [if_neg hm] at h
                            exact absurd h (fun h => Except.noConfusion h))))))))))

theorem starter_facts {c : Char}
    (h : c = '"' ∨ c = '\x7b' ∨ c = '[' ∨ c = 't' ∨ c = 'f' ∨ c = 'n' ∨ c = 'N' ∨
      c = 'I' ∨ c = '-' ∨ c.isDigit = true) :
    isPws c = false ∧ isJws c = false ∧ c ≠ '`' := by
  rcases h with h | h | h | h | h | h | h | h | h | h
  · subst h; exact ⟨by decide, by decide, by decide⟩
  · subst h; exact ⟨by decide, by decide, by decide⟩
  · subst h; exact ⟨by decide, by decide, by decide⟩
  · subst h; exact ⟨by decide, by decide, by decide⟩
  · subst h; exact ⟨by decide, by decide, by decide⟩
  · subst h; exact ⟨by decide, by decide, by decide⟩
  · subst h; exact ⟨by decide, by decide, by decide⟩
  · subst h; exact ⟨by decide, by decide, by decide⟩
  · subst h; exact ⟨by decide, by decide, by decide⟩
  · refine ⟨digit_not_pws h, ?_, ?_⟩
    · cases hj : isJws c with
      | false => rfl
      | true =>
        have hp := jws_pws hj
        rw [digit_not_pws h] at hp
        cases hp
    · intro e
      subst e
      exact absurd h (by decide)

/-! ### Fuel monotonicity -/

theorem scanString_mono :
    ∀ (f : Nat) {u : List Char} {p : List Char × List Char},
      scanString f u = .ok p → scanString (f + 1) u = .ok p := by
  intro f
  induction f with
  | zero =>
    intro u p h
    exact absurd h (fun h => Except.noConfusion h)
  | succ f ih =>
    intro u p h
    cases u with
    | nil => exact h
    | cons c a =>
      simp only [scanString] at h ⊢
      by_cases hq : c = '"'
      · rw [if_pos hq] at h ⊢
        exact h
      · rw [if_neg hq] at h ⊢
        by_cases hb : c = '\\'
        · rw [if_pos hb] at h ⊢
          cases a with
          | nil => exact h
          | cons e a2 =>
            dsimp only at h ⊢
            by_cases hu : e = 'u'
            · rw [if_pos hu] at h ⊢
              cases hrh : readHex4 a2 with
              | none =>
                rw [hrh] at h
                exact Except.noConfusion h
              | some q =>
                rcases q with ⟨code, cs3⟩
                rw [hrh] at h
                dsimp only at h ⊢
                cases hsc : scanString f cs3 with
                | error e2 =>
                  rw [hsc] at h
                  exact Except.noConfusion h
                | ok q2 =>
                  rw [hsc] at h
                  rw [ih hsc]
                  exact h
            · rw [if_neg hu] at h ⊢
              cases hec : escChar e with
              | none =>
                rw [hec] at h
                exact Except.noConfusion h
              | some ch =>
                rw [hec] at h
                dsimp only at h ⊢
                cases hsc : scanString f a2 with
                | error e2 =>
                  rw [hsc] at h
                  exact Except.noConfusion h
                | ok q2 =>
                  rw [hsc] at h
                  rw [ih hsc]
                  exact h
        · rw [if_neg hb] at h ⊢
          by_cases h32 : c.toNat < 32
          · rw [if_pos h32] at h
            exact Except.noConfusion h
          · rw [if_neg h32] at h ⊢
            cases hsc : scanString f a with
            | error e2 =>
              rw [hsc] at h
              exact Except.noConfusion h
            | ok q2 =>
              rw [hsc] at h
              rw [ih hsc]
              exact h

theorem parse_mono :
    ∀ f : Nat,
      (∀ {u : List Char} {p : PyObj × List Char},
        parseValue f u = .ok p → parseValue (f + 1) u = .ok p) ∧
      (∀ {u : List Char} {p : List PyObj × List Char},
        parseElems f u = .ok p → parseElems (f + 1) u = .ok p) ∧
      (∀ {u : List Char} {p : List (String × PyObj) × List Char},
        parseMembers f u = .ok p → parseMembers (f + 1) u = .ok p) := by
  intro f
  induction f with
  | zero =>
    refine ⟨fun h => absurd h ?_, fun h => absurd h ?_, fun h => absurd h ?_⟩ <;>
      exact fun h => Except.noConfusion h
  | succ f ih =>
    obtain ⟨ihv, ihe, ihm⟩ := ih
    refine ⟨?_, ?_, ?_⟩
    · intro u p h
      cases u with
      | nil => exact h
      | cons c cs =>
        simp only [parseValue] at h ⊢
        by_cases hq : c = '"'
        · rw [if_pos hq] at h ⊢
          cases hsc : scanString f cs with
          | error e2 =>
            rw [hsc] at h
            exact Except.noConfusion h
          | ok q =>
            rw [hsc] at h
            rw [scanString_mono f hsc]
            exact h
        · rw [if_neg hq] at h ⊢
          by_cases hbr : c = '\x7b'
          · rw [if_pos hbr] at h ⊢
            by_cases hh : (skipJws cs).head? = some '\x7d'
            · rw [if_pos hh] at h ⊢
              exact h
            · rw [if_neg hh] at h ⊢
              cases hpm : parseMembers f (skipJws cs) with
              | error e2 =>
                rw [hpm] at h
                exact Except.noConfusion h
              | ok q =>
                rw [hpm] at h
                rw [ihm hpm]
                exact h
          · rw [if_neg hbr] at h ⊢
            by_cases hbk : c = '['
            · rw [if_pos hbk] at h ⊢
              by_cases hh : (skipJws cs).head? = some ']'
              · rw [if_pos hh] at h ⊢
                exact h
              · rw [if_neg hh] at h ⊢
                cases hpe : parseElems f (skipJws cs) with
                | error e2 =>
                  rw [hpe] at h
                  exact Except.noConfusion h
                | ok q =>
                  rw [hpe] at h
                  rw [ihe hpe]
                  exact h
            · rw [if_neg hbk] at h ⊢
              exact h
    · intro u p h
      simp only [parseElems] at h
      generalize hg : f + 1 = g
      rw [hg] at ihv ihe ihm
      simp only [parseElems]
      cases hpv : parseValue f u with
      | error e2 =>
        rw [hpv] at h
        exact Except.noConfusion h
      | ok q =>
        rcases q with ⟨v, r⟩
        rw [hpv] at h
        rw [ihv hpv]
        dsimp only at h ⊢
        cases hsk : skipJws r with
        | nil =>
          rw [hsk] at h
          exact h
        | cons c r2 =>
          rw [hsk] at h
          dsimp only at h ⊢
          by_cases hc : c = ']'
          · rw [if_pos hc] at h ⊢
            exact h
          · rw [if_neg hc] at h ⊢
            by_cases hcm : c = ','
            · rw [if_pos hcm] at h ⊢
              cases hpe : parseElems f (skipJws r2) with
              | error e2 =>
                rw [hpe] at h
                exact Except.noConfusion h
              | ok q2 =>
                rw [hpe] at h
                rw [ihe hpe]
                exact h
            · rw [if_neg hcm] at h
              exact Except.noConfusion h
    · intro u p h
      simp only [parseMembers] at h
      generalize hg : f + 1 = g
      rw [hg] at ihv ihe ihm
      simp only [parseMembers]
      cases u with
      | nil => exact h
      | cons c cs1 =>
        dsimp only at h ⊢
        by_cases hq : c = '"'
        · rw [if_pos hq] at h ⊢
          cases hsc : scanString f cs1 with
          | error e2 =>
            rw [hsc] at h
            exact Except.noConfusion h
          | ok q =>
            rcases q with ⟨key, r1⟩
            rw [hsc] at h
            have hsc2 : scanString g cs1 = .ok (key, r1) := by
              rw [← hg]
              exact scanString_mono f hsc
            rw [hsc2]
            dsimp only at h ⊢
            cases hsk : skipJws r1 with
            | nil =>
              rw [hsk] at h
              exact h
            | cons c2 r2 =>
              rw [hsk] at h
              dsimp only at h ⊢
              by_cases hc2 : c2 = ':'
              · rw [if_pos hc2] at h ⊢
                cases hpv : parseValue f (skipJws r2) with
                | error e2 =>
                  rw [hpv] at h
                  exact Except.noConfusion h
                | ok q2 =>
                  rcases q2 with ⟨v, r3⟩
                  rw [hpv] at h
                  rw [ihv hpv]
                  dsimp only at h ⊢
                  cases hsk3 : skipJws r3 with
                  | nil =>
                    rw [hsk3] at h
                    exact h
                  | cons c3 r4 =>
                    rw [hsk3] at h
                    dsimp only at h ⊢
                    by_cases hc3 : c3 = ','
                    · rw [if_pos hc3] at h ⊢
                      cases hpm : parseMembers f (skipJws r4) with
                      | error e2 =>
                        rw [hpm] at h
                        exact Except.noConfusion h
                      | ok q3 =>
                        rw [hpm] at h
                        rw [ihm hpm]
                        exact h
                    · rw [if_neg hc3] at h ⊢
                      exact h
              · rw [if_neg hc2] at h
                exact Except.noConfusion h
        · rw [if_neg hq] at h
          exact Except.noConfusion h

theorem parse_mono_le {f g : Nat} (hfg : f ≤ g)
    {u : List Char} {p : PyObj × List Char}
    (h : parseValue f u = .ok p) : parseValue g u = .ok p := by
  obtain ⟨k, rfl⟩ := Nat.le.dest hfg
  clear hfg
  induction k with
  | zero => exact h
  | succ k ihk => exact (parse_mono (f + k)).1 ihk

theorem parse_append :
    ∀ f : Nat, ∀ {x : List Char}, (∀ c ∈ x, isPws c = true) →
      (∀ {u : List Char} {v : PyObj} {r : List Char},
        parseValue f u = .ok (v, r) → parseValue f (u ++ x) = .ok (v, r ++ x)) ∧
      (∀ {u : List Char} {vs : List PyObj} {r : List Char},
        parseElems f u = .ok (vs, r) → parseElems f (u ++ x) = .ok (vs, r ++ x)) ∧
      (∀ {u : List Char} {ms : List (String × PyObj)} {r : List Char},
        parseMembers f u = .ok (ms, r) → parseMembers f (u ++ x) = .ok (ms, r ++ x)) := by
  intro f
  induction f with
  | zero =>
    intro x hx
    refine ⟨?_, ?_, ?_⟩ <;> exact fun h => absurd h (fun h => Except.noConfusion h)
  | succ f ih =>
    intro x hx
    obtain ⟨ihv, ihe, ihm⟩ := ih hx
    refine ⟨?_, ?_, ?_⟩
    · intro u v r h
      cases u with
      | nil => exact absurd h (parseValue_nil (f + 1))
      | cons c cs =>
        simp only [parseValue] at h
        simp only [List.cons_append, parseValue]
        by_cases hq : c = '"'
        · rw [if_pos hq] at h ⊢
          cases hsc : scanString f cs with
          | error e2 =>
            rw [hsc] at h
            exact Except.noConfusion h
          | ok q =>
            rcases q with ⟨s1, r1⟩
            rw [hsc] at h
            dsimp only at h
            obtain ⟨hv, hr⟩ := Prod.mk.injEq .. ▸ Except.ok.inj h
            rw [scanString_append f hsc x]
            dsimp only
            rw [hv, hr]
        · rw [if_neg hq] at h ⊢
          by_cases hbr : c = '\x7b'
          · rw [if_pos hbr] at h ⊢
            cases hsk : skipJws cs with
            | nil =>
              rw [hsk] at h
              rw [if_neg (by simp)] at h
              cases hpm : parseMembers f ([] : List Char) with
              | error e2 =>
                rw [hpm] at h
                exact Except.noConfusion h
              | ok q => exact absurd hpm (parseMembers_nil f)
            | cons d t1 =>
              have hne : List.dropWhile isJws cs ≠ [] := by
                intro he
                rw [show skipJws cs = List.dropWhile isJws cs from rfl, he] at hsk
                exact List.noConfusion hsk
              have hdw : skipJws (cs ++ x) = d :: (t1 ++ x) := by
                show List.dropWhile isJws (cs ++ x) = d :: (t1 ++ x)
                rw [dropWhile_append_of_ne_nil hne x,
                  show List.dropWhile isJws cs = skipJws cs from rfl, hsk]
                rfl
              rw [hsk] at h
              rw [hdw]
              simp only [List.head?_cons, List.tail_cons] at h ⊢
              by_cases hdq : d = '\x7d'
              · rw [if_pos (by rw [hdq])] at h ⊢
                obtain ⟨hv, hr⟩ := Prod.mk.injEq .. ▸ Except.ok.inj h
                rw [hv, hr]
              · rw [if_neg (fun he => hdq (Option.some.inj he))] at h ⊢
                cases hpm : parseMembers f (d :: t1) with
                | error e2 =>
                  rw [hpm] at h
                  exact Except.noConfusion h
                | ok q =>
                  rcases q with ⟨ms, r2⟩
                  rw [hpm] at h
                  dsimp only at h
                  obtain ⟨hv, hr⟩ := Prod.mk.injEq .. ▸ Except.ok.inj h
                  have hpm2 := ihm hpm
                  simp only [List.cons_append] at hpm2
                  rw [hpm2]
                  dsimp only
                  rw [hv, hr]
          · rw [if_neg hbr] at h ⊢
            by_cases hbk : c = '['
            · rw [if_pos hbk] at h ⊢
              cases hsk : skipJws cs with
              | nil =>
                rw [hsk] at h
                rw [if_neg (by simp)] at h
                cases hpe : parseElems f ([] : List Char) with
                | error e2 =>
                  rw [hpe] at h
                  exact Except.noConfusion h
                | ok q => exact absurd hpe (parseElems_nil f)
              | cons d t1 =>
                have hne : List.dropWhile isJws cs ≠ [] := by
                  intro he
                  rw [show skipJws cs = List.dropWhile isJws cs from rfl, he] at hsk
                  exact List.noConfusion hsk
                have hdw : skipJws (cs ++ x) = d :: (t1 ++ x) := by
                  show List.dropWhile isJws (cs ++ x) = d :: (t1 ++ x)
                  rw [dropWhile_append_of_ne_nil hne x,
                    show List.dropWhile isJws cs = skipJws cs from rfl, hsk]
                  rfl
                rw [hsk] at h
                rw [hdw]
                simp only [List.head?_cons, List.tail_cons] at h ⊢
                by_cases hdq : d = ']'
                · rw [if_pos (by rw [hdq])] at h ⊢
                  obtain ⟨hv, hr⟩ := Prod.mk.injEq .. ▸ Except.ok.inj h
                  rw [hv, hr]
                · rw [if_neg (fun he => hdq (Option.some.inj he))] at h ⊢
                  cases hpe : parseElems f (d :: t1) with
                  | error e2 =>
                    rw [hpe] at h
                    exact Except.noConfusion h
                  | ok q =>
                    rcases q with ⟨vs, r2⟩
                    rw [hpe] at h
                    dsimp only at h
                    obtain ⟨hv, hr⟩ := Prod.mk.injEq .. ▸ Except.ok.inj h
                    have hpe2 := ihe hpe
                    simp only [List.cons_append] at hpe2
                    rw [hpe2]
                    dsimp only
                    rw [hv, hr]
            · rw [if_neg hbk] at h ⊢
              by_cases hlt : c = 't'
              · rw [if_pos hlt] at h ⊢
                cases hlp : isLitPre ['r', 'u', 'e'] cs with
                | none =>
                  rw [hlp] at h
                  exact Except.noConfusion h
                | some r1 =>
                  rw [hlp] at h
                  dsimp only at h
                  obtain ⟨hv, hr⟩ := Prod.mk.injEq .. ▸ Except.ok.inj h
                  rw [isLitPre_append hlp x]
                  dsimp only
                  rw [hv, hr]
              · rw [if_neg hlt] at h ⊢
                by_cases hlf : c = 'f'
                · rw [if_pos hlf] at h ⊢
                  cases hlp : isLitPre ['a', 'l', 's', 'e'] cs with
                  | none =>
                    rw [hlp] at h
                    exact Except.noConfusion h
                  | some r1 =>
                    rw [hlp] at h
                    dsimp only at h
                    obtain ⟨hv, hr⟩ := Prod.mk.injEq .. ▸ Except.ok.inj h
                    rw [isLitPre_append hlp x]
                    dsimp only
                    rw [hv, hr]
                · rw [if_neg hlf] at h ⊢
                  by_cases hln : c = 'n'
                  · rw [if_pos hln] at h ⊢
                    cases hlp : isLitPre ['u', 'l', 'l'] cs with
                    | none =>
                      rw [hlp] at h
                      exact Except.noConfusion h
                    | some r1 =>
                      rw [hlp] at h
                      dsimp only at h
                      obtain ⟨hv, hr⟩ := Prod.mk.injEq .. ▸ Except.ok.inj h
                      rw [isLitPre_append hlp x]
                      dsimp only
                      rw [hv, hr]
                  · rw [if_neg hln] at h ⊢
                    by_cases hlN : c = 'N'
                    · rw [if_pos hlN] at h ⊢
                      cases hlp : isLitPre ['a', 'N'] cs with
                      | none =>
                        rw [hlp] at h
                        exact Except.noConfusion h
                      | some r1 =>
                        rw [hlp] at h
                        dsimp only at h
                        obtain ⟨hv, hr⟩ := Prod.mk.injEq .. ▸ Except.ok.inj h
                        rw [isLitPre_append hlp x]
                        dsimp only
                        rw [hv, hr]
                    · rw [if_neg hlN] at h ⊢
                      by_cases hlI : c = 'I'
                      · rw [if_pos hlI] at h ⊢
                        cases hlp : isLitPre ['n', 'f', 'i', 'n', 'i', 't', 'y'] cs with
                        | none =>
                          rw [hlp] at h
                          exact Except.noConfusion h
                        | some r1 =>
                          rw [hlp] at h
                          dsimp only at h
                          obtain ⟨hv, hr⟩ := Prod.mk.injEq .. ▸ Except.ok.inj h
                          rw [isLitPre_append hlp x]
                          dsimp only
                          rw [hv, hr]
                      · rw [if_neg hlI] at h ⊢
                        cases hmn : matchNumber (c :: cs) with
                        | some q =>
                          rcases q with ⟨lex, r1⟩
                          rw [hmn] at h
                          dsimp only at h
                          obtain ⟨hv, hr⟩ := Prod.mk.injEq .. ▸ Except.ok.inj h
                          have hmn2 : matchNumber (c :: (cs ++ x)) = some (lex, r1 ++ x) := by
                            have hap := matchNumber_append hx (c :: cs)
                            rw [hmn] at hap
                            simpa [List.cons_append] using hap
                          rw [hmn2]
                          dsimp only
                          rw [hv, hr]
                        | none =>
                          rw [hmn] at h
                          dsimp only at h
                          have hmn2 : matchNumber (c :: (cs ++ x)) = none := by
                            have hap := matchNumber_append hx (c :: cs)
                            rw [hmn] at hap
                            simpa [List.cons_append] using hap
                          rw [hmn2]
                          dsimp only
                          by_cases hm : c = '-'
                          · rw [if_pos hm] at h ⊢
                            cases hlp : isLitPre ['I', 'n', 'f', 'i', 'n', 'i', 't', 'y'] cs with
                            | none =>
                              rw [hlp] at h
                              exact Except.noConfusion h
                            | some r1 =>
                              rw [hlp] at h
                              dsimp only at h
                              obtain ⟨hv, hr⟩ := Prod.mk.injEq .. ▸ Except.ok.inj h
                              rw [isLitPre_append hlp x]
                              dsimp only
                              rw [hv, hr]
                          · rw [if_neg hm] at h
                            exact Except.noConfusion h
    · intro u vs r h
      simp only [parseElems] at h ⊢
      cases hpv : parseValue f u with
      | error e2 =>
        rw [hpv] at h
        exact Except.noConfusion h
      | ok q =>
        rcases q with ⟨v, r1⟩
        rw [hpv] at h
        dsimp only at h
        rw [ihv hpv]
        dsimp only
        cases hsk : skipJws r1 with
        | nil =>
          rw [hsk] at h
          exact Except.noConfusion h
        | cons d t1 =>
          have hne : List.dropWhile isJws r1 ≠ [] := by
            intro he
            rw [show skipJws r1 = List.dropWhile isJws r1 from rfl, he] at hsk
            exact List.noConfusion hsk
          have hdw : skipJws (r1 ++ x) = d :: (t1 ++ x) := by
            show List.dropWhile isJws (r1 ++ x) = d :: (t1 ++ x)
            rw [dropWhile_append_of_ne_nil hne x,
              show List.dropWhile isJws r1 = skipJws r1 from rfl, hsk]
            rfl
          rw [hsk] at h
          dsimp only at h
          rw [hdw]
          dsimp only
          by_cases hd1 : d = ']'
          · rw [if_pos hd1] at h ⊢
            obtain ⟨hv, hr⟩ := Prod.mk.injEq .. ▸ Except.ok.inj h
            rw [hv, hr]
          · rw [if_neg hd1] at h ⊢
            by_cases hd2 : d = ','
            · rw [if_pos hd2] at h ⊢
              cases hpe : parseElems f (skipJws t1) with
              | error e2 =>
                rw [hpe] at h
                exact Except.noConfusion h
              | ok q2 =>
                rcases q2 with ⟨vs2, r3⟩
                rw [hpe] at h
                dsimp only at h
                obtain ⟨hv, hr⟩ := Prod.mk.injEq .. ▸ Except.ok.inj h
                cases hsk2 : skipJws t1 with
                | nil =>
                  rw [hsk2] at hpe
                  exact absurd hpe (parseElems_nil f)
                | cons e t2 =>
                  have hne2 : List.dropWhile isJws t1 ≠ [] := by
                    intro he
                    rw [show skipJws t1 = List.dropWhile isJws t1 from rfl, he] at hsk2
                    exact List.noConfusion hsk2
                  have hdw2 : skipJws (t1 ++ x) = (e :: t2) ++ x := by
                    show List.dropWhile isJws (t1 ++ x) = (e :: t2) ++ x
                    rw [dropWhile_append_of_ne_nil hne2 x,
                      show List.dropWhile isJws t1 = skipJws t1 from rfl, hsk2]
                  rw [hsk2] at hpe
                  rw [hdw2, ihe hpe]
                  dsimp only
                  rw [hv, hr]
            · rw [if_neg hd2] at h
              exact Except.noConfusion h
    · intro u ms r h
      cases u with
      | nil => exact absurd h (parseMembers_nil (f + 1))
      | cons c cs1 =>
        simp only [parseMembers] at h
        simp only [List.cons_append, parseMembers]
        by_cases hq : c = '"'
        · rw [if_pos hq] at h ⊢
          cases hsc : scanString f cs1 with
          | error e2 =>
            rw [hsc] at h
            exact Except.noConfusion h
          | ok q =>
            rcases q with ⟨key, r1⟩
            rw [hsc] at h
            dsimp only at h
            rw [scanString_append f hsc x]
            dsimp only
            cases hsk : skipJws r1 with
            | nil =>
              rw [hsk] at h
              exact Except.noConfusion h
            | cons c2 r2 =>
              have hne : List.dropWhile isJws r1 ≠ [] := by
                intro he
                rw [show skipJws r1 = List.dropWhile isJws r1 from rfl, he] at hsk
                exact List.noConfusion hsk
              have hdw : skipJws (r1 ++ x) = c2 :: (r2 ++ x) := by
                show List.dropWhile isJws (r1 ++ x) = c2 :: (r2 ++ x)
                rw [dropWhile_append_of_ne_nil hne x,
                  show List.dropWhile isJws r1 = skipJws r1 from rfl, hsk]
                rfl
              rw [hsk] at h
              dsimp only at h
              rw [hdw]
              dsimp only
              by_cases hc2 : c2 = ':'
              · rw [if_pos hc2] at h ⊢
                cases hpv : parseValue f (skipJws r2) with
                | error e2 =>
                  rw [hpv] at h
                  exact Except.noConfusion h
                | ok q2 =>
                  rcases q2 with ⟨v, r3⟩
                  rw [hpv] at h
                  dsimp only at h
                  cases hsk2 : skipJws r2 with
                  | nil =>
                    rw [hsk2] at hpv
                    exact absurd hpv (parseValue_nil f)
                  | cons e t2 =>
                    have hne2 : List.dropWhile isJws r2 ≠ [] := by
                      intro he
                      rw [show skipJws r2 = List.dropWhile isJws r2 from rfl, he] at hsk2
                      exact List.noConfusion hsk2
                    have hdw2 : skipJws (r2 ++ x) = (e :: t2) ++ x := by
                      show List.dropWhile isJws (r2 ++ x) = (e :: t2) ++ x
                      rw [dropWhile_append_of_ne_nil hne2 x,
                        show List.dropWhile isJws r2 = skipJws r2 from rfl, hsk2]
                    rw [hsk2] at hpv
                    rw [hdw2, ihv hpv]
                    dsimp only
                    cases hsk3 : skipJws r3 with
                    | nil =>
                      rw [hsk3] at h
                      exact Except.noConfusion h
                    | cons c3 r4 =>
                      have hne3 : List.dropWhile isJws r3 ≠ [] := by
                        intro he
                        rw [show skipJws r3 = List.dropWhile isJws r3 from rfl, he] at hsk3
                        exact List.noConfusion hsk3
                      have hdw3 : skipJws (r3 ++ x) = c3 :: (r4 ++ x) := by
                        show List.dropWhile isJws (r3 ++ x) = c3 :: (r4 ++ x)
                        rw [dropWhile_append_of_ne_nil hne3 x,
                          show List.dropWhile isJws r3 = skipJws r3 from rfl, hsk3]
                        rfl
                      rw [hsk3] at h
                      dsimp only at h
                      rw [hdw3]
                      dsimp only
                      by_cases hc3 : c3 = ','
                      · rw [if_pos hc3] at h ⊢
                        cases hpm : parseMembers f (skipJws r4) with
                        | error e2 =>
                          rw [hpm] at h
                          exact Except.noConfusion h
                        | ok q3 =>
                          rcases q3 with ⟨ms2, r5⟩
                          rw [hpm] at h
                          dsimp only at h
                          obtain ⟨hv, hr⟩ := Prod.mk.injEq .. ▸ Except.ok.inj h
                          cases hsk4 : skipJws r4 with
                          | nil =>
                            rw [hsk4] at hpm
                            exact absurd hpm (parseMembers_nil f)
                          | cons e2 t4 =>
                            have hne4 : List.dropWhile isJws r4 ≠ [] := by
                              intro he
                              rw [show skipJws r4 = List.dropWhile isJws r4 from rfl,
                                he] at hsk4
                              exact List.noConfusion hsk4
                            have hdw4 : skipJws (r4 ++ x) = (e2 :: t4) ++ x := by
                              show List.dropWhile isJws (r4 ++ x) = (e2 :: t4) ++ x
                              rw [dropWhile_append_of_ne_nil hne4 x,
                                show List.dropWhile isJws r4 = skipJws r4 from rfl, hsk4]
                            rw [hsk4] at hpm
                            rw [hdw4, ihm hpm]
                            dsimp only
                            rw [hv, hr]
                      · rw [if_neg hc3] at h ⊢
                        by_cases hbr : c3 = '\x7d'
                        · rw [if_pos hbr] at h ⊢
                          obtain ⟨hv, hr⟩ := Prod.mk.injEq .. ▸ Except.ok.inj h
                          rw [hv, hr]
                        · rw [if_neg hbr] at h
                          exact Except.noConfusion h
              · rw [if_neg hc2] at h
                exact Except.noConfusion h
        · rw [if_neg hq] at h
          exact Except.noConfusion h

theorem mem_of_dropWhile_mem {p : Char → Bool} {x : List Char} {c : Char}
    (hc : c ∈ List.dropWhile p x) : c ∈ x := by
  have h := List.takeWhile_append_dropWhile p x
  rw [← h]
  exact List.mem_append_right _ hc

theorem dropWhile_x_pws {x : List Char} (hx : ∀ c ∈ x, isPws c = true) :
    ∀ c ∈ List.dropWhile isJws x, isPws c = true :=
  fun c hc => hx c (mem_of_dropWhile_mem hc)

theorem skipJws_append_split (a x : List Char) :
    (List.dropWhile isJws a = [] ∧ skipJws (a ++ x) = List.dropWhile isJws x) ∨
    (∃ d t, List.dropWhile isJws a = d :: t ∧ skipJws (a ++ x) = d :: (t ++ x)) := by
  cases hsk : List.dropWhile isJws a with
  | nil =>
    left
    refine ⟨rfl, ?_⟩
    show List.dropWhile isJws (a ++ x) = List.dropWhile isJws x
    exact dropWhile_append_all (List.dropWhile_eq_nil_iff.mp hsk) x
  | cons d t =>
    right
    refine ⟨d, t, rfl, ?_⟩
    show List.dropWhile isJws (a ++ x) = d :: (t ++ x)
    rw [dropWhile_append_of_ne_nil (by rw [hsk]; exact fun hh => List.noConfusion hh) x,
      hsk]
    rfl

theorem parse_unappend :
    ∀ f : Nat, ∀ {x : List Char}, (∀ c ∈ x, isPws c = true) →
      (∀ {a : List Char} {v : PyObj} {rr : List Char},
        parseValue f (a ++ x) = .ok (v, rr) →
        ∃ r0, rr = r0 ++ x ∧ parseValue f a = .ok (v, r0)) ∧
      (∀ {a : List Char} {vs : List PyObj} {rr : List Char},
        parseElems f (a ++ x) = .ok (vs, rr) →
        ∃ r0, rr = r0 ++ x ∧ parseElems f a = .ok (vs, r0)) ∧
      (∀ {a : List Char} {ms : List (String × PyObj)} {rr : List Char},
        parseMembers f (a ++ x) = .ok (ms, rr) →
        ∃ r0, rr = r0 ++ x ∧ parseMembers f a = .ok (ms, r0)) := by
  intro f
  induction f with
  | zero =>
    intro x hx
    refine ⟨?_, ?_, ?_⟩ <;> exact fun h => absurd h (fun h => Except.noConfusion h)
  | succ f ih =>
    intro x hx
    obtain ⟨ihv, ihe, ihm⟩ := ih hx
    refine ⟨?_, ?_, ?_⟩
    · intro a v rr h
      cases a with
      | nil =>
        simp only [List.nil_append] at h
        exact absurd h (parseValue_ws_error (f + 1) hx)
      | cons c cs =>
        simp only [List.cons_append, parseValue] at h
        by_cases hq : c = '"'
        · rw [if_pos hq] at h
          cases hsc : scanString f (cs ++ x) with
          | error e2 =>
            rw [hsc] at h
            exact Except.noConfusion h
          | ok q =>
            rcases q with ⟨s1, r1⟩
            rw [hsc] at h
            dsimp only at h
            obtain ⟨hv, hr⟩ := Prod.mk.injEq .. ▸ Except.ok.inj h
            obtain ⟨r0, hr0, hsc0⟩ := scanString_unappend f hx hsc
            refine ⟨r0, by rw [← hr]; exact hr0, ?_⟩
            simp only [parseValue]
            rw [if_pos hq, hsc0]
            dsimp only
            rw [hv]
        · rw [if_neg hq] at h
          by_cases hbr : c = '\x7b'
          · rw [if_pos hbr] at h
            rcases skipJws_append_split cs x with ⟨hsk, hsub⟩ | ⟨d, t1, hsk, hdw⟩
            · rw [hsub] at h
              cases hy : List.dropWhile isJws x with
              | nil =>
                rw [hy] at h
                rw [if_neg (by simp)] at h
                cases hpm : parseMembers f ([] : List Char) with
                | error e2 =>
                  rw [hpm] at h
                  exact Except.noConfusion h
                | ok q => exact absurd hpm (parseMembers_nil f)
              | cons d t1 =>
                rw [hy] at h
                simp only [List.head?_cons] at h
                have hdp : isPws d = true :=
                  dropWhile_x_pws hx d (by rw [hy]; exact List.mem_cons_self d t1)
                obtain ⟨-, -, -, hd4, -⟩ := pws_char_facts d hdp
                rw [if_neg (fun he => hd4 (Option.some.inj he))] at h
                cases hpm : parseMembers f (d :: t1) with
                | error e2 =>
                  rw [hpm] at h
                  exact Except.noConfusion h
                | ok q =>
                  refine absurd hpm (parseMembers_ws_error f ?_)
                  intro e2 he2
                  refine dropWhile_x_pws hx e2 ?_
                  rw [hy]
                  exact he2
            · rw [hdw] at h
              simp only [List.head?_cons, List.tail_cons] at h
              by_cases hdq : d = '\x7d'
              · rw [if_pos (by rw [hdq])] at h
                obtain ⟨hv, hr⟩ := Prod.mk.injEq .. ▸ Except.ok.inj h
                refine ⟨t1, hr.symm, ?_⟩
                simp only [parseValue]
                rw [if_neg hq, if_pos hbr, show skipJws cs = d :: t1 from hsk]
                simp only [List.head?_cons, List.tail_cons]
                rw [if_pos (by rw [hdq]), hv]
              · rw [if_neg (fun he => hdq (Option.some.inj he))] at h
                cases hpm : parseMembers f (d :: (t1 ++ x)) with
                | error e2 =>
                  rw [hpm] at h
                  exact Except.noConfusion h
                | ok q =>
                  rcases q with ⟨ms, r2⟩
                  rw [hpm] at h
                  dsimp only at h
                  obtain ⟨hv, hr⟩ := Prod.mk.injEq .. ▸ Except.ok.inj h
                  have hpm2 : parseMembers f ((d :: t1) ++ x) = .ok (ms, r2) := hpm
                  obtain ⟨r0, hr0, hpm0⟩ := ihm hpm2
                  refine ⟨r0, by rw [← hr]; exact hr0, ?_⟩
                  simp only [parseValue]
                  rw [if_neg hq, if_pos hbr, show skipJws cs = d :: t1 from hsk]
                  simp only [List.head?_cons, List.tail_cons]
                  rw [if_neg (fun he => hdq (Option.some.inj he)), hpm0]
                  dsimp only
                  rw [hv]
          · rw [if_neg hbr] at h
            by_cases hbk : c = '['
            · rw [if_pos hbk] at h
              rcases skipJws_append_split cs x with ⟨hsk, hsub⟩ | ⟨d, t1, hsk, hdw⟩
              · rw [hsub] at h
                cases hy : List.dropWhile isJws x with
                | nil =>
                  rw [hy] at h
                  rw [if_neg (by simp)] at h
                  cases hpe : parseElems f ([] : List Char) with
                  | error e2 =>
                    rw [hpe] at h
                    exact Except.noConfusion h
                  | ok q => exact absurd hpe (parseElems_nil f)
                | cons d t1 =>
                  rw [hy] at h
                  simp only [List.head?_cons] at h
                  have hdp : isPws d = true :=
                    dropWhile_x_pws hx d (by rw [hy]; exact List.mem_cons_self d t1)
                  obtain ⟨-, -, -, -, -, hd6, -⟩ := pws_char_facts d hdp
                  rw [if_neg (fun he => hd6 (Option.some.inj he))] at h
                  cases hpe : parseElems f (d :: t1) with
                  | error e2 =>
                    rw [hpe] at h
                    exact Except.noConfusion h
                  | ok q =>
                    refine absurd hpe (parseElems_ws_error f ?_)
                    intro e2 he2
                    refine dropWhile_x_pws hx e2 ?_
                    rw [hy]
                    exact he2
              · rw [hdw] at h
                simp only [List.head?_cons, List.tail_cons] at h
                by_cases hdq : d = ']'
                · rw [if_pos (by rw [hdq])] at h
                  obtain ⟨hv, hr⟩ := Prod.mk.injEq .. ▸ Except.ok.inj h
                  refine ⟨t1, hr.symm, ?_⟩
                  simp only [parseValue]
                  rw [if_neg hq, if_neg hbr, if_pos hbk,
                    show skipJws cs = d :: t1 from hsk]
                  simp only [List.head?_cons, List.tail_cons]
                  rw [if_pos (by rw [hdq]), hv]
                · rw [if_neg (fun he => hdq (Option.some.inj he))] at h
                  cases hpe : parseElems f (d :: (t1 ++ x)) with
                  | error e2 =>
                    rw [hpe] at h
                    exact Except.noConfusion h
                  | ok q =>
                    rcases q with ⟨vs, r2⟩
                    rw [hpe] at h
                    dsimp only at h
                    obtain ⟨hv, hr⟩ := Prod.mk.injEq .. ▸ Except.ok.inj h
                    have hpe2 : parseElems f ((d :: t1) ++ x) = .ok (vs, r2) := hpe
                    obtain ⟨r0, hr0, hpe0⟩ := ihe hpe2
                    refine ⟨r0, by rw [← hr]; exact hr0, ?_⟩
                    simp only [parseValue]
                    rw [if_neg hq, if_neg hbr, if_pos hbk,
                      show skipJws cs = d :: t1 from hsk]
                    simp only [List.head?_cons, List.tail_cons]
                    rw [if_neg (fun he => hdq (Option.some.inj he)), hpe0]
                    dsimp only
                    rw [hv]
            · rw [if_neg hbk] at h
              by_cases hlt : c = 't'
              · rw [if_pos hlt] at h
                cases hlp : isLitPre ['r', 'u', 'e'] (cs ++ x) with
                | none =>
                  rw [hlp] at h
                  exact Except.noConfusion h
                | some r1 =>
                  rw [hlp] at h
                  dsimp only at h
                  obtain ⟨hv, hr⟩ := Prod.mk.injEq .. ▸ Except.ok.inj h
                  obtain ⟨r0, hr0, hlp0⟩ := isLitPre_unappend (by decide) hx hlp
                  refine ⟨r0, by rw [← hr]; exact hr0, ?_⟩
                  simp only [parseValue]
                  rw [if_neg hq, if_neg hbr, if_neg hbk, if_pos hlt, hlp0]
                  dsimp only
                  rw [hv]
              · rw [if_neg hlt] at h
                by_cases hlf : c = 'f'
                · rw [if_pos hlf] at h
                  cases hlp : isLitPre ['a', 'l', 's', 'e'] (cs ++ x) with
                  | none =>
                    rw [hlp] at h
                    exact Except.noConfusion h
                  | some r1 =>
                    rw [hlp] at h
                    dsimp only at h
                    obtain ⟨hv, hr⟩ := Prod.mk.injEq .. ▸ Except.ok.inj h
                    obtain ⟨r0, hr0, hlp0⟩ := isLitPre_unappend (by decide) hx hlp
                    refine ⟨r0, by rw [← hr]; exact hr0, ?_⟩
                    simp only [parseValue]
                    rw [if_neg hq, if_neg hbr, if_neg hbk, if_neg hlt, if_pos hlf, hlp0]
                    dsimp only
                    rw [hv]
                · rw [if_neg hlf] at h
                  by_cases hln : c = 'n'
                  · rw [if_pos hln] at h
                    cases hlp : isLitPre ['u', 'l', 'l'] (cs ++ x) with
                    | none =>
                      rw [hlp] at h
                      exact Except.noConfusion h
                    | some r1 =>
                      rw [hlp] at h
                      dsimp only at h
                      obtain ⟨hv, hr⟩ := Prod.mk.injEq .. ▸ Except.ok.inj h
                      obtain ⟨r0, hr0, hlp0⟩ := isLitPre_unappend (by decide) hx hlp
                      refine ⟨r0, by rw [← hr]; exact hr0, ?_⟩
                      simp only [parseValue]
                      rw [if_neg hq, if_neg hbr, if_neg hbk, if_neg hlt, if_neg hlf,
                        if_pos hln, hlp0]
                      dsimp only
                      rw [hv]
                  · rw [if_neg hln] at h
                    by_cases hlN : c = 'N'
                    · rw [if_pos hlN] at h
                      cases hlp : isLitPre ['a', 'N'] (cs ++ x) with
                      | none =>
                        rw [hlp] at h
                        exact Except.noConfusion h
                      | some r1 =>
                        rw [hlp] at h
                        dsimp only at h
                        obtain ⟨hv, hr⟩ := Prod.mk.injEq .. ▸ Except.ok.inj h
                        obtain ⟨r0, hr0, hlp0⟩ := isLitPre_unappend (by decide) hx hlp
                        refine ⟨r0, by rw [← hr]; exact hr0, ?_⟩
                        simp only [parseValue]
                        rw [if_neg hq, if_neg hbr, if_neg hbk, if_neg hlt, if_neg hlf,
                          if_neg hln, if_pos hlN, hlp0]
                        dsimp only
                        rw [hv]
                    · rw [if_neg hlN] at h
                      by_cases hlI : c = 'I'
                      · rw [if_pos hlI] at h
                        cases hlp : isLitPre ['n', 'f', 'i', 'n', 'i', 't', 'y'] (cs ++ x) with
                        | none =>
                          rw [hlp] at h
                          exact Except.noConfusion h
                        | some r1 =>
                          rw [hlp] at h
                          dsimp only at h
                          obtain ⟨hv, hr⟩ := Prod.mk.injEq .. ▸ Except.ok.inj h
                          obtain ⟨r0, hr0, hlp0⟩ := isLitPre_unappend (by decide) hx hlp
                          refine ⟨r0, by rw [← hr]; exact hr0, ?_⟩
                          simp only [parseValue]
                          rw [if_neg hq, if_neg hbr, if_neg hbk, if_neg hlt, if_neg hlf,
                            if_neg hln, if_neg hlN, if_pos hlI, hlp0]
                          dsimp only
                          rw [hv]
                      · rw [if_neg hlI] at h
                        cases hmn : matchNumber (c :: cs) with
                        | some q =>
                          rcases q with ⟨lex, r1⟩
                          have hap := matchNumber_append hx (c :: cs)
                          rw [hmn] at hap
                          have hap2 : matchNumber (c :: (cs ++ x)) = some (lex, r1 ++ x) := by
                            simpa [List.cons_append] using hap
                          rw [hap2] at h
                          dsimp only at h
                          obtain ⟨hv, hr⟩ := Prod.mk.injEq .. ▸ Except.ok.inj h
                          refine ⟨r1, hr.symm, ?_⟩
                          simp only [parseValue]
                          rw [if_neg hq, if_neg hbr, if_neg hbk, if_neg hlt, if_neg hlf,
                            if_neg hln, if_neg hlN, if_neg hlI, hmn]
                          dsimp only
                          rw [hv]
                        | none =>
                          have hap := matchNumber_append hx (c :: cs)
                          rw [hmn] at hap
                          have hap2 : matchNumber (c :: (cs ++ x)) = none := by
                            simpa [List.cons_append] using hap
                          rw [hap2] at h
                          dsimp only at h
                          by_cases hm : c = '-'
                          · rw [if_pos hm] at h
                            cases hlp :
                                isLitPre ['I', 'n', 'f', 'i', 'n', 'i', 't', 'y'] (cs ++ x) with
                            | none =>
                              rw [hlp] at h
                              exact Except.noConfusion h
                            | some r1 =>
                              rw [hlp] at h
                              dsimp only at h
                              obtain ⟨hv, hr⟩ := Prod.mk.injEq .. ▸ Except.ok.inj h
                              obtain ⟨r0, hr0, hlp0⟩ := isLitPre_unappend (by decide) hx hlp
                              refine ⟨r0, by rw [← hr]; exact hr0, ?_⟩
                              simp only [parseValue]
                              rw [if_neg hq, if_neg hbr, if_neg hbk, if_neg hlt, if_neg hlf,
                                if_neg hln, if_neg hlN, if_neg hlI, hmn]
                              dsimp only
                              rw [if_pos hm, hlp0]
                              dsimp only
                              rw [hv]
                          · rw [if_neg hm] at h
                            exact Except.noConfusion h
    · intro a vs rr h
      simp only [parseElems] at h
      cases hpv : parseValue f (a ++ x) with
      | error e2 =>
        rw [hpv] at h
        exact Except.noConfusion h
      | ok q =>
        rcases q with ⟨v, r1⟩
        rw [hpv] at h
        dsimp only at h
        obtain ⟨ra, hra, hpv0⟩ := ihv hpv
        subst hra
        rcases skipJws_append_split ra x with ⟨hsk, hsub⟩ | ⟨d, t1, hsk, hdw⟩
        · rw [hsub] at h
          cases hy : List.dropWhile isJws x with
          | nil =>
            rw [hy] at h
            exact Except.noConfusion h
          | cons d t1 =>
            rw [hy] at h
            dsimp only at h
            have hdp : isPws d = true :=
              dropWhile_x_pws hx d (by rw [hy]; exact List.mem_cons_self d t1)
            obtain ⟨-, -, -, -, -, hd6, hd7, -⟩ := pws_char_facts d hdp
            rw [if_neg hd6, if_neg hd7] at h
            exact Except.noConfusion h
        · rw [hdw] at h
          dsimp only at h
          by_cases hd1 : d = ']'
          · rw [if_pos hd1] at h
            obtain ⟨hv, hr⟩ := Prod.mk.injEq .. ▸ Except.ok.inj h
            refine ⟨t1, hr.symm, ?_⟩
            simp only [parseElems]
            rw [hpv0]
            dsimp only
            rw [show skipJws ra = d :: t1 from hsk]
            dsimp only
            rw [if_pos hd1, hv]
          · rw [if_neg hd1] at h
            by_cases hd2 : d = ','
            · rw [if_pos hd2] at h
              rcases skipJws_append_split t1 x with ⟨hsk2, hsub2⟩ | ⟨e, t2, hsk2, hdw2⟩
              · rw [hsub2] at h
                cases hpe : parseElems f (List.dropWhile isJws x) with
                | error e2 =>
                  rw [hpe] at h
                  exact Except.noConfusion h
                | ok q2 =>
                  exact absurd hpe (parseElems_ws_error f (dropWhile_x_pws hx))
              · rw [hdw2] at h
                cases hpe : parseElems f (e :: (t2 ++ x)) with
                | error e2 =>
                  rw [hpe] at h
                  exact Except.noConfusion h
                | ok q2 =>
                  rcases q2 with ⟨vs2, r3⟩
                  rw [hpe] at h
                  dsimp only at h
                  obtain ⟨hv, hr⟩ := Prod.mk.injEq .. ▸ Except.ok.inj h
                  have hpe2 : parseElems f ((e :: t2) ++ x) = .ok (vs2, r3) := hpe
                  obtain ⟨r0, hr0, hpe0⟩ := ihe hpe2
                  refine ⟨r0, by rw [← hr]; exact hr0, ?_⟩
                  simp only [parseElems]
                  rw [hpv0]
                  dsimp only
                  rw [show skipJws ra = d :: t1 from hsk]
                  dsimp only
                  rw [if_neg hd1, if_pos hd2, show skipJws t1 = e :: t2 from hsk2, hpe0]
                  dsimp only
                  rw [hv]
            · rw [if_neg hd2] at h
              exact Except.noConfusion h
    · intro a ms rr h
      cases a with
      | nil =>
        simp only [List.nil_append] at h
        exact absurd h (parseMembers_ws_error (f + 1) hx)
      | cons c cs1 =>
        simp only [List.cons_append, parseMembers] at h
        by_cases hq : c = '"'
        · rw [if_pos hq] at h
          cases hsc : scanString f (cs1 ++ x) with
          | error e2 =>
            rw [hsc] at h
            exact Except.noConfusion h
          | ok q =>
            rcases q with ⟨key, r1⟩
            rw [hsc] at h
            dsimp only at h
            obtain ⟨k0, hk0, hsc0⟩ := scanString_unappend f hx hsc
            subst hk0
            rcases skipJws_append_split k0 x with ⟨hsk, hsub⟩ | ⟨d, t1, hsk, hdw⟩
            · rw [hsub] at h
              cases hy : List.dropWhile isJws x with
              | nil =>
                rw [hy] at h
                exact Except.noConfusion h
              | cons d t1 =>
                rw [hy] at h
                dsimp only at h
                have hdp : isPws d = true :=
                  dropWhile_x_pws hx d (by rw [hy]; exact List.mem_cons_self d t1)
                obtain ⟨-, -, -, -, -, -, -, hd8, -⟩ := pws_char_facts d hdp
                rw [if_neg hd8] at h
                exact Except.noConfusion h
            · rw [hdw] at h
              dsimp only at h
              by_cases hc2 : d = ':'
              · rw [if_pos hc2] at h
                rcases skipJws_append_split t1 x with ⟨hsk2, hsub2⟩ | ⟨e, t2, hsk2, hdw2⟩
                · rw [hsub2] at h
                  cases hpv : parseValue f (List.dropWhile isJws x) with
                  | error e2 =>
                    rw [hpv] at h
                    exact Except.noConfusion h
                  | ok q2 =>
                    exact absurd hpv (parseValue_ws_error f (dropWhile_x_pws hx))
                · rw [hdw2] at h
                  cases hpv : parseValue f (e :: (t2 ++ x)) with
                  | error e2 =>
                    rw [hpv] at h
                    exact Except.noConfusion h
                  | ok q2 =>
                    rcases q2 with ⟨v, r3⟩
                    rw [hpv] at h
                    dsimp only at h
                    have hpv2 : parseValue f ((e :: t2) ++ x) = .ok (v, r3) := hpv
                    obtain ⟨rv, hrv, hpv0⟩ := ihv hpv2
                    subst hrv
                    rcases skipJws_append_split rv x with ⟨hsk3, hsub3⟩ | ⟨d3, t3, hsk3, hdw3⟩
                    · rw [hsub3] at h
                      cases hy : List.dropWhile isJws x with
                      | nil =>
                        rw [hy] at h
                        exact Except.noConfusion h
                      | cons d4 t4 =>
                        rw [hy] at h
                        dsimp only at h
                        have hdp : isPws d4 = true :=
                          dropWhile_x_pws hx d4 (by rw [hy]; exact List.mem_cons_self d4 t4)
                        obtain ⟨-, -, -, hd4f, -, -, hd7f, -⟩ := pws_char_facts d4 hdp
                        rw [if_neg hd7f, if_neg hd4f] at h
                        exact Except.noConfusion h
                    · rw [hdw3] at h
                      dsimp only at h
                      by_cases hc3 : d3 = ','
                      · rw [if_pos hc3] at h
                        rcases skipJws_append_split t3 x with
                          ⟨hsk4, hsub4⟩ | ⟨e4, t4, hsk4, hdw4⟩
                        · rw [hsub4] at h
                          cases hpm : parseMembers f (List.dropWhile isJws x) with
                          | error e2 =>
                            rw [hpm] at h
                            exact Except.noConfusion h
                          | ok q3 =>
                            exact absurd hpm (parseMembers_ws_error f (dropWhile_x_pws hx))
                        · rw [hdw4] at h
                          cases hpm : parseMembers f (e4 :: (t4 ++ x)) with
                          | error e2 =>
                            rw [hpm] at h
                            exact Except.noConfusion h
                          | ok q3 =>
                            rcases q3 with ⟨ms2, r5⟩
                            rw [hpm] at h
                            dsimp only at h
                            obtain ⟨hv, hr⟩ := Prod.mk.injEq .. ▸ Except.ok.inj h
                            have hpm2 : parseMembers f ((e4 :: t4) ++ x) = .ok (ms2, r5) := hpm
                            obtain ⟨r0, hr0, hpm0⟩ := ihm hpm2
                            refine ⟨r0, by rw [← hr]; exact hr0, ?_⟩
                            simp only [parseMembers]
                            rw [if_pos hq, hsc0]
                            dsimp only
                            rw [show skipJws k0 = d :: t1 from hsk]
                            dsimp only
                            rw [if_pos hc2, show skipJws t1 = e :: t2 from hsk2, hpv0]
                            dsimp only
                            rw [show skipJws rv = d3 :: t3 from hsk3]
                            dsimp only
                            rw [if_pos hc3, show skipJws t3 = e4 :: t4 from hsk4, hpm0]
                            dsimp only
                            rw [hv]
                      · rw [if_neg hc3] at h
                        by_cases hbr2 : d3 = '\x7d'
                        · rw [if_pos hbr2] at h
                          obtain ⟨hv, hr⟩ := Prod.mk.injEq .. ▸ Except.ok.inj h
                          refine ⟨t3, hr.symm, ?_⟩
                          simp only [parseMembers]
                          rw [if_pos hq, hsc0]
                          dsimp only
                          rw [show skipJws k0 = d :: t1 from hsk]
                          dsimp only
                          rw [if_pos hc2, show skipJws t1 = e :: t2 from hsk2, hpv0]
                          dsimp only
                          rw [show skipJws rv = d3 :: t3 from hsk3]
                          dsimp only
                          rw [if_neg hc3, if_pos hbr2, hv]
                        · rw [if_neg hbr2] at h
                          exact Except.noConfusion h
              · rw [if_neg hc2] at h
                exact Except.noConfusion h
        · rw [if_neg hq] at h
          exact Except.noConfusion h

theorem parse_shape :
    ∀ f : Nat,
      (∀ {u : List Char} {v : PyObj} {r : List Char},
        parseValue f u = .ok (v, r) → ∃ t ch, u = t ++ ch :: r ∧ isPws ch = false) ∧
      (∀ {u : List Char} {vs : List PyObj} {r : List Char},
        parseElems f u = .ok (vs, r) → ∃ t, u = t ++ ']' :: r) ∧
      (∀ {u : List Char} {ms : List (String × PyObj)} {r : List Char},
        parseMembers f u = .ok (ms, r) → ∃ t, u = t ++ '\x7d' :: r) := by
  intro f
  induction f with
  | zero =>
    refine ⟨?_, ?_, ?_⟩ <;> exact fun h => absurd h (fun h => Except.noConfusion h)
  | succ f ih =>
    obtain ⟨ihv, ihe, ihm⟩ := ih
    refine ⟨?_, ?_, ?_⟩
    · intro u v r h
      cases u with
      | nil => exact absurd h (parseValue_nil (f + 1))
      | cons c cs =>
        simp only [parseValue] at h
        by_cases hq : c = '"'
        · rw [if_pos hq] at h
          cases hsc : scanString f cs with
          | error e2 =>
            rw [hsc] at h
            exact Except.noConfusion h
          | ok q =>
            rcases q with ⟨s1, r1⟩
            rw [hsc] at h
            dsimp only at h
            obtain ⟨hv, hr⟩ := Prod.mk.injEq .. ▸ Except.ok.inj h
            subst hr
            obtain ⟨body, hbody⟩ := scanString_shape f hsc
            refine ⟨c :: body, '"', ?_, by decide⟩
            rw [hbody]
            simp [List.cons_append]
        · rw [if_neg hq] at h
          by_cases hbr : c = '\x7b'
          · rw [if_pos hbr] at h
            cases hsk : List.dropWhile isJws cs with
            | nil =>
              rw [show skipJws cs = ([] : List Char) from hsk] at h
              rw [if_neg (by simp)] at h
              cases hpm : parseMembers f ([] : List Char) with
              | error e2 =>
                rw [hpm] at h
                exact Except.noConfusion h
              | ok q => exact absurd hpm (parseMembers_nil f)
            | cons d t1 =>
              obtain ⟨tw, hcs⟩ : ∃ w, cs = w ++ (d :: t1) :=
                ⟨List.takeWhile isJws cs, by
                  rw [← hsk]
                  exact (List.takeWhile_append_dropWhile isJws cs).symm⟩
              rw [show skipJws cs = d :: t1 from hsk] at h
              simp only [List.head?_cons, List.tail_cons] at h
              by_cases hdq : d = '\x7d'
              · rw [if_pos (by rw [hdq])] at h
                obtain ⟨hv, hr⟩ := Prod.mk.injEq .. ▸ Except.ok.inj h
                subst hr
                subst hdq
                refine ⟨'\x7b' :: tw, '\x7d', ?_, by decide⟩
                rw [show (c :: cs) = '\x7b' :: cs from by rw [hbr], hcs]
                simp [List.cons_append]
              · rw [if_neg (fun he => hdq (Option.some.inj he))] at h
                cases hpm : parseMembers f (d :: t1) with
                | error e2 =>
                  rw [hpm] at h
                  exact Except.noConfusion h
                | ok q =>
                  rcases q with ⟨ms, r2⟩
                  rw [hpm] at h
                  dsimp only at h
                  obtain ⟨hv, hr⟩ := Prod.mk.injEq .. ▸ Except.ok.inj h
                  subst hr
                  obtain ⟨t, ht⟩ := ihm hpm
                  refine ⟨'\x7b' :: (tw ++ t), '\x7d', ?_, by decide⟩
                  rw [show (c :: cs) = '\x7b' :: cs from by rw [hbr], hcs, ht]
                  simp [List.cons_append, List.append_assoc]
          · rw [if_neg hbr] at h
            by_cases hbk : c = '['
            · rw [if_pos hbk] at h
              cases hsk : List.dropWhile isJws cs with
              | nil =>
                rw [show skipJws cs = ([] : List Char) from hsk] at h
                rw [if_neg (by simp)] at h
                cases hpe : parseElems f ([] : List Char) with
                | error e2 =>
                  rw [hpe] at h
                  exact Except.noConfusion h
                | ok q => exact absurd hpe (parseElems_nil f)
              | cons d t1 =>
                obtain ⟨tw, hcs⟩ : ∃ w, cs = w ++ (d :: t1) :=
                  ⟨List.takeWhile isJws cs, by
                    rw [← hsk]
                    exact (List.takeWhile_append_dropWhile isJws cs).symm⟩
                rw [show skipJws cs = d :: t1 from hsk] at h
                simp only [List.head?_cons, List.tail_cons] at h
                by_cases hdq : d = ']'
                · rw [if_pos (by rw [hdq])] at h
                  obtain ⟨hv, hr⟩ := Prod.mk.injEq .. ▸ Except.ok.inj h
                  subst hr
                  subst hdq
                  refine ⟨'[' :: tw, ']', ?_, by decide⟩
                  rw [show (c :: cs) = '[' :: cs from by rw [hbk], hcs]
                  simp [List.cons_append]
                · rw [if_neg (fun he => hdq (Option.some.inj he))] at h
                  cases hpe : parseElems f (d :: t1) with
                  | error e2 =>
                    rw [hpe] at h
                    exact Except.noConfusion h
                  | ok q =>
                    rcases q with ⟨vs, r2⟩
                    rw [hpe] at h
                    dsimp only at h
                    obtain ⟨hv, hr⟩ := Prod.mk.injEq .. ▸ Except.ok.inj h
                    subst hr
                    obtain ⟨t, ht⟩ := ihe hpe
                    refine ⟨'[' :: (tw ++ t), ']', ?_, by decide⟩
                    rw [show (c :: cs) = '[' :: cs from by rw [hbk], hcs, ht]
                    simp [List.cons_append, List.append_assoc]
            · rw [if_neg hbk] at h
              by_cases hlt : c = 't'
              · rw [if_pos hlt] at h
                cases hlp : isLitPre ['r', 'u', 'e'] cs with
                | none =>
                  rw [hlp] at h
                  exact Except.noConfusion h
                | some r1 =>
                  rw [hlp] at h
                  dsimp only at h
                  obtain ⟨hv, hr⟩ := Prod.mk.injEq .. ▸ Except.ok.inj h
                  subst hr
                  refine ⟨[c, 'r', 'u'], 'e', ?_, by decide⟩
                  rw [isLitPre_some_shape hlp]
                  rfl
              · rw [if_neg hlt] at h
                by_cases hlf : c = 'f'
                · rw [if_pos hlf] at h
                  cases hlp : isLitPre ['a', 'l', 's', 'e'] cs with
                  | none =>
                    rw [hlp] at h
                    exact Except.noConfusion h
                  | some r1 =>
                    rw [hlp] at h
                    dsimp only at h
                    obtain ⟨hv, hr⟩ := Prod.mk.injEq .. ▸ Except.ok.inj h
                    subst hr
                    refine ⟨[c, 'a', 'l', 's'], 'e', ?_, by decide⟩
                    rw [isLitPre_some_shape hlp]
                    rfl
                · rw [if_neg hlf] at h
                  by_cases hln : c = 'n'
                  · rw [if_pos hln] at h
                    cases hlp : isLitPre ['u', 'l', 'l'] cs with
                    | none =>
                      rw [hlp] at h
                      exact Except.noConfusion h
                    | some r1 =>
                      rw [hlp] at h
                      dsimp only at h
                      obtain ⟨hv, hr⟩ := Prod.mk.injEq .. ▸ Except.ok.inj h
                      subst hr
                      refine ⟨[c, 'u', 'l'], 'l', ?_, by decide⟩
                      rw [isLitPre_some_shape hlp]
                      rfl
                  · rw [if_neg hln] at h
                    by_cases hlN : c = 'N'
                    · rw [if_pos hlN] at h
                      cases hlp : isLitPre ['a', 'N'] cs with
                      | none =>
                        rw [hlp] at h
                        exact Except.noConfusion h
                      | some r1 =>
                        rw [hlp] at h
                        dsimp only at h
                        obtain ⟨hv, hr⟩ := Prod.mk.injEq .. ▸ Except.ok.inj h
                        subst hr
                        refine ⟨[c, 'a'], 'N', ?_, by decide⟩
                        rw [isLitPre_some_shape hlp]
                        rfl
                    · rw [if_neg hlN] at h
                      by_cases hlI : c = 'I'
                      · rw [if_pos hlI] at h
                        cases hlp : isLitPre ['n', 'f', 'i', 'n', 'i', 't', 'y'] cs with
                        | none =>
                          rw [hlp] at h
                          exact Except.noConfusion h
                        | some r1 =>
                          rw [hlp] at h
                          dsimp only at h
                          obtain ⟨hv, hr⟩ := Prod.mk.injEq .. ▸ Except.ok.inj h
                          subst hr
                          refine ⟨[c, 'n', 'f', 'i', 'n', 'i', 't'], 'y', ?_, by decide⟩
                          rw [isLitPre_some_shape hlp]
                          rfl
                      · rw [if_neg hlI] at h
                        cases hmn : matchNumber (c :: cs) with
                        | some q =>
                          rcases q with ⟨lex, r1⟩
                          rw [hmn] at h
                          dsimp only at h
                          obtain ⟨hv, hr⟩ := Prod.mk.injEq .. ▸ Except.ok.inj h
                          subst hr
                          obtain ⟨heq, l, dd, hlex, hdd⟩ := matchNumber_shape hmn
                          refine ⟨l, dd, ?_, digit_not_pws hdd⟩
                          rw [heq, hlex]
                          simp [List.append_assoc]
                        | none =>
                          rw [hmn] at h
                          dsimp only at h
                          by_cases hm : c = '-'
                          · rw [if_pos hm] at h
                            cases hlp : isLitPre ['I', 'n', 'f', 'i', 'n', 'i', 't', 'y'] cs with
                            | none =>
                              rw [hlp] at h
                              exact Except.noConfusion h
                            | some r1 =>
                              rw [hlp] at h
                              dsimp only at h
                              obtain ⟨hv, hr⟩ := Prod.mk.injEq .. ▸ Except.ok.inj h
                              subst hr
                              refine ⟨[c, 'I', 'n', 'f', 'i', 'n', 'i', 't'], 'y', ?_, by decide⟩
                              rw [isLitPre_some_shape hlp]
                              rfl
                          · rw [if_neg hm] at h
                            exact Except.noConfusion h
    · intro u vs r h
      simp only [parseElems] at h
      cases hpv : parseValue f u with
      | error e2 =>
        rw [hpv] at h
        exact Except.noConfusion h
      | ok q =>
        rcases q with ⟨v, r1⟩
        rw [hpv] at h
        dsimp only at h
        obtain ⟨t, ch, hu, hch⟩ := ihv hpv
        cases hsk : List.dropWhile isJws r1 with
        | nil =>
          rw [show skipJws r1 = ([] : List Char) from hsk] at h
          exact Except.noConfusion h
        | cons d t1 =>
          obtain ⟨tw1, hr1⟩ : ∃ w, r1 = w ++ (d :: t1) :=
            ⟨List.takeWhile isJws r1, by
              rw [← hsk]
              exact (List.takeWhile_append_dropWhile isJws r1).symm⟩
          rw [show skipJws r1 = d :: t1 from hsk] at h
          dsimp only at h
          by_cases hd1 : d = ']'
          · rw [if_pos hd1] at h
            obtain ⟨hv, hr⟩ := Prod.mk.injEq .. ▸ Except.ok.inj h
            subst hr
            subst hd1
            refine ⟨t ++ ch :: tw1, ?_⟩
            rw [hu, hr1]
            simp [List.cons_append, List.append_assoc]
          · rw [if_neg hd1] at h
            by_cases hd2 : d = ','
            · rw [if_pos hd2] at h
              cases hpe : parseElems f (skipJws t1) with
              | error e2 =>
                rw [hpe] at h
                exact Except.noConfusion h
              | ok q2 =>
                rcases q2 with ⟨vs2, r3⟩
                rw [hpe] at h
                dsimp only at h
                obtain ⟨hv, hr⟩ := Prod.mk.injEq .. ▸ Except.ok.inj h
                subst hr
                obtain ⟨t2, ht2⟩ := ihe hpe
                obtain ⟨tw2, ht1⟩ : ∃ w, t1 = w ++ (t2 ++ ']' :: r3) :=
                  ⟨List.takeWhile isJws t1, by
                    rw [← ht2]
                    exact (List.takeWhile_append_dropWhile isJws t1).symm⟩
                refine ⟨t ++ ch :: (tw1 ++ d :: (tw2 ++ t2)), ?_⟩
                rw [hu, hr1, ht1]
                simp [List.cons_append, List.append_assoc]
            · rw [if_neg hd2] at h
              exact Except.noConfusion h
    · intro u ms r h
      cases u with
      | nil => exact absurd h (parseMembers_nil (f + 1))
      | cons c cs1 =>
        simp only [parseMembers] at h
        by_cases hq : c = '"'
        · rw [if_pos hq] at h
          cases hsc : scanString f cs1 with
          | error e2 =>
            rw [hsc] at h
            exact Except.noConfusion h
          | ok q =>
            rcases q with ⟨key, r1⟩
            rw [hsc] at h
            dsimp only at h
            obtain ⟨body, hbody⟩ := scanString_shape f hsc
            cases hsk : List.dropWhile isJws r1 with
            | nil =>
              rw [show skipJws r1 = ([] : List Char) from hsk] at h
              exact Except.noConfusion h
            | cons d t1 =>
              obtain ⟨tw1, hr1⟩ : ∃ w, r1 = w ++ (d :: t1) :=
                ⟨List.takeWhile isJws r1, by
                  rw [← hsk]
                  exact (List.takeWhile_append_dropWhile isJws r1).symm⟩
              rw [show skipJws r1 = d :: t1 from hsk] at h
              dsimp only at h
              by_cases hc2 : d = ':'
              · rw [if_pos hc2] at h
                cases hpv : parseValue f (skipJws t1) with
                | error e2 =>
                  rw [hpv] at h
                  exact Except.noConfusion h
                | ok q2 =>
                  rcases q2 with ⟨v, r3⟩
                  rw [hpv] at h
                  dsimp only at h
                  obtain ⟨tv, chv, huv, hchv⟩ := ihv hpv
                  obtain ⟨tw2, ht1⟩ : ∃ w, t1 = w ++ (tv ++ chv :: r3) :=
                    ⟨List.takeWhile isJws t1, by
                      rw [← huv]
                      exact (List.takeWhile_append_dropWhile isJws t1).symm⟩
                  cases hsk3 : List.dropWhile isJws r3 with
                  | nil =>
                    rw [show skipJws r3 = ([] : List Char) from hsk3] at h
                    exact Except.noConfusion h
                  | cons d3 t3 =>
                    obtain ⟨tw3, hr3⟩ : ∃ w, r3 = w ++ (d3 :: t3) :=
                      ⟨List.takeWhile isJws r3, by
                        rw [← hsk3]
                        exact (List.takeWhile_append_dropWhile isJws r3).symm⟩
                    rw [show skipJws r3 = d3 :: t3 from hsk3] at h
                    dsimp only at h
                    by_cases hc3 : d3 = ','
                    · rw [if_pos hc3] at h
                      cases hpm : parseMembers f (skipJws t3) with
                      | error e2 =>
                        rw [hpm] at h
                        exact Except.noConfusion h
                      | ok q3 =>
                        rcases q3 with ⟨ms2, r5⟩
                        rw [hpm] at h
                        dsimp only at h
                        obtain ⟨hv, hr⟩ := Prod.mk.injEq .. ▸ Except.ok.inj h
                        subst hr
                        obtain ⟨tm, htm⟩ := ihm hpm
                        obtain ⟨tw4, ht3⟩ : ∃ w, t3 = w ++ (tm ++ '\x7d' :: r5) :=
                          ⟨List.takeWhile isJws t3, by
                            rw [← htm]
                            exact (List.takeWhile_append_dropWhile isJws t3).symm⟩
                        refine ⟨c :: (body ++ '"' :: (tw1 ++
                          d :: (tw2 ++ (tv ++ chv ::
                          (tw3 ++ d3 :: (tw4 ++ tm)))))), ?_⟩
                        rw [hbody, hr1, ht1, hr3, ht3]
                        simp [List.cons_append, List.append_assoc]
                    · rw [if_neg hc3] at h
                      by_cases hbr2 : d3 = '\x7d'
                      · rw [if_pos hbr2] at h
                        obtain ⟨hv, hr⟩ := Prod.mk.injEq .. ▸ Except.ok.inj h
                        subst hr
                        subst hbr2
                        refine ⟨c :: (body ++ '"' :: (tw1 ++
                          d :: (tw2 ++ (tv ++ chv :: tw3)))), ?_⟩
                        rw [hbody, hr1, ht1, hr3]
                        simp [List.cons_append, List.append_assoc]
                      · rw [if_neg hbr2] at h
                        exact Except.noConfusion h
              · rw [if_neg hc2] at h
                exact Except.noConfusion h
        · rw [if_neg hq] at h
          exact Except.noConfusion h

/-! ### Top-level decomposition of a successful parse -/

theorem loads_ok_decomp {F : Nat} {cs : List Char} {v : PyObj}
    (h : loadsWith F cs = .ok v) :
    ∃ (jp t0 r : List Char) (h0 : Char) (t0tl t : List Char) (ch : Char),
      cs = jp ++ (t0 ++ r) ∧
      (∀ c ∈ jp, isJws c = true) ∧
      (∀ c ∈ r, isJws c = true) ∧
      t0 = h0 :: t0tl ∧
      isPws h0 = false ∧ isJws h0 = false ∧ h0 ≠ '`' ∧
      t0 = t ++ [ch] ∧ isPws ch = false ∧
      parseValue F t0 = .ok (v, []) := by
  unfold loadsWith at h
  cases hpv : parseValue F (skipJws cs) with
  | error e2 =>
    rw [hpv] at h
    exact Except.noConfusion h
  | ok q =>
    rcases q with ⟨v1, r⟩
    rw [hpv] at h
    dsimp only at h
    by_cases hskr : skipJws r = []
    · rw [if_pos hskr] at h
      have hv : v1 = v := Except.ok.inj h
      rw [hv] at hpv
      have hr : ∀ c ∈ r, isJws c = true := List.dropWhile_eq_nil_iff.mp hskr
      have hrp : ∀ c ∈ r, isPws c = true := fun c hc => jws_pws (hr c hc)
      obtain ⟨t, ch, hshape, hch⟩ := (parse_shape F).1 hpv
      have hpv2 : parseValue F ((t ++ [ch]) ++ r) = .ok (v, r) := by
        rw [show (t ++ [ch]) ++ r = t ++ ch :: r by simp, ← hshape]
        exact hpv
      obtain ⟨r0, hr0, hpv0⟩ := (parse_unappend F hrp).1 hpv2
      have hr0len : r0.length = 0 := by
        have hlen := congrArg List.length hr0
        rw [List.length_append] at hlen
        omega
      have hr00 : r0 = [] := List.eq_nil_of_length_eq_zero hr0len
      subst hr00
      obtain ⟨jp, hcs2, hjp2⟩ :
          ∃ w, cs = w ++ skipJws cs ∧ (∀ c ∈ w, isJws c = true) :=
        ⟨List.takeWhile isJws cs, (List.takeWhile_append_dropWhile isJws cs).symm,
          fun c hc => List.mem_takeWhile_imp hc⟩
      cases t with
      | nil =>
        have hsc2 : skipJws cs = ch :: r := by
          rw [hshape]
          rfl
        rw [hsc2] at hpv
        have hst := parseValue_head_starter hpv
        obtain ⟨hp1, hp2, hp3⟩ := starter_facts hst
        refine ⟨jp, [ch], r, ch, [], [], ch,
          ?_, hjp2, hr, rfl, hp1, hp2, hp3, rfl, hch, hpv0⟩
        rw [hcs2, hsc2]
        simp
      | cons a tl =>
        have hsc2 : skipJws cs = a :: (tl ++ ch :: r) := by
          rw [hshape]
          rfl
        rw [hsc2] at hpv
        have hst := parseValue_head_starter hpv
        obtain ⟨hp1, hp2, hp3⟩ := starter_facts hst
        refine ⟨jp, (a :: tl) ++ [ch], r, a, tl ++ [ch], a :: tl, ch,
          ?_, hjp2, hr, by simp, hp1, hp2, hp3, rfl, hch, hpv0⟩
        rw [hcs2, hsc2]
        simp
    · rw [if_neg hskr] at h
      exact Except.noConfusion h

theorem clean_response_of_decomp {jp t0 r : List Char} {h0 : Char} {t0tl t : List Char}
    {ch : Char}
    (hjp : ∀ c ∈ jp, isJws c = true) (hr : ∀ c ∈ r, isJws c = true)
    (ht0 : t0 = h0 :: t0tl) (hp1 : isPws h0 = false) (hp3 : h0 ≠ '`')
    (htch : t0 = t ++ [ch]) (hch : isPws ch = false) :
    clean_response (jp ++ (t0 ++ r)) = t0 := by
  have hjpp : ∀ c ∈ jp, isPws c = true := fun c hc => jws_pws (hjp c hc)
  have hrp : ∀ c ∈ r, isPws c = true := fun c hc => jws_pws (hr c hc)
  have hleft : List.dropWhile isPws (jp ++ (t0 ++ r)) = t0 ++ r := by
    rw [dropWhile_append_all hjpp, ht0]
    rw [show (h0 :: t0tl) ++ r = h0 :: (t0tl ++ r) from rfl]
    rw [dropWhile_cons_of_neg hp1]
  have hstrip : pyStripWith isPws (jp ++ (t0 ++ r)) = t0 := by
    unfold pyStripWith
    rw [hleft, htch, show (t ++ [ch]) ++ r = t ++ ch :: r by simp]
    rw [dropRightWhile_append_end t hrp hch, ← htch]
  have hlit : isLitPre ['`', '`', '`'] t0 = none := by
    rw [ht0]
    exact isLitPre_none_of_head_ne hp3 t0tl
  simp only [clean_response, hstrip, hlit, Option.isSome_none, Bool.false_eq_true,
    if_false]

theorem safe_parse_of_loads_ok {cs : List Char} {v : PyObj}
    (h : loadsWith (2 * cs.length + 2) cs = .ok v) :
    safe_parse_json_list cs = (v, none) := by
  obtain ⟨jp, t0, r, h0, t0tl, t, ch, hcseq, hjp, hr, ht0, hp1, hp2, hp3, htch, hch, hpv0⟩ :=
    loads_ok_decomp h
  unfold safe_parse_json_list
  rw [show clean_response cs = t0 from by
    rw [hcseq]
    exact clean_response_of_decomp hjp hr ht0 hp1 hp3 htch hch]
  have hload : loadsWith (2 * cs.length + 2) t0 = .ok v := by
    unfold loadsWith
    rw [show skipJws t0 = t0 from by
      rw [ht0]
      exact dropWhile_cons_of_neg hp2 t0tl]
    rw [hpv0]
    rfl
  rw [hload]

theorem dropWhile_cons_of_pos {p : Char → Bool} {c : Char} (h : p c = true)
    (l : List Char) : List.dropWhile p (c :: l) = List.dropWhile p l := by
  simp [List.dropWhile_cons, h]

theorem clean_response_fenced (cs : List Char) :
    clean_response (('`' :: '`' :: '`' :: 'j' :: 's' :: 'o' :: 'n' :: '\n' :: []) ++
      (cs ++ ('\n' :: '`' :: '`' :: '`' :: []))) =
    '\n' :: (cs ++ ('\n' :: [])) := by
  have hstrip : pyStripWith isPws
      (('`' :: '`' :: '`' :: 'j' :: 's' :: 'o' :: 'n' :: '\n' :: []) ++
        (cs ++ ('\n' :: '`' :: '`' :: '`' :: []))) =
      ('`' :: '`' :: '`' :: 'j' :: 's' :: 'o' :: 'n' :: '\n' :: []) ++
        (cs ++ ('\n' :: '`' :: '`' :: '`' :: [])) := by
    unfold pyStripWith
    rw [show List.dropWhile isPws
        (('`' :: '`' :: '`' :: 'j' :: 's' :: 'o' :: 'n' :: '\n' :: []) ++
          (cs ++ ('\n' :: '`' :: '`' :: '`' :: []))) =
        ('`' :: '`' :: '`' :: 'j' :: 's' :: 'o' :: 'n' :: '\n' :: []) ++
          (cs ++ ('\n' :: '`' :: '`' :: '`' :: [])) from
      dropWhile_cons_of_neg (by decide)
        (('`' :: '`' :: 'j' :: 's' :: 'o' :: 'n' :: '\n' :: []) ++
          (cs ++ ('\n' :: '`' :: '`' :: '`' :: [])))]
    rw [show (('`' :: '`' :: '`' :: 'j' :: 's' :: 'o' :: 'n' :: '\n' :: []) ++
        (cs ++ ('\n' :: '`' :: '`' :: '`' :: []))) =
        (('`' :: '`' :: '`' :: 'j' :: 's' :: 'o' :: 'n' :: '\n' :: []) ++
          (cs ++ ('\n' :: '`' :: '`' :: []))) ++ ('`' :: []) from by simp]
    rw [dropRightWhile_append_end
      (('`' :: '`' :: '`' :: 'j' :: 's' :: 'o' :: 'n' :: '\n' :: []) ++
        (cs ++ ('\n' :: '`' :: '`' :: [])))
      (fun c hc => absurd hc (List.not_mem_nil c)) (by decide)]
  have hbt : (isLitPre ['`', '`', '`']
      (('`' :: '`' :: '`' :: 'j' :: 's' :: 'o' :: 'n' :: '\n' :: []) ++
        (cs ++ ('\n' :: '`' :: '`' :: '`' :: [])))).isSome = true := rfl
  have hdl : List.dropWhile (fun c => c = '`')
      (('`' :: '`' :: '`' :: 'j' :: 's' :: 'o' :: 'n' :: '\n' :: []) ++
        (cs ++ ('\n' :: '`' :: '`' :: '`' :: []))) =
      ('j' :: 's' :: 'o' :: 'n' :: '\n' :: []) ++
        (cs ++ ('\n' :: '`' :: '`' :: '`' :: [])) := by
    rw [show (('`' :: '`' :: '`' :: 'j' :: 's' :: 'o' :: 'n' :: '\n' :: []) ++
        (cs ++ ('\n' :: '`' :: '`' :: '`' :: []))) =
        '`' :: ('`' :: ('`' :: (('j' :: 's' :: 'o' :: 'n' :: '\n' :: []) ++
          (cs ++ ('\n' :: '`' :: '`' :: '`' :: []))))) from by simp]
    rw [dropWhile_cons_of_pos (by decide), dropWhile_cons_of_pos (by decide),
      dropWhile_cons_of_pos (by decide)]
    exact dropWhile_cons_of_neg (by decide) _
  have hdr : dropRightWhile (fun c => c = '`')
      (('j' :: 's' :: 'o' :: 'n' :: '\n' :: []) ++
        (cs ++ ('\n' :: '`' :: '`' :: '`' :: []))) =
      (('j' :: 's' :: 'o' :: 'n' :: '\n' :: []) ++ cs) ++ ('\n' :: []) := by
    rw [show (('j' :: 's' :: 'o' :: 'n' :: '\n' :: []) ++
        (cs ++ ('\n' :: '`' :: '`' :: '`' :: []))) =
        ((('j' :: 's' :: 'o' :: 'n' :: '\n' :: []) ++ cs) ++
          ('\n' :: ('`' :: '`' :: '`' :: []))) from by simp]
    exact dropRightWhile_append_end _ (by decide) (by decide)
  have hc2 : pyStripWith (fun c => c = '`')
      (('`' :: '`' :: '`' :: 'j' :: 's' :: 'o' :: 'n' :: '\n' :: []) ++
        (cs ++ ('\n' :: '`' :: '`' :: '`' :: []))) =
      (('j' :: 's' :: 'o' :: 'n' :: '\n' :: []) ++ cs) ++ ('\n' :: []) := by
    unfold pyStripWith
    rw [hdl, hdr]
  have hjs : (isLitPre ['j', 's', 'o', 'n']
      ((('j' :: 's' :: 'o' :: 'n' :: '\n' :: []) ++ cs) ++ ('\n' :: []))).isSome = true := rfl
  have hdrop : List.drop 4 ((('j' :: 's' :: 'o' :: 'n' :: '\n' :: []) ++ cs) ++ ('\n' :: [])) =
      '\n' :: (cs ++ ('\n' :: [])) := by simp
  simp only [clean_response, hstrip, hbt, if_true, hc2, hjs, hdrop]

theorem safe_parse_fenced_of_loads_ok {cs : List Char} {v : PyObj}
    (h : loadsWith (2 * cs.length + 2) cs = .ok v) :
    safe_parse_json_list
      (('`' :: '`' :: '`' :: 'j' :: 's' :: 'o' :: 'n' :: '\n' :: []) ++
        (cs ++ ('\n' :: '`' :: '`' :: '`' :: []))) = (v, none) := by
  obtain ⟨jp, t0, r, h0, t0tl, t, ch, hcseq, hjp, hr, ht0, hp1, hp2, hp3, htch, hch, hpv0⟩ :=
    loads_ok_decomp h
  subst ht0
  have hx2 : ∀ c ∈ r ++ ('\n' :: []), isPws c = true := by
    intro c hc
    rcases List.mem_append.mp hc with hc | hc
    · exact jws_pws (hr c hc)
    · have hcn : c = '\n' := List.mem_singleton.mp hc
      subst hcn
      decide
  have hxj : ∀ c ∈ r ++ ('\n' :: []), isJws c = true := by
    intro c hc
    rcases List.mem_append.mp hc with hc | hc
    · exact hr c hc
    · have hcn : c = '\n' := List.mem_singleton.mp hc
      subst hcn
      decide
  have hGlen : 2 * cs.length + 2 ≤
      2 * (('`' :: '`' :: '`' :: 'j' :: 's' :: 'o' :: 'n' :: '\n' :: []) ++
        (cs ++ ('\n' :: '`' :: '`' :: '`' :: []))).length + 2 := by
    simp only [List.length_append, List.length_cons, List.length_nil]
    omega
  have hmono := parse_mono_le hGlen hpv0
  have happ := (parse_append
    (2 * (('`' :: '`' :: '`' :: 'j' :: 's' :: 'o' :: 'n' :: '\n' :: []) ++
      (cs ++ ('\n' :: '`' :: '`' :: '`' :: []))).length + 2) hx2).1 hmono
  have hskw : skipJws ('\n' :: (cs ++ ('\n' :: []))) =
      h0 :: (t0tl ++ (r ++ ('\n' :: []))) := by
    show List.dropWhile isJws ('\n' :: (cs ++ ('\n' :: []))) = _
    rw [dropWhile_cons_of_pos (by decide)]
    rw [hcseq]
    rw [show ((jp ++ ((h0 :: t0tl) ++ r)) ++ ('\n' :: [])) =
      jp ++ ((h0 :: t0tl) ++ (r ++ ('\n' :: []))) from by simp]
    rw [dropWhile_append_all hjp]
    exact dropWhile_cons_of_neg hp2 _
  have hfin : loadsWith
      (2 * (('`' :: '`' :: '`' :: 'j' :: 's' :: 'o' :: 'n' :: '\n' :: []) ++
        (cs ++ ('\n' :: '`' :: '`' :: '`' :: []))).length + 2)
      (clean_response (('`' :: '`' :: '`' :: 'j' :: 's' :: 'o' :: 'n' :: '\n' :: []) ++
        (cs ++ ('\n' :: '`' :: '`' :: '`' :: [])))) = .ok v := by
    rw [clean_response_fenced cs]
    unfold loadsWith
    rw [hskw]
    rw [show parseValue
        (2 * (('`' :: '`' :: '`' :: 'j' :: 's' :: 'o' :: 'n' :: '\n' :: []) ++
          (cs ++ ('\n' :: '`' :: '`' :: '`' :: []))).length + 2)
        (h0 :: (t0tl ++ (r ++ ('\n' :: [])))) =
        Except.ok (v, r ++ ('\n' :: [])) from happ]
    dsimp only
    rw [show skipJws (r ++ ('\n' :: [])) = ([] : List Char) from
      List.dropWhile_eq_nil_iff.mpr hxj]
    rw [if_pos rfl]
  unfold safe_parse_json_list
  rw [hfin]

/-- **C1.** For every model response string `s` that is valid JSON (i.e.
`json.loads` succeeds on it), `_safe_parse_json` applied to `s` wrapped in a
triple-backtick code fence with a leading `json` language tag returns the same
structured value with no error message as `_safe_parse_json` applied to the
unfenced `s` — both equal the `json.loads` result paired with no error. -/
theorem c1_fenced_roundtrip (s : String) (v : PyObj)
    (h : json_loads s = .ok v) :
    safe_parse_json ("```json\n" ++ s ++ "\n```") = (v, none) ∧
    safe_parse_json s = (v, none) := by
  have hload : loadsWith (2 * s.data.length + 2) s.data = .ok v := h
  constructor
  · show safe_parse_json_list (("```json\n" ++ s ++ "\n```").data) = (v, none)
    rw [show ("```json\n" ++ s ++ "\n```").data =
      ('`' :: '`' :: '`' :: 'j' :: 's' :: 'o' :: 'n' :: '\n' :: []) ++
        (s.data ++ ('\n' :: '`' :: '`' :: '`' :: [])) from by simp [String.data_append]]
    exact safe_parse_fenced_of_loads_ok hload
  · exact safe_parse_of_loads_ok hload

theorem c1_fenced_roundtrip_witness :
    json_loads "[1, 2]" = .ok (.pyList [.pyNum "1", .pyNum "2"]) ∧
    safe_parse_json ("```json\n" ++ "[1, 2]" ++ "\n```") =
      (.pyList [.pyNum "1", .pyNum "2"], none) ∧
    safe_parse_json "[1, 2]" = (.pyList [.pyNum "1", .pyNum "2"], none) :=
  ⟨by rfl,
   (c1_fenced_roundtrip "[1, 2]" (.pyList [.pyNum "1", .pyNum "2"]) (by rfl)).1,
   (c1_fenced_roundtrip "[1, 2]" (.pyList [.pyNum "1", .pyNum "2"]) (by rfl)).2⟩

end IntakeSpec
